import Mathlib

/-!
# Yagnoetik tunnel session engine: frame codec, AEAD cipher, credential store, session registry

A shallow embedding of the Go sources

* `server/internal/protocol/frame.go` (frame codec),
* `client-windows/internal/crypto/encryption.go` and `client-android/vpn.go` (the two ciphers),
* `server/internal/auth/client.go` (credential store),
* `server/internal/tunnel/server.go` (session registry and forwarding loops),

together with the properties of the specification that concern them.

Conventions of the embedding.

* A Go `byte` is a `Fin 256`; a `[]byte` is a `List Byte`.
* `uint32` and `int64` values are natural numbers and integers reduced explicitly
  (`% 2^32`, `wrapInt64`).
* A `time.Time` is an integer count of nanoseconds, a `time.Duration` an integer; `Add` is
  addition and `After` is `<` reversed.
* Every read of the outside world (clock, random source, stream, adapter) is an explicit
  argument, and every operation on shared state returns the state it leaves behind.
-/

namespace Yagnoetik

set_option maxRecDepth 100000

/-! ## Bytes and errors -/

/-- A Go `byte`. -/
abbrev Byte := Fin 256

/-- The conversion `byte(n)` of an unsigned integer: the low eight bits. -/
def toByte (n : Nat) : Byte := ⟨n % 256, Nat.mod_lt n (by decide)⟩

/-- Go `error` values that the embedded code produces or passes on.
`msg s` stands for `errors.New(s)` / `fmt.Errorf(s)`; `wrapped p e` for `fmt.Errorf(p + ": %v", e)`.
`indexOutOfRange` stands for the run-time panic of an out-of-range index or slice expression. -/
inductive Err where
  | EOF
  | ErrUnexpectedEOF
  | msg (s : String)
  | wrapped (s : String) (e : Err)
  | indexOutOfRange
  deriving DecidableEq, Repr

deriving instance DecidableEq for Except

/-! ## `encoding/binary`, `io` -/

/-- `binary.BigEndian.PutUint32(buf[0:4], v)`: the four bytes written, most significant first. -/
def PutUint32 (v : Nat) : List Byte :=
  [toByte (v / 2 ^ 24), toByte (v / 2 ^ 16), toByte (v / 2 ^ 8), toByte v]

/-- `binary.BigEndian.Uint32(b)`: the value of the first four bytes; `none` is the panic of the
bounds check on a slice shorter than four bytes. -/
def Uint32 : List Byte → Option Nat
  | b0 :: b1 :: b2 :: b3 :: _ => some (b3.val + b2.val * 2 ^ 8 + b1.val * 2 ^ 16 + b0.val * 2 ^ 24)
  | _ => none

/-- An `io.Reader` over a byte stream: the bytes it still delivers, and the error it reports once
they are used up (`Err.EOF` for a stream that closes cleanly). -/
structure Reader where
  data : List Byte
  closing : Err
  deriving DecidableEq, Repr

/-- `io.ReadFull(r, buf)` with `len(buf) = n`: either exactly `n` bytes, or an error.
With `n = 0` nothing is read. A stream that ends cleanly after some but not all of the bytes
gives `ErrUnexpectedEOF`; one that ends before the first byte gives its own closing error. -/
def ReadFull (r : Reader) (n : Nat) : Except Err (List Byte) × Reader :=
  if n = 0 then (.ok [], r)
  else if n ≤ r.data.length then (.ok (r.data.take n), { r with data := r.data.drop n })
  else if r.data.length = 0 then (.error r.closing, r)
  else if r.closing = Err.EOF then (.error Err.ErrUnexpectedEOF, { r with data := [] })
  else (.error r.closing, { r with data := [] })

/-! ## `protocol/frame.go` -/

namespace protocol

def FrameTypeData : Byte := 0
def FrameTypePing : Byte := 1
def FrameTypePong : Byte := 2

/-- The Go struct `Frame`; the field `Typ` is the Go field `Type`. -/
structure Frame where
  Typ : Byte
  Data : List Byte
  deriving DecidableEq, Repr

/-- `(*Frame).Marshal`: `length := uint32(len(f.Data) + 1)`, then length, type and data are
written into a buffer of `4 + 1 + len(f.Data)` bytes. -/
def Frame.Marshal (f : Frame) : List Byte :=
  let length := (f.Data.length + 1) % 2 ^ 32
  PutUint32 length ++ [f.Typ] ++ f.Data

/-- `ReadFrame`: the result and the reader as the call leaves it. -/
def ReadFrame (r : Reader) : Except Err Frame × Reader :=
  match ReadFull r 4 with
  | (.error err, r1) => (.error err, r1)
  | (.ok lengthBuf, r1) =>
    match Uint32 lengthBuf with
    | none => (.error Err.indexOutOfRange, r1)
    | some length =>
      if length = 0 then (.error (Err.msg "invalid frame length"), r1)
      else if length > 65536 then (.error (Err.msg "frame too large"), r1)
      else
        match ReadFull r1 length with
        | (.error err, r2) => (.error err, r2)
        | (.ok frameBuf, r2) =>
          match frameBuf with
          | [] => (.error Err.indexOutOfRange, r2)
          | t :: rest => (.ok { Typ := t, Data := rest }, r2)

end protocol

/-! ## `crypto/rand`, `golang.org/x/crypto/chacha20poly1305` -/

/-- The system random source behind `crypto/rand`: the bytes it still delivers. A read that asks
for more than the pool holds is a failing read of the source. -/
structure RandSource where
  pool : List Byte
  deriving DecidableEq, Repr

namespace rand

/-- `rand.Read(b)` with `len(b) = n`: the contents of `b` after the call, the error (if any), and
the source afterwards. On success `b` holds the next `n` bytes of the source; on failure the
bytes that could be read are followed by the zero bytes `b` was allocated with. -/
def Read (src : RandSource) (n : Nat) : List Byte × Option Err × RandSource :=
  if n ≤ src.pool.length then (src.pool.take n, none, { pool := src.pool.drop n })
  else (src.pool ++ List.replicate (n - src.pool.length) 0,
        some (Err.msg "crypto/rand: read failed"), { pool := [] })

end rand

/-- The XChaCha20-Poly1305 primitive of the library, a parameter of the development:
sealing and opening under a key, a nonce and additional data. `Open` gives `none` when the
authentication tag does not verify. -/
structure XChaCha20Poly1305 where
  Seal : (key nonce plaintext additionalData : List Byte) → List Byte
  Open : (key nonce ciphertext additionalData : List Byte) → Option (List Byte)

/-- The contract of the primitive that the cipher round trip relies on: opening what was sealed
under the same key, nonce and additional data gives the plaintext back. -/
def XChaCha20Poly1305.Correct (P : XChaCha20Poly1305) : Prop :=
  ∀ key nonce plaintext ad, P.Open key nonce (P.Seal key nonce plaintext ad) ad = some plaintext

/-- A small instance of the primitive used to evaluate the definitions: the sealed text is the
plaintext followed by a one-byte tag computed from key, nonce and plaintext. -/
def toyPrimitive : XChaCha20Poly1305 where
  Seal := fun key nonce plaintext _ =>
    plaintext ++ [toByte ((key ++ nonce ++ plaintext).foldl (fun acc b => acc + b.val) 0)]
  Open := fun key nonce ciphertext _ =>
    match ciphertext.getLast? with
    | none => none
    | some tag =>
      if tag = toByte ((key ++ nonce ++ ciphertext.dropLast).foldl (fun acc b => acc + b.val) 0)
      then some ciphertext.dropLast else none

namespace chacha20poly1305

def KeySize : Nat := 32
def NonceSizeX : Nat := 24

/-- The `cipher.AEAD` value returned by `NewX`: the primitive bound to a key. -/
structure AEAD where
  key : List Byte
  deriving DecidableEq, Repr

/-- `chacha20poly1305.NewX(key)`. -/
def NewX (key : List Byte) : Except Err AEAD :=
  if key.length ≠ KeySize then .error (Err.msg "chacha20poly1305: bad key length")
  else .ok { key := key }

/-- `aead.NonceSize()`. -/
def AEAD.NonceSize (_a : AEAD) : Nat := NonceSizeX

/-- `aead.Seal(dst, nonce, plaintext, additionalData)`: the sealed text appended to `dst`. -/
def AEAD.Seal (P : XChaCha20Poly1305) (a : AEAD) (dst nonce plaintext ad : List Byte) :
    List Byte :=
  dst ++ P.Seal a.key nonce plaintext ad

/-- `aead.Open(dst, nonce, ciphertext, additionalData)`: the plaintext appended to `dst`, or the
authentication error. -/
def AEAD.Open (P : XChaCha20Poly1305) (a : AEAD) (dst nonce ciphertext ad : List Byte) :
    Except Err (List Byte) :=
  match P.Open a.key nonce ciphertext ad with
  | none => .error (Err.msg "chacha20poly1305: message authentication failed")
  | some plaintext => .ok (dst ++ plaintext)

end chacha20poly1305

/-- The slice expression `b[:n]`; `none` is the panic when `n` exceeds the length. -/
def sliceTo (b : List Byte) (n : Nat) : Option (List Byte) :=
  if n ≤ b.length then some (b.take n) else none

/-- The slice expression `b[n:]`; `none` is the panic when `n` exceeds the length. -/
def sliceFrom (b : List Byte) (n : Nat) : Option (List Byte) :=
  if n ≤ b.length then some (b.drop n) else none

/-! ## `client-windows/internal/crypto/encryption.go` -/

namespace clientWindows.crypto

open chacha20poly1305

/-- The Go struct `Cipher`. -/
structure Cipher where
  aead : AEAD
  deriving DecidableEq, Repr

/-- `NewCipher(key)`. -/
def NewCipher (key : List Byte) : Except Err Cipher :=
  if key.length ≠ 32 then .error (Err.msg "key must be 32 bytes")
  else
    match NewX key with
    | .error err => .error err
    | .ok aead => .ok { aead := aead }

/-- `(*Cipher).Encrypt`: the nonce buffer is filled by `rand.Read`; the result of
`Seal(nonce, nonce, plaintext, nil)` is the nonce followed by the sealed text. -/
def Cipher.Encrypt (P : XChaCha20Poly1305) (c : Cipher) (src : RandSource)
    (plaintext : List Byte) : Except Err (List Byte) × RandSource :=
  match rand.Read src c.aead.NonceSize with
  | (_, some err, src1) => (.error err, src1)
  | (nonce, none, src1) => (.ok (c.aead.Seal P nonce nonce plaintext []), src1)

/-- `(*Cipher).Decrypt`. -/
def Cipher.Decrypt (P : XChaCha20Poly1305) (c : Cipher) (ciphertext : List Byte) :
    Except Err (List Byte) :=
  if ciphertext.length < c.aead.NonceSize then .error (Err.msg "ciphertext too short")
  else
    match sliceTo ciphertext c.aead.NonceSize, sliceFrom ciphertext c.aead.NonceSize with
    | some nonce, some encrypted =>
      match c.aead.Open P [] nonce encrypted [] with
      | .error err => .error err
      | .ok plaintext => .ok plaintext
    | _, _ => .error Err.indexOutOfRange

end clientWindows.crypto

/-! ## `client-android/vpn.go`: the cipher -/

namespace clientAndroid

open chacha20poly1305

/-- The Go struct `Cipher`. -/
structure Cipher where
  aead : AEAD
  deriving DecidableEq, Repr

/-- `NewCipher(key)`. -/
def NewCipher (key : List Byte) : Except Err Cipher :=
  if key.length ≠ 32 then .error (Err.msg "key must be 32 bytes")
  else
    match NewX key with
    | .error err => .error err
    | .ok aead => .ok { aead := aead }

/-- `(*Cipher).Encrypt`: the nonce is the buffer `make([]byte, NonceSize)` as allocated, all
zero; no random source is read. -/
def Cipher.Encrypt (P : XChaCha20Poly1305) (c : Cipher) (plaintext : List Byte) :
    Except Err (List Byte) :=
  let nonce : List Byte := List.replicate c.aead.NonceSize 0
  .ok (c.aead.Seal P nonce nonce plaintext [])

/-- `(*Cipher).Decrypt`. -/
def Cipher.Decrypt (P : XChaCha20Poly1305) (c : Cipher) (ciphertext : List Byte) :
    Except Err (List Byte) :=
  if ciphertext.length < c.aead.NonceSize then .error (Err.msg "ciphertext too short")
  else
    match sliceTo ciphertext c.aead.NonceSize, sliceFrom ciphertext c.aead.NonceSize with
    | some nonce, some encrypted =>
      match c.aead.Open P [] nonce encrypted [] with
      | .error err => .error err
      | .ok plaintext => .ok plaintext
    | _, _ => .error Err.indexOutOfRange

end clientAndroid

/-! ## The contract of `Decrypt` -/

/-- What `Decrypt` does in either cipher, as a statement about its result `res` on the input `ct`
under the key `key`. -/
def DecryptContract (P : XChaCha20Poly1305) (key ct : List Byte)
    (res : Except Err (List Byte)) : Prop :=
  (res = .error (Err.msg "ciphertext too short") ↔ ct.length < 24) ∧
  (24 ≤ ct.length →
    (∀ plaintext, P.Open key (ct.take 24) (ct.drop 24) [] = some plaintext →
      res = .ok plaintext) ∧
    (P.Open key (ct.take 24) (ct.drop 24) [] = none →
      res = .error (Err.msg "chacha20poly1305: message authentication failed")) ∧
    (∀ plaintext, res = .ok plaintext →
      P.Open key (ct.take 24) (ct.drop 24) [] = some plaintext)) ∧
  (ct.length < 24 → ∀ plaintext, res ≠ .ok plaintext) ∧
  res ≠ .error Err.indexOutOfRange ∧
  (24 ≤ ct.length → sliceTo ct 24 = some (ct.take 24) ∧ sliceFrom ct 24 = some (ct.drop 24))

/-! ## Go maps with string keys, `encoding/hex`, `int64` -/

/-- A Go `map[string]V`: the list of its entries. Only `lookup` observes it, and `lookup` sees
the first entry of a key; `insert` and `erase` leave no second one. -/
abbrev GoMap (V : Type) := List (String × V)

namespace GoMap

/-- The lookup `v, exists := m[k]`. -/
def lookup {V : Type} (m : GoMap V) (k : String) : Option V :=
  match m with
  | [] => none
  | (k1, v) :: rest => if k1 = k then some v else lookup rest k

/-- The statement `delete(m, k)`. -/
def erase {V : Type} (m : GoMap V) (k : String) : GoMap V :=
  match m with
  | [] => []
  | (k1, v) :: rest => if k1 = k then erase rest k else (k1, v) :: erase rest k

/-- The assignment `m[k] = v`. -/
def insert {V : Type} (m : GoMap V) (k : String) (v : V) : GoMap V :=
  (k, v) :: erase m k

/-- An update through the pointer stored under `k`: `m[k].field = ...`. -/
def modify {V : Type} (m : GoMap V) (k : String) (f : V → V) : GoMap V :=
  match m with
  | [] => []
  | (k1, v) :: rest =>
    if k1 = k then (k1, f v) :: modify rest k f else (k1, v) :: modify rest k f

end GoMap

namespace hex

/-- One lower-case hexadecimal digit. -/
def digit (n : Nat) : Char :=
  if n < 10 then Char.ofNat (48 + n) else Char.ofNat (87 + n)

/-- `hex.EncodeToString`. -/
def EncodeToString (b : List Byte) : String :=
  String.mk (b.flatMap (fun x => [digit (x.val / 16), digit (x.val % 16)]))

end hex

/-- The value of an `int64` computation whose exact result is `x`: two's-complement wrap-around. -/
def wrapInt64 (x : Int) : Int := (x + 2 ^ 63) % 2 ^ 64 - 2 ^ 63

/-! ## `server/internal/auth/client.go` -/

namespace auth

/-- The Go struct `Client`. Times are nanosecond counts. -/
structure Client where
  UUID : String
  Secret : String
  Key : List Byte
  CreatedAt : Int
  ExpiresAt : Int
  Blocked : Bool
  BytesUp : Int
  BytesDown : Int
  deriving DecidableEq, Repr

/-- The Go struct `ClientManager`. The records live in the map: every write to a record in the
sources goes through a lookup in `clients` under the manager's mutex. -/
structure ClientManager where
  clients : GoMap Client
  deriving DecidableEq, Repr

/-- `NewClientManager`. -/
def NewClientManager : ClientManager := { clients := [] }

/-- `generateUUID`: 16 random bytes (the error of `rand.Read` is ignored), version and variant
bits set in bytes 6 and 8, rendered in hexadecimal. -/
def generateUUID (src : RandSource) : String × RandSource :=
  let (bytes, _, src1) := rand.Read src 16
  let bytes := bytes.set 6 (toByte (((bytes.getD 6 0).val &&& 0x0f) ||| 0x40))
  let bytes := bytes.set 8 (toByte (((bytes.getD 8 0).val &&& 0x3f) ||| 0x80))
  (hex.EncodeToString bytes, src1)

/-- `generateSecret`: 16 random bytes (the error of `rand.Read` is ignored) in hexadecimal. -/
def generateSecret (src : RandSource) : String × RandSource :=
  let (bytes, _, src1) := rand.Read src 16
  (hex.EncodeToString bytes, src1)

/-- `(*ClientManager).CreateClient(duration)`. `now1` and `now2` are the two readings of
`time.Now()`, for `CreatedAt` and for `ExpiresAt`, in that order. -/
def ClientManager.CreateClient (cm : ClientManager) (src : RandSource) (now1 now2 : Int)
    (duration : Int) : Except Err Client × ClientManager × RandSource :=
  let (uuid, src1) := generateUUID src
  let (secret, src2) := generateSecret src1
  match rand.Read src2 32 with
  | (_, some err, src3) => (.error err, cm, src3)
  | (key, none, src3) =>
    let client : Client :=
      { UUID := uuid, Secret := secret, Key := key, CreatedAt := now1,
        ExpiresAt := now2 + duration, Blocked := false, BytesUp := 0, BytesDown := 0 }
    (.ok client, { cm with clients := cm.clients.insert uuid client }, src3)

/-- `(*ClientManager).GetClient(uuid)`; `now` is the reading of `time.Now()`.
`time.Now().After(client.ExpiresAt)` is `client.ExpiresAt < now`. -/
def ClientManager.GetClient (cm : ClientManager) (now : Int) (uuid : String) :
    Option Client × ClientManager :=
  match cm.clients.lookup uuid with
  | none => (none, cm)
  | some client =>
    if client.Blocked || decide (client.ExpiresAt < now) then (none, cm)
    else (some client, cm)

/-- `(*ClientManager).DeleteClient(uuid)`. -/
def ClientManager.DeleteClient (cm : ClientManager) (uuid : String) : Bool × ClientManager :=
  match cm.clients.lookup uuid with
  | some _ => (true, { cm with clients := cm.clients.erase uuid })
  | none => (false, cm)

/-- `(*ClientManager).BlockClient(uuid)`. -/
def ClientManager.BlockClient (cm : ClientManager) (uuid : String) : Bool × ClientManager :=
  match cm.clients.lookup uuid with
  | some _ =>
    (true, { cm with clients := cm.clients.modify uuid (fun c => { c with Blocked := true }) })
  | none => (false, cm)

/-- `(*ClientManager).UnblockClient(uuid)`. -/
def ClientManager.UnblockClient (cm : ClientManager) (uuid : String) : Bool × ClientManager :=
  match cm.clients.lookup uuid with
  | some _ =>
    (true, { cm with clients := cm.clients.modify uuid (fun c => { c with Blocked := false }) })
  | none => (false, cm)

/-- `(*ClientManager).ListClients()`: the records, in the order the map is ranged over. -/
def ClientManager.ListClients (cm : ClientManager) : List Client × ClientManager :=
  (cm.clients.map (fun e => e.2), cm)

/-- `(*ClientManager).UpdateTraffic(uuid, bytesUp, bytesDown)`. -/
def ClientManager.UpdateTraffic (cm : ClientManager) (uuid : String) (bytesUp bytesDown : Int) :
    ClientManager :=
  match cm.clients.lookup uuid with
  | some _ =>
    { cm with clients := cm.clients.modify uuid (fun c =>
        { c with BytesUp := wrapInt64 (c.BytesUp + bytesUp),
                 BytesDown := wrapInt64 (c.BytesDown + bytesDown) }) }
  | none => cm

end auth

/-! ## The server's `internal/crypto` package -/

namespace serverCrypto

/-- Modelled from the spec: the server's package `yagnoetik-vpn/internal/crypto` is not among
the sources. Section 4.2: the cipher is "constructed from exactly 32 raw key bytes". -/
structure Cipher where
  key : List Byte
  deriving DecidableEq, Repr

/-- Modelled from the spec: the server's `crypto.NewCipher` is not among the sources.
Section 4.2: "Constructed from exactly 32 raw key bytes; fails with `InvalidKeyLength`
otherwise." -/
def NewCipher (key : List Byte) : Except Err Cipher :=
  if key.length ≠ 32 then .error (Err.msg "InvalidKeyLength") else .ok { key := key }

/-- Modelled from the spec: the server's `(*Cipher).Encrypt` is not among the sources.
Section 4.2: "generates a fresh random nonce of the algorithm's required size (24 bytes for the
extended-nonce variant used), and returns `nonce || seal(nonce, plaintext)`"; the nonce bytes
are drawn from the random source, whose failure is the error of the call. -/
def Cipher.Encrypt (P : XChaCha20Poly1305) (c : Cipher) (src : RandSource)
    (plaintext : List Byte) : Except Err (List Byte) × RandSource :=
  match rand.Read src 24 with
  | (_, some err, src1) => (.error err, src1)
  | (nonce, none, src1) => (.ok (nonce ++ P.Seal c.key nonce plaintext []), src1)

/-- Modelled from the spec: the server's `(*Cipher).Decrypt` is not among the sources.
Section 4.2: "fails with `Truncated` if input is shorter than the nonce size; otherwise splits
nonce/ciphertext and fails with `AuthenticationFailed` if the authenticated-decryption tag check
fails". -/
def Cipher.Decrypt (P : XChaCha20Poly1305) (c : Cipher) (ciphertext : List Byte) :
    Except Err (List Byte) :=
  if ciphertext.length < 24 then .error (Err.msg "Truncated")
  else
    match P.Open c.key (ciphertext.take 24) (ciphertext.drop 24) [] with
    | none => .error (Err.msg "AuthenticationFailed")
    | some plaintext => .ok plaintext

end serverCrypto

/-! ## `server/internal/tunnel/server.go` -/

namespace tunnel

/-- The gRPC metadata `metadata.MD`. -/
abbrev MD := GoMap (List String)

/-- `md.Get(k)`. -/
def MD.Get (md : MD) (k : String) : List String := (GoMap.lookup md k).getD []

/-- The error `ctx.Err()` of a cancelled context. -/
def ctxErr : Err := Err.msg "context canceled"

/-- The Go struct `Connection`. `stream` and `tunConn` are handles; `done` tells whether `ctx`
is done, which `cancel()` and the cancellation of the stream's own context bring about.
`client` is the record `GetClient` returned: the session reads its `UUID` only. -/
structure Connection where
  client : auth.Client
  cipher : serverCrypto.Cipher
  stream : Nat
  tunConn : Nat
  lastPing : Int
  bytesUp : Int
  bytesDown : Int
  done : Bool
  deriving DecidableEq, Repr

/-- The Go struct `Server`. The registry maps an identity to the address of a `Connection`. -/
structure Server where
  clientManager : auth.ClientManager
  connections : GoMap Nat
  deriving DecidableEq, Repr

/-- `NewServer`. -/
def NewServer (clientManager : auth.ClientManager) : Server :=
  { clientManager := clientManager, connections := [] }

/-- One invocation of `Server.Connect` between the registration of its connection and its
deferred clean-up: `ptr` is the address `conn`, `uuid` the local variable of that name, `errChan`
the buffered channel, and the three flags tell which of its goroutines still run. `sent` and
`written` record, in order, the frames whose `stream.Send` succeeded (with the message sent)
and the payloads whose `tunConn.Write` succeeded. -/
structure Session where
  ptr : Nat
  uuid : String
  conn : Connection
  errChan : List (Option Err)
  streamToTun : Bool
  tunToStream : Bool
  keepAlive : Bool
  sent : List (protocol.Frame × List Byte)
  written : List (List Byte)
  deriving DecidableEq, Repr

/-- What the surroundings supply to the first part of `Connect`: the metadata of the stream's
context (`none` when `FromIncomingContext` reports none), the clock reading inside `GetClient`,
the result of `createTunConnection`, the clock reading for `lastPing`, the stream handle. -/
structure ConnectEnv where
  md : Option MD
  now : Int
  tun : Except Err Nat
  now2 : Int
  stream : Nat
  deriving DecidableEq, Repr

/-- `Server.Connect` up to and including the registration `s.connections[uuid] = conn`:
either the error returned before any registration, or the session that starts. `ptr` is the
address of the `Connection` allocated. -/
def Server.ConnectAccept (s : Server) (ptr : Nat) (env : ConnectEnv) :
    Except Err Session × Server :=
  match env.md with
  | none => (.error (Err.msg "no metadata"), s)
  | some md =>
    match MD.Get md "uuid", MD.Get md "secret" with
    | uuid :: _, secret :: _ =>
      match s.clientManager.GetClient env.now uuid with
      | (none, cm1) => (.error (Err.msg "invalid credentials"), { s with clientManager := cm1 })
      | (some client, cm1) =>
        if client.Secret ≠ secret then
          (.error (Err.msg "invalid credentials"), { s with clientManager := cm1 })
        else
          match serverCrypto.NewCipher client.Key with
          | .error err =>
            (.error (Err.wrapped "failed to create cipher" err), { s with clientManager := cm1 })
          | .ok cipher =>
            match env.tun with
            | .error err =>
              (.error (Err.wrapped "failed to create tun connection" err),
                { s with clientManager := cm1 })
            | .ok tunConn =>
              let conn : Connection :=
                { client := client, cipher := cipher, stream := env.stream, tunConn := tunConn,
                  lastPing := env.now2, bytesUp := 0, bytesDown := 0, done := false }
              (.ok { ptr := ptr, uuid := uuid, conn := conn, errChan := [], streamToTun := true,
                     tunToStream := true, keepAlive := true, sent := [], written := [] },
                { clientManager := cm1, connections := s.connections.insert uuid ptr })
    | _, _ => (.error (Err.msg "missing credentials"), s)

/-- The deferred function of `Connect`: `delete(s.connections, uuid)` and then
`UpdateTraffic(uuid, conn.bytesUp, conn.bytesDown)`. -/
def Server.ConnectDeferred (s : Server) (sess : Session) : Server :=
  { clientManager :=
      s.clientManager.UpdateTraffic sess.uuid sess.conn.bytesUp sess.conn.bytesDown,
    connections := s.connections.erase sess.uuid }

/-- `Server.sendFrame`: the error returned, the random source afterwards, and the message handed
to `stream.Send` if encryption succeeded; `sendErr` is what `stream.Send` returns. -/
def Server.sendFrame (P : XChaCha20Poly1305) (conn : Connection) (rnd : RandSource)
    (frame : protocol.Frame) (sendErr : Option Err) :
    Option Err × RandSource × Option (List Byte) :=
  let frameData := frame.Typ :: frame.Data
  match conn.cipher.Encrypt P rnd frameData with
  | (.error err, rnd1) => (some err, rnd1, none)
  | (.ok encrypted, rnd1) => (sendErr, rnd1, some encrypted)

/-- One pass through the loop of `Server.handleTunToStream`. `data` and `readErr` are what
`tunConn.Read(buf)` delivers (`buf` holds 1500 bytes), `sendErr` what `stream.Send` returns. -/
def Server.handleTunToStream (P : XChaCha20Poly1305) (sess : Session) (rnd : RandSource)
    (data : List Byte) (readErr sendErr : Option Err) : Session × RandSource :=
  if sess.conn.done then
    ({ sess with errChan := sess.errChan ++ [some ctxErr], tunToStream := false }, rnd)
  else
    match readErr with
    | some err =>
      ({ sess with errChan := sess.errChan ++ [some (Err.wrapped "tun read error" err)],
                   tunToStream := false }, rnd)
    | none =>
      let packet := data.take 1500
      let n := packet.length
      if n > 0 then
        let frame : protocol.Frame := { Typ := protocol.FrameTypeData, Data := packet }
        match Server.sendFrame P sess.conn rnd frame sendErr with
        | (some err, rnd1, _) =>
          ({ sess with errChan := sess.errChan ++ [some (Err.wrapped "send frame error" err)],
                       tunToStream := false }, rnd1)
        | (none, rnd1, msg) =>
          ({ sess with conn := { sess.conn with bytesUp := wrapInt64 (sess.conn.bytesUp + n) },
                       sent := sess.sent ++ [(frame, msg.getD [])] }, rnd1)
      else (sess, rnd)

/-- One pass through the loop of `Server.handleStreamToTun`. `recv` is what `stream.Recv()`
delivers, `writeErr` what `tunConn.Write` returns, `sendErr` what `stream.Send` returns, `now`
the clock reading for `lastPing`. -/
def Server.handleStreamToTun (P : XChaCha20Poly1305) (sess : Session) (rnd : RandSource)
    (recv : Except Err (List Byte)) (writeErr sendErr : Option Err) (now : Int) :
    Session × RandSource :=
  if sess.conn.done then
    ({ sess with errChan := sess.errChan ++ [some ctxErr], streamToTun := false }, rnd)
  else
    match recv with
    | .error err =>
      if err = Err.EOF then
        ({ sess with errChan := sess.errChan ++ [none], streamToTun := false }, rnd)
      else
        ({ sess with errChan := sess.errChan ++ [some (Err.wrapped "stream recv error" err)],
                     streamToTun := false }, rnd)
    | .ok msgData =>
      match sess.conn.cipher.Decrypt P msgData with
      | .error _ => (sess, rnd)
      | .ok decrypted =>
        if decrypted.length < 1 then (sess, rnd)
        else
          match decrypted with
          | [] => (sess, rnd)
          | typ :: payload =>
            if typ = protocol.FrameTypeData then
              match writeErr with
              | some err =>
                ({ sess with
                    errChan := sess.errChan ++ [some (Err.wrapped "tun write error" err)],
                    streamToTun := false }, rnd)
              | none =>
                ({ sess with
                    conn := { sess.conn with
                      bytesDown := wrapInt64 (sess.conn.bytesDown + payload.length) },
                    written := sess.written ++ [payload] }, rnd)
            else if typ = protocol.FrameTypePing then
              let pongFrame : protocol.Frame := { Typ := protocol.FrameTypePong, Data := payload }
              match Server.sendFrame P sess.conn rnd pongFrame sendErr with
              | (none, rnd1, some msg) =>
                ({ sess with conn := { sess.conn with lastPing := now },
                             sent := sess.sent ++ [(pongFrame, msg)] }, rnd1)
              | (_, rnd1, _) => ({ sess with conn := { sess.conn with lastPing := now } }, rnd1)
            else if typ = protocol.FrameTypePong then
              ({ sess with conn := { sess.conn with lastPing := now } }, rnd)
            else (sess, rnd)

/-- One tick of the loop of `Server.keepAlive`; `now` is the clock reading of `time.Since`,
`sendErr` what `stream.Send` returns. Durations are in nanoseconds. -/
def Server.keepAlive (P : XChaCha20Poly1305) (sess : Session) (rnd : RandSource) (now : Int)
    (sendErr : Option Err) : Session × RandSource :=
  if sess.conn.done then ({ sess with keepAlive := false }, rnd)
  else if now - sess.conn.lastPing > 30 * 10 ^ 9 then
    ({ sess with conn := { sess.conn with done := true }, keepAlive := false }, rnd)
  else
    let pingFrame : protocol.Frame :=
      { Typ := protocol.FrameTypePing, Data := [112, 105, 110, 103] }
    match Server.sendFrame P sess.conn rnd pingFrame sendErr with
    | (some _, rnd1, _) =>
      ({ sess with conn := { sess.conn with done := true }, keepAlive := false }, rnd1)
    | (none, rnd1, msg) => ({ sess with sent := sess.sent ++ [(pingFrame, msg.getD [])] }, rnd1)

end tunnel

/-! ## Sessions and the engine as transition systems -/

namespace tunnel

/-- What the surroundings do to a running session: one pass of one of its three loops, with the
results of the input and output calls made in it, or the cancellation of the stream's context
from outside. -/
inductive Event where
  | tunRead (data : List Byte) (readErr sendErr : Option Err)
  | streamRecv (recv : Except Err (List Byte)) (writeErr sendErr : Option Err) (now : Int)
  | tick (now : Int) (sendErr : Option Err)
  | ctxDone
  deriving DecidableEq, Repr

/-- The effect of one event on a session; a loop that has returned makes no further pass. -/
def Session.step (P : XChaCha20Poly1305) (sess : Session) (rnd : RandSource) :
    Event → Session × RandSource
  | .tunRead data readErr sendErr =>
    if sess.tunToStream then Server.handleTunToStream P sess rnd data readErr sendErr
    else (sess, rnd)
  | .streamRecv recv writeErr sendErr now =>
    if sess.streamToTun then Server.handleStreamToTun P sess rnd recv writeErr sendErr now
    else (sess, rnd)
  | .tick now sendErr =>
    if sess.keepAlive then Server.keepAlive P sess rnd now sendErr else (sess, rnd)
  | .ctxDone => ({ sess with conn := { sess.conn with done := true } }, rnd)

/-- A session run through a schedule of events, in order. -/
def Session.run (P : XChaCha20Poly1305) (sess : Session) (rnd : RandSource) :
    List Event → Session × RandSource
  | [] => (sess, rnd)
  | ev :: evs => Session.run P (Session.step P sess rnd ev).1 (Session.step P sess rnd ev).2 evs

/-- The `select` that ends `Connect` can fire: a value waits in `errChan` or `ctx` is done. -/
def Session.canReturn (sess : Session) : Bool :=
  !sess.errChan.isEmpty || sess.conn.done

/-- The value `ret` is one that the `select` ending `Connect` can return: the first value of
`errChan`, or `ctx.Err()` once `ctx` is done. -/
def Session.returns (sess : Session) (ret : Option Err) : Prop :=
  sess.errChan.head? = some ret ∨ (sess.conn.done = true ∧ ret = some ctxErr)

/-- The plaintext bytes of the `Data` frames among the frames sent. -/
def dataBytes (sent : List (protocol.Frame × List Byte)) : Int :=
  (sent.map (fun e =>
    if e.1.Typ = protocol.FrameTypeData then (e.1.Data.length : Int) else 0)).sum

/-- The bytes of the payloads written. -/
def writtenBytes (written : List (List Byte)) : Int :=
  (written.map (fun payload => (payload.length : Int))).sum

/-- The engine: the server's shared state, the process-wide random source, the invocations of
`Connect` that have registered and not yet run their deferred clean-up, and the next free
address for a `Connection`. -/
structure Engine where
  server : Server
  rnd : RandSource
  live : List Session
  nextPtr : Nat
  deriving DecidableEq, Repr

/-- The steps of the engine. -/
inductive Action where
  | connect (env : ConnectEnv)
  | event (ptr : Nat) (ev : Event)
  | teardown (ptr : Nat)
  | createClient (now1 now2 duration : Int)
  | deleteClient (uuid : String)
  | blockClient (uuid : String)
  | unblockClient (uuid : String)
  deriving DecidableEq, Repr

/-- The engine with no session, over a given credential store. -/
def Engine.init (cm : auth.ClientManager) (rnd : RandSource) : Engine :=
  { server := NewServer cm, rnd := rnd, live := [], nextPtr := 0 }

/-- One step of the engine. `connect` is `Connect` up to the registration (a rejected attempt
leaves no session); `event` lets the session at `ptr` make one pass of a loop; `teardown` is
the return of that session's `Connect`, possible once its `select` can fire, and runs the
deferred clean-up; the remaining steps are the administrative calls on the credential store. -/
def Engine.step (P : XChaCha20Poly1305) (e : Engine) : Action → Engine
  | .connect env =>
    match Server.ConnectAccept e.server e.nextPtr env with
    | (.error _, s1) => { e with server := s1 }
    | (.ok sess, s1) =>
      { e with server := s1, live := e.live ++ [sess], nextPtr := e.nextPtr + 1 }
  | .event ptr ev =>
    match e.live.find? (fun x => x.ptr = ptr) with
    | none => e
    | some sess =>
      { e with live := e.live.map (fun x => if x.ptr = ptr then (x.step P e.rnd ev).1 else x),
               rnd := (sess.step P e.rnd ev).2 }
  | .teardown ptr =>
    match e.live.find? (fun x => x.ptr = ptr) with
    | none => e
    | some sess =>
      if sess.canReturn then
        { e with server := Server.ConnectDeferred e.server sess,
                 live := e.live.filter (fun x => x.ptr ≠ ptr) }
      else e
  | .createClient now1 now2 duration =>
    match e.server.clientManager.CreateClient e.rnd now1 now2 duration with
    | (_, cm1, rnd1) => { e with server := { e.server with clientManager := cm1 }, rnd := rnd1 }
  | .deleteClient uuid =>
    { e with server := { e.server with
        clientManager := (e.server.clientManager.DeleteClient uuid).2 } }
  | .blockClient uuid =>
    { e with server := { e.server with
        clientManager := (e.server.clientManager.BlockClient uuid).2 } }
  | .unblockClient uuid =>
    { e with server := { e.server with
        clientManager := (e.server.clientManager.UnblockClient uuid).2 } }

/-- The engine run through a list of steps. -/
def Engine.run (P : XChaCha20Poly1305) (e : Engine) : List Action → Engine
  | [] => e
  | a :: as => Engine.run P (Engine.step P e a) as

/-- The states the engine reaches from an empty registry. -/
def Engine.Reachable (P : XChaCha20Poly1305) (e : Engine) : Prop :=
  ∃ cm rnd acts, e = Engine.run P (Engine.init cm rnd) acts

/-- The ways in which one pass of a loop, or a cancellation, changes a session. -/
inductive Evolves (s : Session) : Session → Prop where
  | same : Evolves s s
  | tunExit (e : Option Err) (he : e ≠ some (Err.msg "invalid credentials")) :
      Evolves s { s with errChan := s.errChan ++ [e], tunToStream := false }
  | streamExit (e : Option Err) (he : e ≠ some (Err.msg "invalid credentials")) :
      Evolves s { s with errChan := s.errChan ++ [e], streamToTun := false }
  | forwarded (pkt msg : List Byte) :
      Evolves s { s with
        conn := { s.conn with bytesUp := wrapInt64 (s.conn.bytesUp + pkt.length) },
        sent := s.sent ++ [({ Typ := protocol.FrameTypeData, Data := pkt }, msg)] }
  | delivered (payload : List Byte) :
      Evolves s { s with
        conn := { s.conn with bytesDown := wrapInt64 (s.conn.bytesDown + payload.length) },
        written := s.written ++ [payload] }
  | control (f : protocol.Frame) (hf : f.Typ ≠ protocol.FrameTypeData) (msg : List Byte)
      (lastPing : Int) :
      Evolves s { s with conn := { s.conn with lastPing := lastPing },
                         sent := s.sent ++ [(f, msg)] }
  | refreshed (lastPing : Int) :
      Evolves s { s with conn := { s.conn with lastPing := lastPing } }
  | keepAliveExit (done : Bool) :
      Evolves s { s with conn := { s.conn with done := done }, keepAlive := false }
  | cancelled : Evolves s { s with conn := { s.conn with done := true } }

/-- No value waiting in `errChan` is the error of a failed authentication. -/
def errChanClean (sess : Session) : Prop :=
  ∀ x ∈ sess.errChan, x ≠ some (Err.msg "invalid credentials")

/-- The accounting invariant of a session: its counters are the bytes of the `Data` frames sent
and of the payloads written, in `int64` arithmetic. -/
def Accounted (sess : Session) : Prop :=
  sess.conn.bytesUp = wrapInt64 (dataBytes sess.sent) ∧
  sess.conn.bytesDown = wrapInt64 (writtenBytes sess.written)

/-- The session that `Connect` registers for `uuid` at address `ptr`. -/
def freshSession (ptr : Nat) (uuid : String) (client : auth.Client)
    (cipher : serverCrypto.Cipher) (env : ConnectEnv) (tunConn : Nat) : Session :=
  { ptr := ptr, uuid := uuid,
    conn := { client := client, cipher := cipher, stream := env.stream, tunConn := tunConn,
              lastPing := env.now2, bytesUp := 0, bytesDown := 0, done := false },
    errChan := [], streamToTun := true, tunToStream := true, keepAlive := true,
    sent := [], written := [] }

/-- A live session is registered when the registry entry of its identity is its own
connection. -/
def Engine.registered (e : Engine) (x : Session) : Bool :=
  e.server.connections.lookup x.uuid = some x.ptr

/-- The live sessions of an identity that are registered. -/
def Engine.registeredFor (e : Engine) (uuid : String) : List Session :=
  e.live.filter (fun x => x.uuid = uuid && e.registered x)

/-- Consistency of the engine: the addresses of the live sessions are distinct and below the
next free one, and every registry entry designates a live session of that identity. -/
def Engine.Consistent (e : Engine) : Prop :=
  (∀ x ∈ e.live, x.ptr < e.nextPtr) ∧
  (e.live.map (fun x => x.ptr)).Nodup ∧
  (∀ u p, e.server.connections.lookup u = some p → ∃ x ∈ e.live, x.ptr = p ∧ x.uuid = u)

/-- The live sessions of an identity. -/
def Engine.liveFor (e : Engine) (uuid : String) : List Session :=
  e.live.filter (fun x => x.uuid = uuid)

end tunnel

/-! ## `time.ParseDuration` and `api/admin.go` -/

namespace time

/-- The entry of `unitMap` for a unit, in nanoseconds. -/
def unitMap (u : List Char) : Option Nat :=
  if u = ['n', 's'] then some 1
  else if u = ['u', 's'] then some 1000
  else if u = ['µ', 's'] then some 1000
  else if u = ['μ', 's'] then some 1000
  else if u = ['m', 's'] then some 1000000
  else if u = ['s'] then some 1000000000
  else if u = ['m'] then some 60000000000
  else if u = ['h'] then some 3600000000000
  else none

/-- A decimal digit. -/
def isDigit (c : Char) : Bool := decide ('0' ≤ c) && decide (c ≤ '9')

/-- The step of reading one more decimal digit. -/
def digitStep (x : Nat) (c : Char) : Nat := x * 10 + (c.toNat - 48)

/-- The loop of `leadingInt`, from the value `x` read so far: the value and the rest of the
string, or `none` for `errLeadingInt`. -/
def leadingIntFrom : List Char → Nat → Option (Nat × List Char)
  | [], x => some (x, [])
  | c :: cs, x =>
    if !isDigit c then some (x, c :: cs)
    else if x > 2 ^ 63 / 10 then none
    else if x * 10 + (c.toNat - 48) > 2 ^ 63 then none
    else leadingIntFrom cs (x * 10 + (c.toNat - 48))

/-- `leadingInt`. -/
def leadingInt (s : List Char) : Option (Nat × List Char) := leadingIntFrom s 0

/-- The loop of `leadingFraction`, from the value `x`, the scale and the overflow flag reached so
far: value, scale (a power of ten) and the rest of the string. -/
def leadingFractionFrom : List Char → Nat → Nat → Bool → Nat × Nat × List Char
  | [], x, scale, _ => (x, scale, [])
  | c :: cs, x, scale, overflow =>
    if !isDigit c then (x, scale, c :: cs)
    else if overflow then leadingFractionFrom cs x scale true
    else if x > (2 ^ 63 - 1) / 10 then leadingFractionFrom cs x scale true
    else if x * 10 + (c.toNat - 48) > 2 ^ 63 then leadingFractionFrom cs x scale true
    else leadingFractionFrom cs (x * 10 + (c.toNat - 48)) (scale * 10) false

/-- `leadingFraction`. -/
def leadingFraction (s : List Char) : Nat × Nat × List Char := leadingFractionFrom s 0 1 false

/-- One pass of the loop of `ParseDuration`: a number with an optional fraction, then a unit.
The result is the value in nanoseconds and the rest of the string. `frac f unit scale` stands for
the floating-point expression `uint64(float64(f) * (float64(unit) / scale))`, a parameter. -/
def parseTerm (frac : Nat → Nat → Nat → Nat) (s : List Char) : Except Err (Nat × List Char) :=
  match s with
  | [] => .error (Err.msg "time: invalid duration")
  | c :: _ =>
    if !(c = '.' || isDigit c) then .error (Err.msg "time: invalid duration")
    else
      match leadingInt s with
      | none => .error (Err.msg "time: invalid duration")
      | some (v, s1) =>
        let pre := decide (s.length ≠ s1.length)
        let fr : Nat × Nat × List Char × Bool :=
          match s1 with
          | '.' :: s2 =>
            ((leadingFraction s2).1, (leadingFraction s2).2.1, (leadingFraction s2).2.2,
              decide (s2.length ≠ (leadingFraction s2).2.2.length))
          | _ => (0, 1, s1, false)
        if !pre && !fr.2.2.2 then .error (Err.msg "time: invalid duration")
        else
          let u := fr.2.2.1.takeWhile (fun c => !(c = '.' || isDigit c))
          let s3 := fr.2.2.1.dropWhile (fun c => !(c = '.' || isDigit c))
          if u.length = 0 then .error (Err.msg "time: missing unit in duration")
          else
            match unitMap u with
            | none => .error (Err.msg "time: unknown unit in duration")
            | some unit =>
              if v > 2 ^ 63 / unit then .error (Err.msg "time: invalid duration")
              else
                let v1 := v * unit
                if fr.1 > 0 then
                  let v2 := (v1 + frac fr.1 unit fr.2.1) % 2 ^ 64
                  if v2 > 2 ^ 63 then .error (Err.msg "time: invalid duration")
                  else .ok (v2, s3)
                else .ok (v1, s3)

/-- The loop `for s != ""` of `ParseDuration`, with the sum `d` so far (a `uint64`); `fuel`
bounds the number of passes, each of which consumes at least one character. -/
def parseTerms (frac : Nat → Nat → Nat → Nat) : Nat → List Char → Nat → Except Err Nat
  | 0, _, _ => .error (Err.msg "time: invalid duration")
  | fuel + 1, s, d =>
    match s with
    | [] => .ok d
    | _ :: _ =>
      match parseTerm frac s with
      | .error err => .error err
      | .ok (v, rest) =>
        if (d + v) % 2 ^ 64 > 2 ^ 63 then .error (Err.msg "time: invalid duration")
        else parseTerms frac fuel rest ((d + v) % 2 ^ 64)

/-- `time.ParseDuration(s)`: the duration in nanoseconds. -/
def ParseDuration (frac : Nat → Nat → Nat → Nat) (s : String) : Except Err Int :=
  let neg := decide (s.data.head? = some '-')
  let body := if s.data.head? = some '-' ∨ s.data.head? = some '+' then s.data.tail else s.data
  if body = ['0'] then .ok 0
  else if body = [] then .error (Err.msg "time: invalid duration")
  else
    match parseTerms frac (body.length + 1) body 0 with
    | .error err => .error err
    | .ok d =>
      if neg then .ok (wrapInt64 (-(wrapInt64 d)))
      else if d > 2 ^ 63 - 1 then .error (Err.msg "time: invalid duration")
      else .ok d

end time

namespace api

/-- `parseDuration(s)` of `admin.go`: a trailing `d` is replaced by `h` and the parsed duration
multiplied by 24 in `int64` arithmetic. -/
def parseDuration (frac : Nat → Nat → Nat → Nat) (s : String) : Except Err Int :=
  if s.data.getLast? = some 'd' then
    match time.ParseDuration frac (String.mk (s.data.dropLast ++ ['h'])) with
    | .error err => .error err
    | .ok d => .ok (wrapInt64 (d * 24))
  else time.ParseDuration frac s

/-- What `AdminAPI.createClient` writes: an error status with its text, or the JSON body with
identity, secret and expiry. -/
inductive Response where
  | error (status : Nat) (text : String)
  | created (uuid secret : String) (expiresAt : Int)
  deriving DecidableEq, Repr

/-- `AdminAPI.createClient`; `duration` is the field `Duration` of the decoded request, `none`
when the body is not valid JSON. -/
def createClient (frac : Nat → Nat → Nat → Nat) (cm : auth.ClientManager) (src : RandSource)
    (now1 now2 : Int) (duration : Option String) :
    Response × auth.ClientManager × RandSource :=
  match duration with
  | none => (.error 400 "Invalid JSON", cm, src)
  | some s =>
    match parseDuration frac s with
    | .error _ => (.error 400 "Invalid duration", cm, src)
    | .ok d =>
      match cm.CreateClient src now1 now2 d with
      | (.error _, cm1, src1) => (.error 500 "Failed to create client", cm1, src1)
      | (.ok client, cm1, src1) =>
        (.created client.UUID client.Secret client.ExpiresAt, cm1, src1)

end api

/-- An instance of the floating-point parameter of `ParseDuration`, exact on integers. -/
def exactFrac (f unit scale : Nat) : Nat := f * unit / scale

namespace auth

/-- The validity window of every stored record: `CreatedAt < ExpiresAt`. -/
def ClientManager.ValidWindow (cm : ClientManager) : Prop :=
  ∀ u c, cm.clients.lookup u = some c → c.CreatedAt < c.ExpiresAt

end auth

namespace tunnel

/-- The session as it sees its credential record when the record's `Blocked` flag is `b`:
`conn.client` points to the stored record, so a write to the flag shows through it. -/
def Session.seesBlocked (sess : Session) (b : Bool) : Session :=
  { sess with conn := { sess.conn with client := { sess.conn.client with Blocked := b } } }

end tunnel

/-! ## The receive loops: parsing of the plaintext, the clients -/

/-- The lines `if len(decrypted) < 1 { continue }`, `frameType := decrypted[0]` and
`frameData := decrypted[1:]`, which the receive loops of the server and of the two clients share:
`.ok none` is the `continue`, `.error` the panic of an index out of range. -/
def parsePlaintext (decrypted : List Byte) : Except Err (Option (Byte × List Byte)) :=
  if decrypted.length < 1 then .ok none
  else
    match decrypted[0]?, sliceFrom decrypted 1 with
    | some frameType, some frameData => .ok (some (frameType, frameData))
    | _, _ => .error Err.indexOutOfRange

namespace tunnel

/-- The `switch frameType` statement of `Server.handleStreamToTun`, on the type and payload taken
from the plaintext. -/
def Server.switchFrameType (P : XChaCha20Poly1305) (sess : Session) (rnd : RandSource)
    (typ : Byte) (payload : List Byte) (writeErr sendErr : Option Err) (now : Int) :
    Session × RandSource :=
  if typ = protocol.FrameTypeData then
    match writeErr with
    | some err =>
      ({ sess with errChan := sess.errChan ++ [some (Err.wrapped "tun write error" err)],
                   streamToTun := false }, rnd)
    | none =>
      ({ sess with
          conn := { sess.conn with
            bytesDown := wrapInt64 (sess.conn.bytesDown + payload.length) },
          written := sess.written ++ [payload] }, rnd)
  else if typ = protocol.FrameTypePing then
    let pongFrame : protocol.Frame := { Typ := protocol.FrameTypePong, Data := payload }
    match Server.sendFrame P sess.conn rnd pongFrame sendErr with
    | (none, rnd1, some msg) =>
      ({ sess with conn := { sess.conn with lastPing := now },
                   sent := sess.sent ++ [(pongFrame, msg)] }, rnd1)
    | (_, rnd1, _) => ({ sess with conn := { sess.conn with lastPing := now } }, rnd1)
  else if typ = protocol.FrameTypePong then
    ({ sess with conn := { sess.conn with lastPing := now } }, rnd)
  else (sess, rnd)

end tunnel

namespace clientWindows

namespace protocol

/-- Modelled from the spec: the client's package `yagnoetik-vpn-client/internal/protocol` is not
among the sources. Section 6: "`type ∈ {0=Data,1=Ping,2=Pong}`". -/
def FrameTypeData : Byte := 0

/-- Modelled from the spec: see `FrameTypeData`. -/
def FrameTypePing : Byte := 1

/-- Modelled from the spec: see `FrameTypeData`. -/
def FrameTypePong : Byte := 2

/-- Modelled from the spec: the client's `protocol.Frame` is not among the sources; section 3:
a frame has a type and a payload. `vpn.go` sets its fields `Type` (here `Typ`) and `Data`. -/
structure Frame where
  Typ : Byte
  Data : List Byte
  deriving DecidableEq, Repr

end protocol

/-- The Go struct `VPNClient`, in the fields that `sendFrame` and the receive loop use. `done`
tells whether `ctx` is done and `streamToTun` whether the goroutine `handleStreamToTun` still
runs; `sent` and `written` record, in order, the frames whose `stream.Send` succeeded (with the
message sent) and the payloads whose `tunIface.Write` succeeded. Log output is left out. -/
structure VPNClient where
  cipher : crypto.Cipher
  connected : Bool
  done : Bool
  bytesUp : Int
  bytesDown : Int
  streamToTun : Bool
  sent : List (protocol.Frame × List Byte)
  written : List (List Byte)
  deriving DecidableEq, Repr

/-- `(*VPNClient).sendFrame`: the error returned, the random source afterwards, and the message
handed to `stream.Send` if encryption succeeded; `sendErr` is what `stream.Send` returns. -/
def VPNClient.sendFrame (P : XChaCha20Poly1305) (c : VPNClient) (rnd : RandSource)
    (frame : protocol.Frame) (sendErr : Option Err) :
    Option Err × RandSource × Option (List Byte) :=
  let frameData := frame.Typ :: frame.Data
  match c.cipher.Encrypt P rnd frameData with
  | (.error err, rnd1) => (some err, rnd1, none)
  | (.ok encrypted, rnd1) => (sendErr, rnd1, some encrypted)

/-- The `switch frameType` statement of `(*VPNClient).handleStreamToTun`. The error of the
`sendFrame` that answers a Ping is not looked at. -/
def VPNClient.switchFrameType (P : XChaCha20Poly1305) (c : VPNClient) (rnd : RandSource)
    (frameType : Byte) (frameData : List Byte) (writeErr sendErr : Option Err) :
    VPNClient × RandSource :=
  if frameType = protocol.FrameTypeData then
    match writeErr with
    | some _ => ({ c with streamToTun := false }, rnd)
    | none =>
      ({ c with bytesDown := wrapInt64 (c.bytesDown + frameData.length),
                written := c.written ++ [frameData] }, rnd)
  else if frameType = protocol.FrameTypePing then
    let pongFrame : protocol.Frame := { Typ := protocol.FrameTypePong, Data := frameData }
    match c.sendFrame P rnd pongFrame sendErr with
    | (none, rnd1, some msg) => ({ c with sent := c.sent ++ [(pongFrame, msg)] }, rnd1)
    | (_, rnd1, _) => (c, rnd1)
  else if frameType = protocol.FrameTypePong then (c, rnd)
  else (c, rnd)

/-- One pass through the loop of `(*VPNClient).handleStreamToTun`. `recv` is what
`stream.Recv()` delivers, `writeErr` what `tunIface.Write` returns, `sendErr` what `stream.Send`
returns. -/
def VPNClient.handleStreamToTun (P : XChaCha20Poly1305) (c : VPNClient) (rnd : RandSource)
    (recv : Except Err (List Byte)) (writeErr sendErr : Option Err) : VPNClient × RandSource :=
  if c.done then ({ c with streamToTun := false }, rnd)
  else
    match recv with
    | .error _ => ({ c with streamToTun := false }, rnd)
    | .ok msgData =>
      match c.cipher.Decrypt P msgData with
      | .error _ => (c, rnd)
      | .ok decrypted =>
        if decrypted.length < 1 then (c, rnd)
        else
          match decrypted with
          | [] => (c, rnd)
          | frameType :: frameData =>
            c.switchFrameType P rnd frameType frameData writeErr sendErr

/-- The loop of `(*VPNClient).handleStreamToTun` over the successive results of the calls it
makes, one triple for each pass; a loop that has returned makes no further pass. -/
def VPNClient.streamToTunLoop (P : XChaCha20Poly1305) (c : VPNClient) (rnd : RandSource) :
    List (Except Err (List Byte) × Option Err × Option Err) → VPNClient × RandSource
  | [] => (c, rnd)
  | pass :: rest =>
    if c.streamToTun then
      VPNClient.streamToTunLoop P (c.handleStreamToTun P rnd pass.1 pass.2.1 pass.2.2).1
        (c.handleStreamToTun P rnd pass.1 pass.2.1 pass.2.2).2 rest
    else (c, rnd)

end clientWindows

namespace clientAndroid

def FrameTypeData : Byte := 0
def FrameTypePing : Byte := 1
def FrameTypePong : Byte := 2

/-- `(*TunConn).Write(buf)`: the count and the error returned. -/
def TunConn.Write (buf : List Byte) : Nat × Option Err := (buf.length, none)

/-- The Go struct `VPNService`, in the fields that `sendFrame` and the receive loop use. `done`
tells whether `ctx` is done and `streamToTun` whether the goroutine `handleStreamToTun` still
runs; `sent` and `written` record, in order, the frames (type and payload) whose `stream.Send`
succeeded, with the message sent, and the payloads whose `tunConn.Write` succeeded. Log output is
left out. -/
structure VPNService where
  cipher : Cipher
  connected : Bool
  done : Bool
  bytesUp : Int
  bytesDown : Int
  tunFd : Int
  streamToTun : Bool
  sent : List ((Byte × List Byte) × List Byte)
  written : List (List Byte)
  deriving DecidableEq, Repr

/-- `(*VPNService).sendFrame(frameType, data)`: the error returned and the message handed to
`stream.Send` if encryption succeeded; `sendErr` is what `stream.Send` returns. -/
def VPNService.sendFrame (P : XChaCha20Poly1305) (v : VPNService) (frameType : Byte)
    (data : List Byte) (sendErr : Option Err) : Option Err × Option (List Byte) :=
  let frameData := frameType :: data
  match v.cipher.Encrypt P frameData with
  | .error err => (some err, none)
  | .ok encrypted => (sendErr, some encrypted)

/-- The `switch frameType` statement of `(*VPNService).handleStreamToTun`. The error of the
`sendFrame` that answers a Ping is not looked at. -/
def VPNService.switchFrameType (P : XChaCha20Poly1305) (v : VPNService) (frameType : Byte)
    (frameData : List Byte) (sendErr : Option Err) : VPNService :=
  if frameType = FrameTypeData then
    match (TunConn.Write frameData).2 with
    | some _ => { v with streamToTun := false }
    | none =>
      { v with bytesDown := wrapInt64 (v.bytesDown + frameData.length),
               written := v.written ++ [frameData] }
  else if frameType = FrameTypePing then
    match v.sendFrame P FrameTypePong frameData sendErr with
    | (none, some msg) => { v with sent := v.sent ++ [((FrameTypePong, frameData), msg)] }
    | _ => v
  else if frameType = FrameTypePong then v
  else v

/-- One pass through the loop of `(*VPNService).handleStreamToTun`. `recv` is what
`stream.Recv()` delivers, `sendErr` what `stream.Send` returns. -/
def VPNService.handleStreamToTun (P : XChaCha20Poly1305) (v : VPNService)
    (recv : Except Err (List Byte)) (sendErr : Option Err) : VPNService :=
  if v.done then { v with streamToTun := false }
  else
    match recv with
    | .error _ => { v with streamToTun := false }
    | .ok msgData =>
      match v.cipher.Decrypt P msgData with
      | .error _ => v
      | .ok decrypted =>
        if decrypted.length < 1 then v
        else
          match decrypted with
          | [] => v
          | frameType :: frameData => v.switchFrameType P frameType frameData sendErr

/-- The loop of `(*VPNService).handleStreamToTun` over the successive results of the calls it
makes, one pair for each pass; a loop that has returned makes no further pass. -/
def VPNService.streamToTunLoop (P : XChaCha20Poly1305) (v : VPNService) :
    List (Except Err (List Byte) × Option Err) → VPNService
  | [] => v
  | pass :: rest =>
    if v.streamToTun then
      VPNService.streamToTunLoop P (v.handleStreamToTun P pass.1 pass.2) rest
    else v

end clientAndroid

/-! ## The forwarding loops statement by statement, and the reads of the clean-up -/

namespace tunnel

/-- A pass of the loop of `Server.handleTunToStream` from its top to the return of `sendFrame`.
The statement `conn.bytesUp += int64(n)`, which ends the pass, is a step of its own: the third
component is `n` when that statement is still to run. -/
def Server.handleTunToStreamSend (P : XChaCha20Poly1305) (sess : Session) (rnd : RandSource)
    (data : List Byte) (readErr sendErr : Option Err) : Session × RandSource × Option Nat :=
  if sess.conn.done then
    ({ sess with errChan := sess.errChan ++ [some ctxErr], tunToStream := false }, rnd, none)
  else
    match readErr with
    | some err =>
      ({ sess with errChan := sess.errChan ++ [some (Err.wrapped "tun read error" err)],
                   tunToStream := false }, rnd, none)
    | none =>
      let packet := data.take 1500
      let n := packet.length
      if n > 0 then
        let frame : protocol.Frame := { Typ := protocol.FrameTypeData, Data := packet }
        match Server.sendFrame P sess.conn rnd frame sendErr with
        | (some err, rnd1, _) =>
          ({ sess with errChan := sess.errChan ++ [some (Err.wrapped "send frame error" err)],
                       tunToStream := false }, rnd1, none)
        | (none, rnd1, msg) =>
          ({ sess with sent := sess.sent ++ [(frame, msg.getD [])] }, rnd1, some n)
      else (sess, rnd, none)

/-- A pass of the loop of `Server.handleStreamToTun` from its top to the return of
`tunConn.Write` in the `Data` case, and the whole pass in every other case. The statement
`conn.bytesDown += int64(len(frame.Data))`, which ends the pass in the `Data` case, is a step of
its own: the third component is the length when that statement is still to run. -/
def Server.handleStreamToTunWrite (P : XChaCha20Poly1305) (sess : Session) (rnd : RandSource)
    (recv : Except Err (List Byte)) (writeErr sendErr : Option Err) (now : Int) :
    Session × RandSource × Option Nat :=
  if sess.conn.done then
    ({ sess with errChan := sess.errChan ++ [some ctxErr], streamToTun := false }, rnd, none)
  else
    match recv with
    | .error err =>
      if err = Err.EOF then
        ({ sess with errChan := sess.errChan ++ [none], streamToTun := false }, rnd, none)
      else
        ({ sess with errChan := sess.errChan ++ [some (Err.wrapped "stream recv error" err)],
                     streamToTun := false }, rnd, none)
    | .ok msgData =>
      match sess.conn.cipher.Decrypt P msgData with
      | .error _ => (sess, rnd, none)
      | .ok decrypted =>
        if decrypted.length < 1 then (sess, rnd, none)
        else
          match decrypted with
          | [] => (sess, rnd, none)
          | typ :: payload =>
            if typ = protocol.FrameTypeData then
              match writeErr with
              | some err =>
                ({ sess with
                    errChan := sess.errChan ++ [some (Err.wrapped "tun write error" err)],
                    streamToTun := false }, rnd, none)
              | none =>
                ({ sess with written := sess.written ++ [payload] }, rnd, some payload.length)
            else
              ((Server.switchFrameType P sess rnd typ payload writeErr sendErr now).1,
               (Server.switchFrameType P sess rnd typ payload writeErr sendErr now).2, none)

/-- A session whose two forwarding loops run statement by statement: `upPending` is the `n` of a
pass of `handleTunToStream` that has sent its frame and has not yet run `conn.bytesUp += n`, and
`downPending` the length of a payload that `handleStreamToTun` has written and not yet added to
`conn.bytesDown`. -/
structure Running where
  sess : Session
  upPending : Option Nat
  downPending : Option Nat
  deriving DecidableEq, Repr

/-- What the goroutines of a session do next, in an interleaving: the first part of a pass of a
forwarding loop, the counter update that ends it, a tick of keepalive, or the cancellation of the
stream's context. -/
inductive Stmt where
  | tunSend (data : List Byte) (readErr sendErr : Option Err)
  | tunCount
  | streamWrite (recv : Except Err (List Byte)) (writeErr sendErr : Option Err) (now : Int)
  | streamCount
  | tick (now : Int) (sendErr : Option Err)
  | ctxDone
  deriving DecidableEq, Repr

/-- The session as `Connect` starts its goroutines: no counter update is pending. -/
def Running.start (sess : Session) : Running :=
  { sess := sess, upPending := none, downPending := none }

/-- The effect of one statement. A loop whose counter update is pending runs that update before
its next pass, and a loop that has returned makes no further pass. -/
def Running.step (P : XChaCha20Poly1305) (r : Running) (rnd : RandSource) :
    Stmt → Running × RandSource
  | .tunSend data readErr sendErr =>
    if r.sess.tunToStream && r.upPending.isNone then
      ({ r with
          sess := (Server.handleTunToStreamSend P r.sess rnd data readErr sendErr).1,
          upPending := (Server.handleTunToStreamSend P r.sess rnd data readErr sendErr).2.2 },
        (Server.handleTunToStreamSend P r.sess rnd data readErr sendErr).2.1)
    else (r, rnd)
  | .tunCount =>
    match r.upPending with
    | none => (r, rnd)
    | some n =>
      ({ r with
          sess := { r.sess with
            conn := { r.sess.conn with bytesUp := wrapInt64 (r.sess.conn.bytesUp + n) } },
          upPending := none }, rnd)
  | .streamWrite recv writeErr sendErr now =>
    if r.sess.streamToTun && r.downPending.isNone then
      ({ r with
          sess := (Server.handleStreamToTunWrite P r.sess rnd recv writeErr sendErr now).1,
          downPending :=
            (Server.handleStreamToTunWrite P r.sess rnd recv writeErr sendErr now).2.2 },
        (Server.handleStreamToTunWrite P r.sess rnd recv writeErr sendErr now).2.1)
    else (r, rnd)
  | .streamCount =>
    match r.downPending with
    | none => (r, rnd)
    | some n =>
      ({ r with
          sess := { r.sess with
            conn := { r.sess.conn with bytesDown := wrapInt64 (r.sess.conn.bytesDown + n) } },
          downPending := none }, rnd)
  | .tick now sendErr =>
    ({ r with sess := (r.sess.step P rnd (.tick now sendErr)).1 },
      (r.sess.step P rnd (.tick now sendErr)).2)
  | .ctxDone => ({ r with sess := (r.sess.step P rnd .ctxDone).1 }, rnd)

/-- A session run through an interleaving of statements, in order. -/
def Running.run (P : XChaCha20Poly1305) (r : Running) (rnd : RandSource) :
    List Stmt → Running × RandSource
  | [] => (r, rnd)
  | st :: sts => Running.run P (Running.step P r rnd st).1 (Running.step P r rnd st).2 sts

/-- The bytes sent and not yet counted in `conn.bytesUp`. -/
def Running.upBytes (r : Running) : Int := ((r.upPending.getD 0 : Nat) : Int)

/-- The bytes written and not yet counted in `conn.bytesDown`. -/
def Running.downBytes (r : Running) : Int := ((r.downPending.getD 0 : Nat) : Int)

/-- The accounting invariant of a running session: each counter holds, in `int64` arithmetic,
the bytes of the `Data` frames sent, or of the payloads written, less those of the pass whose
counter update is pending. -/
def Running.Accounted (r : Running) : Prop :=
  r.sess.conn.bytesUp = wrapInt64 (dataBytes r.sess.sent - r.upBytes) ∧
  r.sess.conn.bytesDown = wrapInt64 (writtenBytes r.sess.written - r.downBytes)

/-- The deferred function of `Connect`, which runs while the loops still run (`cancel` is
deferred earlier and so runs after it), with the moments of its two reads told apart: `atUp` is
the session when `conn.bytesUp` is read and `atDown` the session when `conn.bytesDown` is read
after it. -/
def Server.ConnectDeferredAt (s : Server) (atUp atDown : Session) : Server :=
  { clientManager := s.clientManager.UpdateTraffic atUp.uuid atUp.conn.bytesUp
      atDown.conn.bytesDown,
    connections := s.connections.erase atUp.uuid }

end tunnel

namespace tunnel

/-- A whole pass of a loop as the statements it consists of, run without another goroutine in
between. -/
def Event.statements : Event → List Stmt
  | .tunRead data readErr sendErr => [.tunSend data readErr sendErr, .tunCount]
  | .streamRecv recv writeErr sendErr now => [.streamWrite recv writeErr sendErr now, .streamCount]
  | .tick now sendErr => [.tick now sendErr]
  | .ctxDone => [.ctxDone]

end tunnel

/-! ## Successive reads of frames -/

namespace protocol

/-- The results of `n` successive calls of `ReadFrame` on one reader, in order, and the reader as
the last call leaves it. -/
def ReadFrames : Nat → Reader → List (Except Err Frame) × Reader
  | 0, r => ([], r)
  | n + 1, r =>
    ((ReadFrame r).1 :: (ReadFrames n (ReadFrame r).2).1, (ReadFrames n (ReadFrame r).2).2)

end protocol

/-! ## Concrete states on which the definitions are evaluated -/

namespace sample

/-- A credential valid until time 1000. -/
def client : auth.Client :=
  { UUID := "alice", Secret := "s3cret", Key := List.replicate 32 7, CreatedAt := 0,
    ExpiresAt := 1000, Blocked := false, BytesUp := 50, BytesDown := 60 }

/-- A server whose store holds `client` and whose registry is empty. -/
def server : tunnel.Server := tunnel.NewServer { clients := [("alice", client)] }

/-- The surroundings of a `Connect` that claims identity `alice` with the given secret at
time 10. -/
def env (secret : String) : tunnel.ConnectEnv :=
  { md := some [("uuid", ["alice"]), ("secret", [secret])], now := 10, tun := .ok 0, now2 := 10,
    stream := 0 }

/-- The engine over `server` after two successful `Connect` calls for the identity `alice`. -/
def twoConnects : tunnel.Engine :=
  tunnel.Engine.run toyPrimitive (tunnel.Engine.init { clients := [("alice", client)] } { pool := [] })
    [.connect (env "s3cret"), .connect (env "s3cret")]

/-- The credential `client` with its up-counter at the largest `int64` value. -/
def saturated : auth.Client := { client with BytesUp := 9223372036854775807 }

/-- A server whose store holds `saturated`. -/
def saturatedServer : tunnel.Server := tunnel.NewServer { clients := [("alice", saturated)] }

/-- The session that `Connect` registers at address 0 for `alice`. -/
def session : tunnel.Session :=
  tunnel.freshSession 0 "alice" client { key := client.Key } (env "s3cret") 0

/-- A schedule in which the adapter loop forwards packets of 100, 200 and 300 bytes and makes a
fourth read whose send fails, while a Ping and a Data frame of 5 bytes are received. -/
def schedule : List tunnel.Event :=
  [.tunRead (List.replicate 100 0) none none,
   .streamRecv (.ok (List.replicate 24 2 ++ toyPrimitive.Seal client.Key (List.replicate 24 2)
      [1, 9, 9] [])) none none 20,
   .tunRead (List.replicate 200 0) none none,
   .streamRecv (.ok (List.replicate 24 3 ++ toyPrimitive.Seal client.Key (List.replicate 24 3)
      [0, 1, 2, 3, 4, 5] [])) none none 21,
   .tunRead (List.replicate 300 0) none none,
   .tunRead (List.replicate 40 0) none (some Err.EOF)]

/-- The session `session` after `schedule`. -/
def forwarded : tunnel.Session :=
  (session.run toyPrimitive { pool := List.replicate 120 1 } schedule).1

end sample

namespace sample

/-- A Windows client that holds the key of `client`, connected, with its receive loop running. -/
def windowsClient : clientWindows.VPNClient :=
  { cipher := { aead := { key := client.Key } }, connected := true, done := false, bytesUp := 0,
    bytesDown := 0, streamToTun := true, sent := [], written := [] }

/-- An Android service that holds the key of `client`, connected, with its receive loop
running. -/
def androidService : clientAndroid.VPNService :=
  { cipher := { aead := { key := client.Key } }, connected := true, done := false, bytesUp := 0,
    bytesDown := 0, tunFd := 3, streamToTun := true, sent := [], written := [] }

end sample

namespace sample

/-- An interleaving in which the adapter loop forwards packets of 100, 200 and 300 bytes, each
followed by its counter update, and makes a fourth read whose send fails, while a Ping and a Data
frame of 5 bytes are received, the latter followed by its counter update. -/
def statements : List tunnel.Stmt :=
  [.tunSend (List.replicate 100 0) none none,
   .streamWrite (.ok (List.replicate 24 2 ++ toyPrimitive.Seal client.Key (List.replicate 24 2)
      [1, 9, 9] [])) none none 20,
   .tunCount,
   .tunSend (List.replicate 200 0) none none,
   .streamWrite (.ok (List.replicate 24 3 ++ toyPrimitive.Seal client.Key (List.replicate 24 3)
      [0, 1, 2, 3, 4, 5] [])) none none 21,
   .tunCount,
   .streamCount,
   .tunSend (List.replicate 300 0) none none,
   .tunCount,
   .tunSend (List.replicate 40 0) none (some Err.EOF)]

/-- The session `session` after `statements`. -/
def counted : tunnel.Running :=
  ((tunnel.Running.start session).run toyPrimitive { pool := List.replicate 120 1 } statements).1

/-- The session `session` when its adapter loop has sent a packet of 100 bytes without error and
has not yet run the counter update, and its channel loop has met the end of the stream. -/
def inFlight : tunnel.Running :=
  ((tunnel.Running.start session).run toyPrimitive { pool := List.replicate 24 1 }
    [.tunSend (List.replicate 100 0) none none, .streamWrite (.error Err.EOF) none none 11]).1

end sample

/-! ## Frame codec: lemmas -/

theorem Uint32_PutUint32 (v : Nat) (h : v < 2 ^ 32) : Uint32 (PutUint32 v) = some v := by
  simp only [PutUint32, Uint32, toByte, Option.some.injEq]
  omega

theorem Uint32_PutUint32_append (v : Nat) (h : v < 2 ^ 32) (rest : List Byte) :
    Uint32 (PutUint32 v ++ rest) = some v := by
  simp only [PutUint32, Uint32, toByte, List.cons_append, List.nil_append, Option.some.injEq]
  omega

theorem ReadFull_append (xs ys : List Byte) (e : Err) (h : xs ≠ []) :
    ReadFull { data := xs ++ ys, closing := e } xs.length
      = (.ok xs, { data := ys, closing := e }) := by
  have hlen : xs.length ≠ 0 := by
    intro h0
    exact h (List.length_eq_zero.mp h0)
  simp [ReadFull, hlen]

theorem ReadFrame_Marshal_append (t : Byte) (p rest : List Byte) (e : Err)
    (hp : p.length ≤ 65535) :
    protocol.ReadFrame { data := protocol.Frame.Marshal { Typ := t, Data := p } ++ rest,
                         closing := e }
      = (.ok { Typ := t, Data := p }, { data := rest, closing := e }) := by
  have hmod : (p.length + 1) % 2 ^ 32 = p.length + 1 := Nat.mod_eq_of_lt (by omega)
  have h1 := ReadFull_append (PutUint32 (p.length + 1)) ((t :: p) ++ rest) e (by simp [PutUint32])
  have h2 := ReadFull_append (t :: p) rest e (by simp)
  have hlen4 : (PutUint32 (p.length + 1)).length = 4 := rfl
  rw [hlen4] at h1
  have hdata : protocol.Frame.Marshal { Typ := t, Data := p } ++ rest
      = PutUint32 (p.length + 1) ++ ((t :: p) ++ rest) := by
    show PutUint32 ((p.length + 1) % 2 ^ 32) ++ [t] ++ p ++ rest = _
    rw [hmod]
    simp
  rw [hdata]
  unfold protocol.ReadFrame
  rw [h1]
  simp only [Uint32_PutUint32 (p.length + 1) (by omega)]
  have hne : ¬ (p.length + 1 = 0) := by omega
  have hle : ¬ (p.length + 1 > 65536) := by omega
  simp only [hne, hle, if_false]
  have hl : (t :: p).length = p.length + 1 := rfl
  rw [← hl, h2]

/-! ## Frame codec: properties -/

/-- C1. Round trip of the frame codec: for every type byte `t` and every payload `p` of at most
65535 bytes, `ReadFrame` on a stream that holds exactly `Marshal` of the frame succeeds and
returns the frame with `Type = t` and `Data = p`. -/
theorem C1_ReadFrame_Marshal_roundtrip (t : Byte) (p : List Byte) (closing : Err)
    (hp : p.length ≤ 65535) :
    (protocol.ReadFrame { data := protocol.Frame.Marshal { Typ := t, Data := p },
                          closing := closing }).1
      = .ok { Typ := t, Data := p } := by
  have h := ReadFrame_Marshal_append t p [] closing hp
  rw [List.append_nil] at h
  rw [h]

theorem C1_ReadFrame_Marshal_roundtrip_witness :
    ([7, 8, 9] : List Byte).length ≤ 65535 ∧
    (protocol.ReadFrame { data := protocol.Frame.Marshal { Typ := 2, Data := [7, 8, 9] },
                          closing := Err.EOF }).1
      = .ok { Typ := 2, Data := [7, 8, 9] } :=
  ⟨by decide, C1_ReadFrame_Marshal_roundtrip 2 [7, 8, 9] Err.EOF (by decide)⟩

/-! ## Ciphers: lemmas -/

theorem toyPrimitive_correct : toyPrimitive.Correct := by
  intro key nonce plaintext ad
  simp [toyPrimitive]

theorem rand_Read_ok (src : RandSource) (n : Nat) (h : n ≤ src.pool.length) :
    rand.Read src n = (src.pool.take n, none, { pool := src.pool.drop n }) := by
  simp [rand.Read, h]

theorem rand_Read_fail (src : RandSource) (n : Nat) (h : ¬ n ≤ src.pool.length) :
    rand.Read src n = (src.pool ++ List.replicate (n - src.pool.length) 0,
        some (Err.msg "crypto/rand: read failed"), { pool := [] }) := by
  simp [rand.Read, h]

theorem rand_Read_err_none_iff (src : RandSource) (n : Nat) :
    (rand.Read src n).2.1 = none ↔ n ≤ src.pool.length := by
  by_cases h : n ≤ src.pool.length
  · simp [rand.Read, h]
  · simp [rand.Read, h]

theorem windows_Encrypt_ok (P : XChaCha20Poly1305) (c : clientWindows.crypto.Cipher)
    (src : RandSource) (p : List Byte) (h : 24 ≤ src.pool.length) :
    c.Encrypt P src p
      = (.ok (src.pool.take 24 ++ P.Seal c.aead.key (src.pool.take 24) p []),
         { pool := src.pool.drop 24 }) := by
  have hr := rand_Read_ok src 24 h
  simp only [clientWindows.crypto.Cipher.Encrypt, chacha20poly1305.AEAD.NonceSize,
    chacha20poly1305.NonceSizeX, hr, chacha20poly1305.AEAD.Seal]

theorem windows_Encrypt_fail (P : XChaCha20Poly1305) (c : clientWindows.crypto.Cipher)
    (src : RandSource) (p : List Byte) (h : ¬ 24 ≤ src.pool.length) :
    c.Encrypt P src p = (.error (Err.msg "crypto/rand: read failed"), { pool := [] }) := by
  have hr := rand_Read_fail src 24 h
  simp only [clientWindows.crypto.Cipher.Encrypt, chacha20poly1305.AEAD.NonceSize,
    chacha20poly1305.NonceSizeX, hr]

theorem windows_Decrypt_nonce_append (P : XChaCha20Poly1305) (c : clientWindows.crypto.Cipher)
    (nonce sealed : List Byte) (hn : nonce.length = 24) :
    c.Decrypt P (nonce ++ sealed)
      = match P.Open c.aead.key nonce sealed [] with
        | none => .error (Err.msg "chacha20poly1305: message authentication failed")
        | some plaintext => .ok plaintext := by
  have hlt : ¬ (nonce ++ sealed).length < 24 := by
    rw [List.length_append]
    omega
  have hle : 24 ≤ (nonce ++ sealed).length := by omega
  have ht : (nonce ++ sealed).take 24 = nonce := by
    rw [← hn]
    exact List.take_left' rfl
  have hd : (nonce ++ sealed).drop 24 = sealed := by
    rw [← hn]
    exact List.drop_left' rfl
  simp only [clientWindows.crypto.Cipher.Decrypt, chacha20poly1305.AEAD.NonceSize,
    chacha20poly1305.NonceSizeX, hlt, if_false, sliceTo, sliceFrom, hle, if_true, ht, hd,
    chacha20poly1305.AEAD.Open]
  cases P.Open c.aead.key nonce sealed [] <;> simp

theorem android_Decrypt_nonce_append (P : XChaCha20Poly1305) (c : clientAndroid.Cipher)
    (nonce sealed : List Byte) (hn : nonce.length = 24) :
    c.Decrypt P (nonce ++ sealed)
      = match P.Open c.aead.key nonce sealed [] with
        | none => .error (Err.msg "chacha20poly1305: message authentication failed")
        | some plaintext => .ok plaintext := by
  have hlt : ¬ (nonce ++ sealed).length < 24 := by
    rw [List.length_append]
    omega
  have hle : 24 ≤ (nonce ++ sealed).length := by omega
  have ht : (nonce ++ sealed).take 24 = nonce := by
    rw [← hn]
    exact List.take_left' rfl
  have hd : (nonce ++ sealed).drop 24 = sealed := by
    rw [← hn]
    exact List.drop_left' rfl
  simp only [clientAndroid.Cipher.Decrypt, chacha20poly1305.AEAD.NonceSize,
    chacha20poly1305.NonceSizeX, hlt, if_false, sliceTo, sliceFrom, hle, if_true, ht, hd,
    chacha20poly1305.AEAD.Open]
  cases P.Open c.aead.key nonce sealed [] <;> simp

theorem android_Encrypt_eq (P : XChaCha20Poly1305) (c : clientAndroid.Cipher) (p : List Byte) :
    c.Encrypt P p
      = .ok (List.replicate 24 0 ++ P.Seal c.aead.key (List.replicate 24 0) p []) := rfl

theorem take_length_of_le (xs : List Byte) (n : Nat) (h : n ≤ xs.length) :
    (xs.take n).length = n := by
  rw [List.length_take]
  omega

/-! ## Ciphers: properties -/

/-- C2, as stated, fails in the client-windows cipher: with a correct primitive and a 32-byte
key, `Encrypt` returns the error of the random source, and no ciphertext, when `rand.Read`
fails. -/
theorem C2_windows_Encrypt_fails_without_randomness :
    toyPrimitive.Correct ∧
    clientWindows.crypto.NewCipher (List.replicate 32 0)
      = .ok { aead := { key := List.replicate 32 0 } } ∧
    ¬ ∃ ct, ((clientWindows.crypto.Cipher.Encrypt toyPrimitive
              { aead := { key := List.replicate 32 0 } } { pool := [] } [1, 2, 3]).1
            = .ok ct) := by
  refine ⟨toyPrimitive_correct, by decide, ?_⟩
  rintro ⟨ct, h⟩
  rw [windows_Encrypt_fail _ _ _ _ (by decide)] at h
  cases h

/-- C2 (amended). Cipher round trip, for a primitive that opens what it sealed: for every
32-byte key and every plaintext `p`, `NewCipher` succeeds in both implementations; in
client-android `Encrypt p` succeeds and `Decrypt` of its result returns exactly `p`; in
client-windows the same holds whenever the random read of `Encrypt` succeeds. -/
theorem C2_cipher_roundtrip (P : XChaCha20Poly1305) (hP : P.Correct) (key p : List Byte)
    (hk : key.length = 32) :
    (∃ c, clientWindows.crypto.NewCipher key = .ok c ∧
      ∀ src : RandSource, (rand.Read src 24).2.1 = none →
        ∃ ct, (c.Encrypt P src p).1 = .ok ct ∧ c.Decrypt P ct = .ok p) ∧
    (∃ c, clientAndroid.NewCipher key = .ok c ∧
      ∃ ct, c.Encrypt P p = .ok ct ∧ c.Decrypt P ct = .ok p) := by
  constructor
  · refine ⟨{ aead := { key := key } }, ?_, ?_⟩
    · simp [clientWindows.crypto.NewCipher, chacha20poly1305.NewX, chacha20poly1305.KeySize, hk]
    · intro src hsrc
      have hlen : 24 ≤ src.pool.length := (rand_Read_err_none_iff src 24).mp hsrc
      refine ⟨_, by rw [windows_Encrypt_ok P _ src p hlen], ?_⟩
      rw [windows_Decrypt_nonce_append P _ _ _ (take_length_of_le _ _ hlen), hP]
  · refine ⟨{ aead := { key := key } }, ?_, _, android_Encrypt_eq P _ p, ?_⟩
    · simp [clientAndroid.NewCipher, chacha20poly1305.NewX, chacha20poly1305.KeySize, hk]
    · rw [android_Decrypt_nonce_append P _ _ _ (by simp), hP]

theorem C2_cipher_roundtrip_witness :
    toyPrimitive.Correct ∧ (List.replicate 32 (5 : Byte)).length = 32 ∧
    ((∃ c, clientWindows.crypto.NewCipher (List.replicate 32 5) = .ok c ∧
      ∀ src : RandSource, (rand.Read src 24).2.1 = none →
        ∃ ct, (c.Encrypt toyPrimitive src [1, 2, 3]).1 = .ok ct
          ∧ c.Decrypt toyPrimitive ct = .ok [1, 2, 3]) ∧
    (∃ c, clientAndroid.NewCipher (List.replicate 32 5) = .ok c ∧
      ∃ ct, c.Encrypt toyPrimitive [1, 2, 3] = .ok ct
        ∧ c.Decrypt toyPrimitive ct = .ok [1, 2, 3])) :=
  ⟨toyPrimitive_correct, by decide,
    C2_cipher_roundtrip toyPrimitive toyPrimitive_correct (List.replicate 32 5) [1, 2, 3]
      (by decide)⟩

/-- C3 (the code at the failing input). In the client-android cipher `Encrypt` reads no random
source: for every key and plaintext its result is 24 zero bytes followed by the sealing of the
plaintext under the all-zero nonce, so any two calls on the same plaintext with the same key
return the same ciphertext. -/
theorem C3_android_Encrypt_zero_nonce (P : XChaCha20Poly1305) (c : clientAndroid.Cipher)
    (p : List Byte) :
    c.Encrypt P p = .ok (List.replicate 24 0 ++ P.Seal c.aead.key (List.replicate 24 0) p []) ∧
    ∀ ct1 ct2, c.Encrypt P p = .ok ct1 → c.Encrypt P p = .ok ct2 → ct1 = ct2 := by
  refine ⟨android_Encrypt_eq P c p, ?_⟩
  intro ct1 ct2 h1 h2
  rw [h1] at h2
  exact Except.ok.inj h2

/-- C4. In the client-windows cipher, for every plaintext `p`: when the random read of 24 bytes
fails, `Encrypt` returns that error and no ciphertext; when it succeeds with bytes `r`, exactly
24 bytes are taken from the source and the result is `r ++ Seal(r, p)`, whose first 24 bytes
are `r` and whose remainder is the sealing of `p` under `r`; and two calls on the same plaintext
whose random draws differ return different ciphertexts. -/
theorem C4_windows_Encrypt_fresh_nonce (P : XChaCha20Poly1305)
    (c : clientWindows.crypto.Cipher) (src : RandSource) (p : List Byte) :
    (∀ e, (rand.Read src c.aead.NonceSize).2.1 = some e →
      (c.Encrypt P src p).1 = .error e) ∧
    ((rand.Read src c.aead.NonceSize).2.1 = none →
      ∃ r rest, src.pool = r ++ rest ∧ r.length = 24 ∧
        c.Encrypt P src p = (.ok (r ++ P.Seal c.aead.key r p []), { pool := rest }) ∧
        (r ++ P.Seal c.aead.key r p []).take 24 = r ∧
        (r ++ P.Seal c.aead.key r p []).drop 24 = P.Seal c.aead.key r p []) ∧
    (∀ src2 ct1 ct2, (c.Encrypt P src p).1 = .ok ct1 → (c.Encrypt P src2 p).1 = .ok ct2 →
      src.pool.take 24 ≠ src2.pool.take 24 → ct1 ≠ ct2) := by
  refine ⟨?_, ?_, ?_⟩
  · intro e he
    by_cases h : 24 ≤ src.pool.length
    · have := (rand_Read_err_none_iff src 24).mpr h
      simp only [chacha20poly1305.AEAD.NonceSize, chacha20poly1305.NonceSizeX] at he
      rw [this] at he
      cases he
    · simp only [chacha20poly1305.AEAD.NonceSize, chacha20poly1305.NonceSizeX] at he
      rw [rand_Read_fail src 24 h] at he
      rw [windows_Encrypt_fail P c src p h]
      simp only [Option.some.injEq] at he
      rw [he]
  · intro hnone
    have h : 24 ≤ src.pool.length := (rand_Read_err_none_iff src 24).mp hnone
    have hlen := take_length_of_le src.pool 24 h
    refine ⟨src.pool.take 24, src.pool.drop 24, (List.take_append_drop 24 src.pool).symm, hlen,
      windows_Encrypt_ok P c src p h, ?_, ?_⟩
    · exact List.take_left' hlen
    · exact List.drop_left' hlen
  · intro src2 ct1 ct2 h1 h2 hne heq
    by_cases ha : 24 ≤ src.pool.length
    · by_cases hb : 24 ≤ src2.pool.length
      · rw [windows_Encrypt_ok P c src p ha] at h1
        rw [windows_Encrypt_ok P c src2 p hb] at h2
        have e1 := Except.ok.inj h1
        have e2 := Except.ok.inj h2
        rw [← e1, ← e2] at heq
        have := congrArg (List.take 24) heq
        rw [List.take_left' (take_length_of_le _ _ ha),
          List.take_left' (take_length_of_le _ _ hb)] at this
        exact hne this
      · rw [windows_Encrypt_fail P c src2 p hb] at h2
        cases h2
    · rw [windows_Encrypt_fail P c src p ha] at h1
      cases h1

theorem C4_windows_Encrypt_fresh_nonce_witness :
    (clientWindows.crypto.Cipher.Encrypt toyPrimitive { aead := { key := List.replicate 32 0 } }
        { pool := List.replicate 24 1 } [9]).1
      ≠ (clientWindows.crypto.Cipher.Encrypt toyPrimitive
          { aead := { key := List.replicate 32 0 } } { pool := List.replicate 24 2 } [9]).1 := by
  intro h
  exact (C4_windows_Encrypt_fresh_nonce toyPrimitive { aead := { key := List.replicate 32 0 } }
    { pool := List.replicate 24 1 } [9]).2.2 { pool := List.replicate 24 2 } _ _
    (by rw [windows_Encrypt_ok _ _ _ _ (by decide)])
    (by rw [windows_Encrypt_ok _ _ _ _ (by decide)]) (by decide)
    (Except.ok.inj (by
      rw [windows_Encrypt_ok _ _ _ _ (by decide)] at h
      rw [windows_Encrypt_ok _ _ _ _ (by decide)] at h
      exact h))

/-! ## Credential store: lemmas -/

namespace GoMap

theorem lookup_erase_self {V : Type} (m : GoMap V) (k : String) :
    lookup (erase m k) k = none := by
  induction m with
  | nil => rfl
  | cons e rest ih =>
    obtain ⟨k0, v⟩ := e
    by_cases h : k0 = k
    · simp only [erase, h, if_true]
      exact ih
    · simp only [erase, h, if_false, lookup]
      exact ih

theorem lookup_erase_ne {V : Type} (m : GoMap V) (k k1 : String) (hne : k1 ≠ k) :
    lookup (erase m k) k1 = lookup m k1 := by
  induction m with
  | nil => rfl
  | cons e rest ih =>
    obtain ⟨k0, v⟩ := e
    by_cases h : k0 = k
    · subst h
      have h1 : ¬ k0 = k1 := fun h2 => hne h2.symm
      simp only [erase, if_true, lookup, h1, if_false]
      exact ih
    · by_cases h1 : k0 = k1
      · subst h1
        simp only [erase, h, if_false, lookup, if_true]
      · simp only [erase, h, if_false, lookup, h1]
        exact ih

theorem lookup_insert_self {V : Type} (m : GoMap V) (k : String) (v : V) :
    lookup (insert m k v) k = some v := by
  simp only [insert, lookup, if_true]

theorem lookup_insert_ne {V : Type} (m : GoMap V) (k k1 : String) (v : V) (hne : k1 ≠ k) :
    lookup (insert m k v) k1 = lookup m k1 := by
  have h : ¬ k = k1 := fun h => hne h.symm
  simp only [insert, lookup, h, if_false]
  exact lookup_erase_ne m k k1 hne

theorem lookup_modify_self {V : Type} (m : GoMap V) (k : String) (f : V → V) :
    lookup (modify m k f) k = (lookup m k).map f := by
  induction m with
  | nil => rfl
  | cons e rest ih =>
    obtain ⟨k0, v⟩ := e
    by_cases h : k0 = k
    · simp only [modify, h, if_true, lookup, Option.map_some']
    · simp only [modify, h, if_false, lookup]
      exact ih

theorem lookup_modify_ne {V : Type} (m : GoMap V) (k k1 : String) (f : V → V) (hne : k1 ≠ k) :
    lookup (modify m k f) k1 = lookup m k1 := by
  induction m with
  | nil => rfl
  | cons e rest ih =>
    obtain ⟨k0, v⟩ := e
    by_cases h : k0 = k
    · subst h
      have h1 : ¬ k0 = k1 := fun h2 => hne h2.symm
      simp only [modify, if_true, lookup, h1, if_false]
      exact ih
    · by_cases h1 : k0 = k1
      · subst h1
        simp only [modify, h, if_false, lookup, if_true]
      · simp only [modify, h, if_false, lookup, h1]
        exact ih

end GoMap

theorem GetClient_eq (cm : auth.ClientManager) (now : Int) (uuid : String) :
    (cm.GetClient now uuid).1
      = match cm.clients.lookup uuid with
        | none => none
        | some c => if c.Blocked = false ∧ now ≤ c.ExpiresAt then some c else none := by
  unfold auth.ClientManager.GetClient
  cases h : cm.clients.lookup uuid with
  | none => rfl
  | some c =>
    cases hb : c.Blocked
    · by_cases ht : c.ExpiresAt < now
      · have : ¬ now ≤ c.ExpiresAt := by omega
        simp [hb, ht, this]
      · have : now ≤ c.ExpiresAt := by omega
        simp [hb, ht, this]
    · simp [hb]

theorem GetClient_store (cm : auth.ClientManager) (now : Int) (uuid : String) :
    (cm.GetClient now uuid).2 = cm := by
  unfold auth.ClientManager.GetClient
  cases cm.clients.lookup uuid with
  | none => rfl
  | some c =>
    by_cases h : (c.Blocked || decide (c.ExpiresAt < now)) = true
    · simp [h]
    · simp [h]

theorem CreateClient_ok (cm : auth.ClientManager) (src : RandSource) (now1 now2 d : Int)
    (c : auth.Client) (cm1 : auth.ClientManager) (src1 : RandSource)
    (h : cm.CreateClient src now1 now2 d = (.ok c, cm1, src1)) :
    c.CreatedAt = now1 ∧ c.ExpiresAt = now2 + d ∧ c.Blocked = false ∧ c.BytesUp = 0 ∧
    c.BytesDown = 0 ∧ c.Key.length = 32 ∧ cm1.clients = cm.clients.insert c.UUID c := by
  unfold auth.ClientManager.CreateClient at h
  generalize auth.generateUUID src = gu at h
  obtain ⟨uuid, s1⟩ := gu
  simp only at h
  by_cases hk : 32 ≤ (auth.generateSecret s1).2.pool.length
  · rw [rand_Read_ok _ _ hk] at h
    simp only [Prod.mk.injEq, Except.ok.injEq] at h
    obtain ⟨hc, hcm, _⟩ := h
    subst hc
    subst hcm
    exact ⟨rfl, rfl, rfl, rfl, rfl, take_length_of_le _ _ hk, rfl⟩
  · rw [rand_Read_fail _ _ hk] at h
    simp only [Prod.mk.injEq, reduceCtorEq, false_and] at h

theorem CreateClient_total (cm : auth.ClientManager) (src : RandSource) (now1 now2 d : Int)
    (h : 64 ≤ src.pool.length) :
    ∃ c cm1 src1, cm.CreateClient src now1 now2 d = (.ok c, cm1, src1) := by
  have h16 : 16 ≤ src.pool.length := by omega
  have h16b : 16 ≤ (src.pool.drop 16).length := by
    rw [List.length_drop]
    omega
  have h32 : 32 ≤ ((src.pool.drop 16).drop 16).length := by
    rw [List.length_drop, List.length_drop]
    omega
  simp only [auth.ClientManager.CreateClient, auth.generateUUID, auth.generateSecret,
    rand_Read_ok _ _ h16, rand_Read_ok _ _ h16b, rand_Read_ok _ _ h32]
  exact ⟨_, _, _, rfl⟩

theorem GetClient_some_iff (cm : auth.ClientManager) (now : Int) (uuid : String)
    (c : auth.Client) :
    (cm.GetClient now uuid).1 = some c
      ↔ (cm.clients.lookup uuid = some c ∧ c.Blocked = false ∧ now ≤ c.ExpiresAt) := by
  rw [GetClient_eq]
  cases h : cm.clients.lookup uuid with
  | none => simp
  | some c1 =>
    by_cases hc : c1.Blocked = false ∧ now ≤ c1.ExpiresAt
    · simp only [hc, and_self, if_true, Option.some.injEq]
      constructor
      · intro e
        subst e
        exact ⟨rfl, hc⟩
      · intro e
        exact e.1
    · simp only [hc, if_false, Option.some.injEq, reduceCtorEq, false_iff]
      rintro ⟨e, hb⟩
      subst e
      exact hc hb

theorem GetClient_none_iff (cm : auth.ClientManager) (now : Int) (uuid : String) :
    (cm.GetClient now uuid).1 = none
      ↔ (cm.clients.lookup uuid = none ∨
          ∃ c, cm.clients.lookup uuid = some c ∧ (c.Blocked = true ∨ c.ExpiresAt < now)) := by
  rw [GetClient_eq]
  cases h : cm.clients.lookup uuid with
  | none => simp
  | some c1 =>
    cases hb : c1.Blocked
    · by_cases ht : now ≤ c1.ExpiresAt
      · have : ¬ c1.ExpiresAt < now := by omega
        simp [hb, ht, this]
      · have : c1.ExpiresAt < now := by omega
        simp [hb, ht, this]
    · simp [hb]

/-! ## Credential store: properties -/

/-- C6. For every store state, identity and current time `now`: `GetClient` returns
`(record, true)` exactly when a record is stored under the identity, its `Blocked` flag is false
and `now ≤ ExpiresAt`; in every other case (unknown, blocked, expired) it returns the same
result `(nil, false)`; and it leaves the store as it was. -/
theorem C6_GetClient_lookup (cm : auth.ClientManager) (now : Int) (uuid : String) :
    (∀ c, (cm.GetClient now uuid).1 = some c
        ↔ (cm.clients.lookup uuid = some c ∧ c.Blocked = false ∧ now ≤ c.ExpiresAt)) ∧
    ((cm.GetClient now uuid).1 = none
        ↔ (cm.clients.lookup uuid = none ∨
            ∃ c, cm.clients.lookup uuid = some c ∧ (c.Blocked = true ∨ c.ExpiresAt < now))) ∧
    (cm.GetClient now uuid).2 = cm :=
  ⟨GetClient_some_iff cm now uuid, GetClient_none_iff cm now uuid, GetClient_store cm now uuid⟩

/-- C7, as stated, fails in two ways. When the generated identity is already in use, two
successive `CreateClient` calls whose random draws for the identity coincide both succeed, and the
second replaces the record that the first had stored. And `CreateClient` reads the clock twice:
with the readings 1000 and 1500 and duration 100 the record has `CreatedAt = 1000` and
`ExpiresAt = 1600`, not `CreatedAt + 100`, and `GetClient` still returns it at time 1600. -/
theorem C7_CreateClient_replaces_colliding_record :
    (∃ c1 cm1 src1 c2 cm2 src2,
      auth.NewClientManager.CreateClient { pool := List.replicate 64 0 } 0 0 100
        = (.ok c1, cm1, src1) ∧
      cm1.CreateClient { pool := List.replicate 64 0 } 50 50 100 = (.ok c2, cm2, src2) ∧
      cm1.clients.lookup c1.UUID = some c1 ∧
      cm2.clients.lookup c1.UUID ≠ some c1) ∧
    (∃ c cm1 src1,
      auth.NewClientManager.CreateClient { pool := List.replicate 64 0 } 1000 1500 100
        = (.ok c, cm1, src1) ∧
      c.CreatedAt = 1000 ∧ c.ExpiresAt = 1600 ∧ c.ExpiresAt ≠ c.CreatedAt + 100 ∧
      (cm1.GetClient 1600 c.UUID).1 = some c) :=
  ⟨⟨_, _, _, _, _, _, rfl, rfl, by decide, by decide⟩,
    ⟨_, _, _, rfl, by decide, by decide, by decide, by decide⟩⟩

/-- C7 (amended). A successful `CreateClient(d)` whose two readings of the clock are `now1`, for
`CreatedAt`, and then `now2`, for `ExpiresAt`, returns a record with `CreatedAt = now1`,
`ExpiresAt = now2 + d`, `Blocked = false`, `BytesUp = BytesDown = 0` and a 32-byte `Key`, stores
it under the returned UUID and leaves the record of every other identity unchanged; while the
identity holds an unblocked record with that expiry, `GetClient` returns it at every time
`t ≤ now2 + d` and at no later time; for `d` = 1h the record is returned at `now2` + 59m and not
at `now2` + 61m. When the two readings are one instant `now`, this is `CreatedAt = now` and
`ExpiresAt = now + d`. -/
theorem C7_CreateClient_record (cm : auth.ClientManager) (src : RandSource) (now1 now2 d : Int)
    (c : auth.Client) (cm1 : auth.ClientManager) (src1 : RandSource)
    (h : cm.CreateClient src now1 now2 d = (.ok c, cm1, src1)) :
    c.CreatedAt = now1 ∧ c.ExpiresAt = now2 + d ∧ c.Blocked = false ∧ c.BytesUp = 0 ∧
    c.BytesDown = 0 ∧ c.Key.length = 32 ∧
    cm1.clients.lookup c.UUID = some c ∧
    (∀ u, u ≠ c.UUID → cm1.clients.lookup u = cm.clients.lookup u) ∧
    (∀ (cm2 : auth.ClientManager) (c2 : auth.Client) (t : Int),
      cm2.clients.lookup c.UUID = some c2 → c2.Blocked = false → c2.ExpiresAt = c.ExpiresAt →
        ((cm2.GetClient t c.UUID).1 = some c2 ↔ t ≤ now2 + d)) ∧
    (d = 3600 * 10 ^ 9 →
      (cm1.GetClient (now2 + 59 * 60 * 10 ^ 9) c.UUID).1 = some c ∧
      (cm1.GetClient (now2 + 61 * 60 * 10 ^ 9) c.UUID).1 = none) ∧
    (now1 = now2 → c.ExpiresAt = c.CreatedAt + d) := by
  obtain ⟨h1, h2, h3, h4, h5, h6, h7⟩ := CreateClient_ok cm src now1 now2 d c cm1 src1 h
  have hself : cm1.clients.lookup c.UUID = some c := by
    rw [h7]
    exact GoMap.lookup_insert_self _ _ _
  have hget : ∀ (cm2 : auth.ClientManager) (c2 : auth.Client) (t : Int),
      cm2.clients.lookup c.UUID = some c2 → c2.Blocked = false → c2.ExpiresAt = c.ExpiresAt →
        ((cm2.GetClient t c.UUID).1 = some c2 ↔ t ≤ now2 + d) := by
    intro cm2 c2 t hl hb he
    rw [GetClient_some_iff, he, h2]
    constructor
    · intro hh
      exact hh.2.2
    · intro hh
      exact ⟨hl, hb, hh⟩
  refine ⟨h1, h2, h3, h4, h5, h6, hself, ?_, hget, ?_, ?_⟩
  · intro u hu
    rw [h7]
    exact GoMap.lookup_insert_ne _ _ _ _ hu
  · intro hd
    constructor
    · exact (hget cm1 c _ hself h3 rfl).mpr (by omega)
    · rw [GetClient_none_iff]
      right
      exact ⟨c, hself, Or.inr (by omega)⟩
  · intro hnow
    rw [h1, h2, hnow]

theorem C7_CreateClient_record_witness :
    ∃ c cm1 src1,
      auth.NewClientManager.CreateClient { pool := List.replicate 64 3 } 1000 1500
          (3600 * 10 ^ 9) = (.ok c, cm1, src1) ∧
      c.CreatedAt = 1000 ∧
      c.ExpiresAt = 1500 + 3600 * 10 ^ 9 ∧
      (cm1.GetClient (1500 + 59 * 60 * 10 ^ 9) c.UUID).1 = some c ∧
      (cm1.GetClient (1500 + 61 * 60 * 10 ^ 9) c.UUID).1 = none :=
  ⟨_, _, _, rfl,
    (C7_CreateClient_record auth.NewClientManager { pool := List.replicate 64 3 } 1000 1500
      (3600 * 10 ^ 9) _ _ _ rfl).1,
    (C7_CreateClient_record auth.NewClientManager { pool := List.replicate 64 3 } 1000 1500
      (3600 * 10 ^ 9) _ _ _ rfl).2.1,
    ((C7_CreateClient_record auth.NewClientManager { pool := List.replicate 64 3 } 1000 1500
      (3600 * 10 ^ 9) _ _ _ rfl).2.2.2.2.2.2.2.2.2.1 rfl).1,
    ((C7_CreateClient_record auth.NewClientManager { pool := List.replicate 64 3 } 1000 1500
      (3600 * 10 ^ 9) _ _ _ rfl).2.2.2.2.2.2.2.2.2.1 rfl).2⟩

/-- C8, as stated, fails at the clock reading of the expiry itself: a credential created with
duration 0 at time 5 is returned by `GetClient` at time 5; and one created with the readings 5,
for `CreatedAt`, and 6, for `ExpiresAt`, is returned at time 6, after its creation time. -/
theorem C8_zero_duration_returned_at_creation_time :
    (∃ c cm1 src1,
      auth.NewClientManager.CreateClient { pool := List.replicate 64 0 } 5 5 0
        = (.ok c, cm1, src1) ∧
      (cm1.GetClient 5 c.UUID).1 = some c) ∧
    (∃ c cm1 src1,
      auth.NewClientManager.CreateClient { pool := List.replicate 64 0 } 5 6 0
        = (.ok c, cm1, src1) ∧
      c.CreatedAt = 5 ∧ (cm1.GetClient 6 c.UUID).1 = some c) :=
  ⟨⟨_, _, _, rfl, by decide⟩, ⟨_, _, _, rfl, by decide, by decide⟩⟩

/-- C8 (amended). A credential created by `CreateClient` with duration 0, the clock being read
as `now1` for `CreatedAt` and then as `now2` for `ExpiresAt`, has `ExpiresAt = now2`; it is
reported absent by `GetClient` at every lookup time strictly after `now2`, and at the reading
`now2` itself, and at any lookup time up to it, it is still returned. -/
theorem C8_zero_duration_expiry (cm : auth.ClientManager) (src : RandSource) (now1 now2 : Int)
    (c : auth.Client) (cm1 : auth.ClientManager) (src1 : RandSource)
    (h : cm.CreateClient src now1 now2 0 = (.ok c, cm1, src1)) :
    c.CreatedAt = now1 ∧ c.ExpiresAt = now2 ∧
    (∀ t, now2 < t → (cm1.GetClient t c.UUID).1 = none) ∧
    (∀ t, t ≤ now2 → (cm1.GetClient t c.UUID).1 = some c) ∧
    (cm1.GetClient now2 c.UUID).1 = some c := by
  obtain ⟨h1, h2, h3, _, _, _, h7⟩ := CreateClient_ok cm src now1 now2 0 c cm1 src1 h
  have hself : cm1.clients.lookup c.UUID = some c := by
    rw [h7]
    exact GoMap.lookup_insert_self _ _ _
  have hle : ∀ t, t ≤ now2 → (cm1.GetClient t c.UUID).1 = some c := by
    intro t ht
    rw [GetClient_some_iff]
    exact ⟨hself, h3, by omega⟩
  refine ⟨h1, by omega, ?_, hle, hle now2 (le_refl _)⟩
  intro t ht
  rw [GetClient_none_iff]
  right
  exact ⟨c, hself, Or.inr (by omega)⟩

theorem C8_zero_duration_expiry_witness :
    ∃ c cm1 src1,
      auth.NewClientManager.CreateClient { pool := List.replicate 64 9 } 7 8 0
        = (.ok c, cm1, src1) ∧
      (cm1.GetClient 9 c.UUID).1 = none ∧ (cm1.GetClient 8 c.UUID).1 = some c :=
  ⟨_, _, _, rfl,
    (C8_zero_duration_expiry auth.NewClientManager { pool := List.replicate 64 9 } 7 8 _ _ _
      rfl).2.2.1 9 (by decide),
    (C8_zero_duration_expiry auth.NewClientManager { pool := List.replicate 64 9 } 7 8 _ _ _
      rfl).2.2.2.2⟩

/-! ## Session registry: lemmas -/

namespace tunnel

theorem pong_ne_data : protocol.FrameTypePong ≠ protocol.FrameTypeData := by decide

theorem ping_ne_data : protocol.FrameTypePing ≠ protocol.FrameTypeData := by decide

theorem handleTunToStream_evolves (P : XChaCha20Poly1305) (sess : Session)
    (rnd : RandSource) (data : List Byte) (readErr sendErr : Option Err) :
    Evolves sess (Server.handleTunToStream P sess rnd data readErr sendErr).1 := by
  unfold Server.handleTunToStream
  by_cases hd : sess.conn.done = true
  · rw [if_pos hd]
    exact Evolves.tunExit _ (by simp [ctxErr])
  · rw [if_neg hd]
    cases readErr with
    | some err => exact Evolves.tunExit _ (by simp)
    | none =>
      by_cases hn : (List.take 1500 data).length > 0
      · simp only [hn, if_true]
        rcases hsf : Server.sendFrame P sess.conn rnd
          { Typ := protocol.FrameTypeData, Data := List.take 1500 data } sendErr
          with ⟨_ | err, rnd1, msg⟩
        · exact Evolves.forwarded _ _
        · exact Evolves.tunExit _ (by simp)
      · simp only [hn, if_false]
        exact Evolves.same

theorem handleStreamToTun_evolves (P : XChaCha20Poly1305) (sess : Session)
    (rnd : RandSource) (recv : Except Err (List Byte)) (writeErr sendErr : Option Err)
    (now : Int) :
    Evolves sess (Server.handleStreamToTun P sess rnd recv writeErr sendErr now).1 := by
  unfold Server.handleStreamToTun
  by_cases hd : sess.conn.done = true
  · rw [if_pos hd]
    exact Evolves.streamExit _ (by simp [ctxErr])
  · rw [if_neg hd]
    cases recv with
    | error err =>
      by_cases he : err = Err.EOF
      · simp only [he, if_true]
        exact Evolves.streamExit _ (by simp)
      · simp only [he, if_false]
        exact Evolves.streamExit _ (by simp)
    | ok msgData =>
      dsimp only
      cases hdec : sess.conn.cipher.Decrypt P msgData with
      | error e => exact Evolves.same
      | ok decrypted =>
        dsimp only
        cases decrypted with
        | nil => exact Evolves.same
        | cons typ payload =>
          have hlen : ¬ (typ :: payload).length < 1 := by simp
          simp only [hlen, if_false]
          by_cases h0 : typ = protocol.FrameTypeData
          · simp only [h0, if_true]
            cases writeErr with
            | some err => exact Evolves.streamExit _ (by simp)
            | none => exact Evolves.delivered _
          · simp only [h0, if_false]
            by_cases h1 : typ = protocol.FrameTypePing
            · simp only [h1, if_true]
              rcases hsf : Server.sendFrame P sess.conn rnd
                { Typ := protocol.FrameTypePong, Data := payload } sendErr
                with ⟨_ | err, rnd1, _ | msg⟩
              · exact Evolves.refreshed _
              · exact Evolves.control { Typ := protocol.FrameTypePong, Data := payload }
                  pong_ne_data _ _
              · exact Evolves.refreshed _
              · exact Evolves.refreshed _
            · simp only [h1, if_false]
              by_cases h2 : typ = protocol.FrameTypePong
              · simp only [h2, if_true]
                exact Evolves.refreshed _
              · simp only [h2, if_false]
                exact Evolves.same

theorem keepAlive_evolves (P : XChaCha20Poly1305) (sess : Session) (rnd : RandSource)
    (now : Int) (sendErr : Option Err) :
    Evolves sess (Server.keepAlive P sess rnd now sendErr).1 := by
  unfold Server.keepAlive
  by_cases hd : sess.conn.done = true
  · rw [if_pos hd]
    have h := Evolves.keepAliveExit (s := sess) true
    rw [← hd] at h
    exact h
  · rw [if_neg hd]
    by_cases ht : now - sess.conn.lastPing > 30 * 10 ^ 9
    · rw [if_pos ht]
      exact Evolves.keepAliveExit true
    · rw [if_neg ht]
      dsimp only
      rcases hsf : Server.sendFrame P sess.conn rnd
        { Typ := protocol.FrameTypePing, Data := [112, 105, 110, 103] } sendErr
        with ⟨_ | err, rnd1, msg⟩
      · have h := Evolves.control (s := sess)
          { Typ := protocol.FrameTypePing, Data := [112, 105, 110, 103] } ping_ne_data
          (msg.getD []) sess.conn.lastPing
        exact h
      · exact Evolves.keepAliveExit true

theorem step_evolves (P : XChaCha20Poly1305) (sess : Session) (rnd : RandSource) (ev : Event) :
    Evolves sess (sess.step P rnd ev).1 := by
  cases ev with
  | tunRead data readErr sendErr =>
    simp only [Session.step]
    by_cases h : sess.tunToStream = true
    · rw [if_pos h]
      exact handleTunToStream_evolves P sess rnd data readErr sendErr
    · rw [if_neg h]
      exact Evolves.same
  | streamRecv recv writeErr sendErr now =>
    simp only [Session.step]
    by_cases h : sess.streamToTun = true
    · rw [if_pos h]
      exact handleStreamToTun_evolves P sess rnd recv writeErr sendErr now
    · rw [if_neg h]
      exact Evolves.same
  | tick now sendErr =>
    simp only [Session.step]
    by_cases h : sess.keepAlive = true
    · rw [if_pos h]
      exact keepAlive_evolves P sess rnd now sendErr
    · rw [if_neg h]
      exact Evolves.same
  | ctxDone => exact Evolves.cancelled

theorem Evolves.ptr_eq {s t : Session} (h : Evolves s t) : t.ptr = s.ptr := by
  cases h <;> rfl

theorem Evolves.uuid_eq {s t : Session} (h : Evolves s t) : t.uuid = s.uuid := by
  cases h <;> rfl

theorem Evolves.errChanClean {s t : Session} (h : Evolves s t) (hs : errChanClean s) :
    errChanClean t := by
  cases h
  case tunExit e he =>
    intro x hx
    rcases List.mem_append.mp hx with hx | hx
    · exact hs x hx
    · rw [List.mem_singleton.mp hx]
      exact he
  case streamExit e he =>
    intro x hx
    rcases List.mem_append.mp hx with hx | hx
    · exact hs x hx
    · rw [List.mem_singleton.mp hx]
      exact he
  all_goals exact hs

theorem wrapInt64_add_wrapInt64 (a b : Int) : wrapInt64 (wrapInt64 a + b) = wrapInt64 (a + b) := by
  unfold wrapInt64
  omega

theorem wrapInt64_of_range (a : Int) (h1 : -(2 ^ 63) ≤ a) (h2 : a < 2 ^ 63) :
    wrapInt64 a = a := by
  unfold wrapInt64
  omega

theorem dataBytes_append (xs ys : List (protocol.Frame × List Byte)) :
    dataBytes (xs ++ ys) = dataBytes xs + dataBytes ys := by
  simp [dataBytes]

theorem writtenBytes_append (xs ys : List (List Byte)) :
    writtenBytes (xs ++ ys) = writtenBytes xs + writtenBytes ys := by
  simp [writtenBytes]

theorem Evolves.accounted {s t : Session} (h : Evolves s t) (hs : Accounted s) :
    Accounted t := by
  obtain ⟨hu, hd⟩ := hs
  cases h
  case forwarded pkt msg =>
    refine ⟨?_, hd⟩
    show wrapInt64 (s.conn.bytesUp + pkt.length) = wrapInt64 (dataBytes (s.sent ++ _))
    rw [hu, wrapInt64_add_wrapInt64, dataBytes_append]
    simp [dataBytes]
  case delivered payload =>
    refine ⟨hu, ?_⟩
    show wrapInt64 (s.conn.bytesDown + payload.length)
      = wrapInt64 (writtenBytes (s.written ++ _))
    rw [hd, wrapInt64_add_wrapInt64, writtenBytes_append]
    simp [writtenBytes]
  case control f hf msg lp =>
    refine ⟨?_, hd⟩
    show s.conn.bytesUp = wrapInt64 (dataBytes (s.sent ++ _))
    rw [hu, dataBytes_append]
    simp [dataBytes, hf]
  all_goals exact ⟨hu, hd⟩

theorem run_invariant (P : XChaCha20Poly1305) (Q : Session → Prop)
    (hQ : ∀ s t, Evolves s t → Q s → Q t) (evs : List Event) :
    ∀ (sess : Session) (rnd : RandSource), Q sess → Q (sess.run P rnd evs).1 := by
  induction evs with
  | nil =>
    intro sess rnd h
    exact h
  | cons ev evs ih =>
    intro sess rnd h
    exact ih _ _ (hQ _ _ (step_evolves P sess rnd ev) h)

theorem ConnectAccept_with_credentials (s : Server) (ptr : Nat) (env : ConnectEnv) (md : MD)
    (uuid secret : String) (us ss : List String) (hmd : env.md = some md)
    (hu : MD.Get md "uuid" = uuid :: us) (hs : MD.Get md "secret" = secret :: ss) :
    s.ConnectAccept ptr env =
      match (s.clientManager.GetClient env.now uuid).1 with
      | none => (.error (Err.msg "invalid credentials"), s)
      | some client =>
        if client.Secret ≠ secret then (.error (Err.msg "invalid credentials"), s)
        else
          match serverCrypto.NewCipher client.Key with
          | .error err => (.error (Err.wrapped "failed to create cipher" err), s)
          | .ok cipher =>
            match env.tun with
            | .error err => (.error (Err.wrapped "failed to create tun connection" err), s)
            | .ok tunConn =>
              (.ok (freshSession ptr uuid client cipher env tunConn),
                { clientManager := s.clientManager,
                  connections := s.connections.insert uuid ptr }) := by
  unfold Server.ConnectAccept
  rw [hmd]
  dsimp only
  rw [hu, hs]
  dsimp only
  have hst := GetClient_store s.clientManager env.now uuid
  rcases hg : s.clientManager.GetClient env.now uuid with ⟨r, cm1⟩
  rw [hg] at hst
  dsimp only at hst
  subst hst
  cases r with
  | none => rfl
  | some client =>
    dsimp only
    by_cases hsec : client.Secret ≠ secret
    · rw [if_pos hsec, if_pos hsec]
    · rw [if_neg hsec, if_neg hsec]
      cases serverCrypto.NewCipher client.Key with
      | error err => rfl
      | ok cipher =>
        dsimp only
        cases env.tun with
        | error err => rfl
        | ok tunConn => rfl

theorem ConnectAccept_rejected_state (s : Server) (ptr : Nat) (env : ConnectEnv) (e : Err)
    (h : (s.ConnectAccept ptr env).1 = .error e) : (s.ConnectAccept ptr env).2 = s := by
  cases hmd : env.md with
  | none =>
    unfold Server.ConnectAccept
    rw [hmd]
  | some md =>
    cases hu : MD.Get md "uuid" with
    | nil =>
      unfold Server.ConnectAccept
      rw [hmd]
      dsimp only
      rw [hu]
    | cons uuid us =>
      cases hs : MD.Get md "secret" with
      | nil =>
        unfold Server.ConnectAccept
        rw [hmd]
        dsimp only
        rw [hu, hs]
      | cons secret ss =>
        rw [ConnectAccept_with_credentials s ptr env md uuid secret us ss hmd hu hs] at h ⊢
        cases hg : (s.clientManager.GetClient env.now uuid).1 with
        | none => rfl
        | some client =>
          rw [hg] at h
          dsimp only at h ⊢
          by_cases hsec : client.Secret ≠ secret
          · rw [if_pos hsec]
          · rw [if_neg hsec] at h ⊢
            cases hc : serverCrypto.NewCipher client.Key with
            | error err => rfl
            | ok cipher =>
              rw [hc] at h
              dsimp only at h ⊢
              cases ht : env.tun with
              | error err => rfl
              | ok tunConn =>
                rw [ht] at h
                cases h

theorem ConnectAccept_ok (s : Server) (ptr : Nat) (env : ConnectEnv) (sess : Session)
    (s1 : Server) (h : s.ConnectAccept ptr env = (.ok sess, s1)) :
    sess.ptr = ptr ∧ sess.errChan = [] ∧ sess.conn.bytesUp = 0 ∧ sess.conn.bytesDown = 0 ∧
    sess.sent = [] ∧ sess.written = [] ∧ sess.conn.done = false ∧
    s1.clientManager = s.clientManager ∧
    s1.connections = s.connections.insert sess.uuid ptr ∧
    (∃ c, (s.clientManager.GetClient env.now sess.uuid).1 = some c) := by
  cases hmd : env.md with
  | none =>
    unfold Server.ConnectAccept at h
    rw [hmd] at h
    cases h
  | some md =>
    cases hu : MD.Get md "uuid" with
    | nil =>
      unfold Server.ConnectAccept at h
      rw [hmd] at h
      dsimp only at h
      rw [hu] at h
      cases h
    | cons uuid us =>
      cases hs : MD.Get md "secret" with
      | nil =>
        unfold Server.ConnectAccept at h
        rw [hmd] at h
        dsimp only at h
        rw [hu, hs] at h
        cases h
      | cons secret ss =>
        rw [ConnectAccept_with_credentials s ptr env md uuid secret us ss hmd hu hs] at h
        cases hg : (s.clientManager.GetClient env.now uuid).1 with
        | none =>
          rw [hg] at h
          cases h
        | some client =>
          rw [hg] at h
          dsimp only at h
          by_cases hsec : client.Secret ≠ secret
          · rw [if_pos hsec] at h
            cases h
          · rw [if_neg hsec] at h
            cases hc : serverCrypto.NewCipher client.Key with
            | error err =>
              rw [hc] at h
              cases h
            | ok cipher =>
              rw [hc] at h
              dsimp only at h
              cases ht : env.tun with
              | error err =>
                rw [ht] at h
                cases h
              | ok tunConn =>
                rw [ht] at h
                dsimp only at h
                simp only [Prod.mk.injEq, Except.ok.injEq] at h
                obtain ⟨h1, h2⟩ := h
                subst h1
                subst h2
                exact ⟨rfl, rfl, rfl, rfl, rfl, rfl, rfl, rfl, rfl, client, hg⟩

theorem nodup_all_eq_length_le_one (l : List Nat) (p : Nat) (hn : l.Nodup)
    (h : ∀ a ∈ l, a = p) : l.length ≤ 1 := by
  match l, hn, h with
  | [], _, _ => simp
  | [_], _, _ => simp
  | a :: b :: rest, hn, h =>
    exfalso
    have ha : a = p := h a (by simp)
    have hb : b = p := h b (by simp)
    rw [List.nodup_cons] at hn
    apply hn.1
    rw [ha, ← hb]
    simp

theorem eq_of_ptr_eq (l : List Session) (hn : (l.map (fun x => x.ptr)).Nodup) (x y : Session)
    (hx : x ∈ l) (hy : y ∈ l) (h : x.ptr = y.ptr) : x = y :=
  List.inj_on_of_nodup_map hn hx hy h

theorem Engine.init_consistent (cm : auth.ClientManager) (rnd : RandSource) :
    (Engine.init cm rnd).Consistent := by
  refine ⟨?_, ?_, ?_⟩
  · intro x hx
    cases hx
  · exact List.nodup_nil
  · intro u p h
    cases h

theorem Engine.connect_consistent (P : XChaCha20Poly1305) (e : Engine) (env : ConnectEnv)
    (h : e.Consistent) : (e.step P (.connect env)).Consistent := by
  obtain ⟨h1, h2, h3⟩ := h
  simp only [Engine.step]
  rcases hacc : Server.ConnectAccept e.server e.nextPtr env with ⟨r, s1⟩
  cases r with
  | error err =>
    have hs := ConnectAccept_rejected_state e.server e.nextPtr env err (by rw [hacc])
    rw [hacc] at hs
    dsimp only at hs
    subst hs
    exact ⟨h1, h2, h3⟩
  | ok sess =>
    obtain ⟨hp, _, _, _, _, _, _, _, hreg, _⟩ := ConnectAccept_ok e.server e.nextPtr env sess s1 hacc
    dsimp only
    refine ⟨?_, ?_, ?_⟩
    · intro x hx
      rcases List.mem_append.mp hx with hx | hx
      · exact Nat.lt_succ_of_lt (h1 x hx)
      · rw [List.mem_singleton.mp hx, hp]
        exact Nat.lt_succ_self _
    · rw [List.map_append, List.nodup_append]
      refine ⟨h2, by simp, ?_⟩
      intro a ha hb
      simp only [List.map_cons, List.map_nil, List.mem_singleton] at hb
      obtain ⟨x, hx, hxa⟩ := List.mem_map.mp ha
      have := h1 x hx
      rw [hxa, hb, hp] at this
      exact Nat.lt_irrefl _ this
    · intro u p hl
      rw [hreg] at hl
      by_cases hu : u = sess.uuid
      · subst hu
        rw [GoMap.lookup_insert_self] at hl
        refine ⟨sess, List.mem_append.mpr (Or.inr (List.mem_singleton.mpr rfl)), ?_, rfl⟩
        rw [hp]
        exact Option.some.inj hl
      · rw [GoMap.lookup_insert_ne _ _ _ _ hu] at hl
        obtain ⟨x, hx, hxp, hxu⟩ := h3 u p hl
        exact ⟨x, List.mem_append.mpr (Or.inl hx), hxp, hxu⟩

theorem Engine.event_consistent (P : XChaCha20Poly1305) (e : Engine) (ptr : Nat) (ev : Event)
    (h : e.Consistent) : (e.step P (.event ptr ev)).Consistent := by
  obtain ⟨h1, h2, h3⟩ := h
  simp only [Engine.step]
  cases hf : e.live.find? (fun x => x.ptr = ptr) with
  | none => exact ⟨h1, h2, h3⟩
  | some sess =>
    dsimp only
    have hptr : ∀ x : Session,
        (if x.ptr = ptr then (x.step P e.rnd ev).1 else x).ptr = x.ptr := by
      intro x
      by_cases hx : x.ptr = ptr
      · rw [if_pos hx]
        exact (step_evolves P x e.rnd ev).ptr_eq
      · rw [if_neg hx]
    have huuid : ∀ x : Session,
        (if x.ptr = ptr then (x.step P e.rnd ev).1 else x).uuid = x.uuid := by
      intro x
      by_cases hx : x.ptr = ptr
      · rw [if_pos hx]
        exact (step_evolves P x e.rnd ev).uuid_eq
      · rw [if_neg hx]
    refine ⟨?_, ?_, ?_⟩
    · intro y hy
      obtain ⟨x, hx, hxy⟩ := List.mem_map.mp hy
      rw [← hxy, hptr]
      exact h1 x hx
    · rw [List.map_map]
      have : ((fun x : Session => x.ptr) ∘
          fun x => if x.ptr = ptr then (x.step P e.rnd ev).1 else x)
          = fun x => x.ptr := by
        funext x
        exact hptr x
      rw [this]
      exact h2
    · intro u p hl
      obtain ⟨x, hx, hxp, hxu⟩ := h3 u p hl
      refine ⟨_, List.mem_map.mpr ⟨x, hx, rfl⟩, ?_, ?_⟩
      · rw [hptr]
        exact hxp
      · rw [huuid]
        exact hxu

theorem Engine.teardown_consistent (P : XChaCha20Poly1305) (e : Engine) (ptr : Nat)
    (h : e.Consistent) : (e.step P (.teardown ptr)).Consistent := by
  obtain ⟨h1, h2, h3⟩ := h
  simp only [Engine.step]
  cases hf : e.live.find? (fun x => x.ptr = ptr) with
  | none => exact ⟨h1, h2, h3⟩
  | some sess =>
    dsimp only
    by_cases hret : sess.canReturn = true
    · rw [if_pos hret]
      have hmem : sess ∈ e.live := List.mem_of_find?_eq_some hf
      have hsp : sess.ptr = ptr := by
        have := List.find?_some hf
        simpa using this
      refine ⟨?_, ?_, ?_⟩
      · intro x hx
        exact h1 x (List.mem_filter.mp hx).1
      · exact (List.filter_sublist e.live).map _ |>.nodup h2
      · intro u p hl
        have hl1 : (e.server.connections.erase sess.uuid).lookup u = some p := hl
        by_cases hu : u = sess.uuid
        · subst hu
          rw [GoMap.lookup_erase_self] at hl1
          cases hl1
        · rw [GoMap.lookup_erase_ne _ _ _ hu] at hl1
          obtain ⟨x, hx, hxp, hxu⟩ := h3 u p hl1
          refine ⟨x, List.mem_filter.mpr ⟨hx, ?_⟩, hxp, hxu⟩
          simp only [ne_eq, decide_not, Bool.not_eq_true', decide_eq_false_iff_not]
          intro hxptr
          have hxs : x = sess := eq_of_ptr_eq e.live h2 x sess hx hmem (hxptr.trans hsp.symm)
          rw [hxs] at hxu
          exact hu hxu.symm
    · rw [if_neg hret]
      exact ⟨h1, h2, h3⟩

theorem Engine.step_consistent (P : XChaCha20Poly1305) (e : Engine) (a : Action)
    (h : e.Consistent) : (e.step P a).Consistent := by
  cases a with
  | connect env => exact Engine.connect_consistent P e env h
  | event ptr ev => exact Engine.event_consistent P e ptr ev h
  | teardown ptr => exact Engine.teardown_consistent P e ptr h
  | createClient now1 now2 duration => exact h
  | deleteClient uuid => exact h
  | blockClient uuid => exact h
  | unblockClient uuid => exact h

theorem Engine.run_consistent (P : XChaCha20Poly1305) (acts : List Action) :
    ∀ e : Engine, e.Consistent → (e.run P acts).Consistent := by
  induction acts with
  | nil =>
    intro e h
    exact h
  | cons a as ih =>
    intro e h
    exact ih _ (Engine.step_consistent P e a h)

theorem Engine.reachable_consistent (P : XChaCha20Poly1305) (e : Engine)
    (h : Engine.Reachable P e) : e.Consistent := by
  obtain ⟨cm, rnd, acts, he⟩ := h
  rw [he]
  exact Engine.run_consistent P acts _ (Engine.init_consistent cm rnd)

end tunnel

/-! ## Session registry: properties -/

/-- C5. Given that the uuid and secret metadata values are both present, `Connect` fails with the
error "invalid credentials" exactly when `GetClient` reports the identity absent or the stored
`Secret` differs from the claimed one; in every such case the server is left as it was, registry
and credential store alike; and once a connection is registered, no value that `Connect` can
return at its end is that error. -/
theorem C5_Connect_invalid_credentials (P : XChaCha20Poly1305) (s : tunnel.Server) (ptr : Nat)
    (env : tunnel.ConnectEnv) (md : tunnel.MD) (uuid secret : String) (us ss : List String)
    (hmd : env.md = some md) (hu : tunnel.MD.Get md "uuid" = uuid :: us)
    (hs : tunnel.MD.Get md "secret" = secret :: ss) :
    ((s.ConnectAccept ptr env).1 = .error (Err.msg "invalid credentials")
      ↔ ((s.clientManager.GetClient env.now uuid).1 = none ∨
          ∃ c, (s.clientManager.GetClient env.now uuid).1 = some c ∧ c.Secret ≠ secret)) ∧
    ((s.ConnectAccept ptr env).1 = .error (Err.msg "invalid credentials") →
      (s.ConnectAccept ptr env).2.connections = s.connections ∧
      (s.ConnectAccept ptr env).2.clientManager = s.clientManager) ∧
    (∀ sess s1 rnd evs ret, s.ConnectAccept ptr env = (.ok sess, s1) →
      (sess.run P rnd evs).1.returns ret → ret ≠ some (Err.msg "invalid credentials")) := by
  refine ⟨?_, ?_, ?_⟩
  · rw [tunnel.ConnectAccept_with_credentials s ptr env md uuid secret us ss hmd hu hs]
    cases (s.clientManager.GetClient env.now uuid).1 with
    | none => simp
    | some client =>
      dsimp only
      by_cases hsec : client.Secret ≠ secret
      · rw [if_pos hsec]
        simp [hsec]
      · rw [if_neg hsec]
        have hsec1 : client.Secret = secret := not_not.mp hsec
        cases serverCrypto.NewCipher client.Key with
        | error err => simp [hsec1]
        | ok cipher =>
          cases env.tun with
          | error err => simp [hsec1]
          | ok tunConn => simp [hsec1]
  · intro h
    rw [tunnel.ConnectAccept_rejected_state s ptr env _ h]
    exact ⟨rfl, rfl⟩
  · intro sess s1 rnd evs ret hacc hret
    obtain ⟨_, herr, _⟩ := tunnel.ConnectAccept_ok s ptr env sess s1 hacc
    have hclean : tunnel.errChanClean sess := by
      intro x hx
      rw [herr] at hx
      cases hx
    have hrun := tunnel.run_invariant P tunnel.errChanClean
      (fun _ _ hev hq => hev.errChanClean hq) evs sess rnd hclean
    rcases hret with hhead | ⟨_, hctx⟩
    · exact hrun ret (List.mem_of_mem_head? hhead)
    · rw [hctx]
      simp [tunnel.ctxErr]

theorem C5_Connect_invalid_credentials_witness :
    (sample.server.ConnectAccept 0 (sample.env "wrong")).1
      = .error (Err.msg "invalid credentials") ∧
    (sample.server.ConnectAccept 0 (sample.env "wrong")).2.connections
      = sample.server.connections ∧
    (sample.server.ConnectAccept 0 (sample.env "wrong")).2.clientManager
      = sample.server.clientManager :=
  have h := C5_Connect_invalid_credentials toyPrimitive sample.server 0 (sample.env "wrong")
    [("uuid", ["alice"]), ("secret", ["wrong"])] "alice" "wrong" [] [] rfl rfl rfl
  have hfail := h.1.mpr (Or.inr ⟨sample.client, by decide, by decide⟩)
  ⟨hfail, h.2.1 hfail⟩

/-- C9, as stated, fails: after two successful `Connect` calls for one identity the engine has
two live sessions of that identity, neither cancelled nor torn down. -/
theorem C9_two_live_sessions_for_one_identity :
    tunnel.Engine.Reachable toyPrimitive sample.twoConnects ∧
    (sample.twoConnects.liveFor "alice").length = 2 ∧
    (∀ x ∈ sample.twoConnects.liveFor "alice", x.conn.done = false) :=
  ⟨⟨_, _, _, rfl⟩, by decide, by decide⟩

/-- C9 (amended). In every reachable state of the engine at most one live session per identity
is registered, and every registry entry designates a live session of that identity; a
successful `Connect` registers its session under its identity in place of any earlier entry,
while every session that was live stays live: an earlier session of the same identity is not
torn down, only no longer the registered one. -/
theorem C9_one_registered_session_per_identity (P : XChaCha20Poly1305) (e : tunnel.Engine)
    (h : tunnel.Engine.Reachable P e) :
    (∀ u, (e.registeredFor u).length ≤ 1) ∧
    (∀ u p, e.server.connections.lookup u = some p → ∃ x ∈ e.live, x.ptr = p ∧ x.uuid = u) ∧
    (∀ env sess s1, tunnel.Server.ConnectAccept e.server e.nextPtr env = (.ok sess, s1) →
      (e.step P (.connect env)).server.connections.lookup sess.uuid = some sess.ptr ∧
      sess ∈ (e.step P (.connect env)).live ∧
      (∀ x ∈ e.live, x ∈ (e.step P (.connect env)).live) ∧
      (∀ x ∈ e.liveFor sess.uuid,
        x ∈ (e.step P (.connect env)).liveFor sess.uuid ∧
        (e.step P (.connect env)).registered x = false)) := by
  obtain ⟨h1, h2, h3⟩ := tunnel.Engine.reachable_consistent P e h
  refine ⟨?_, h3, ?_⟩
  · intro u
    cases hl : e.server.connections.lookup u with
    | none =>
      have : e.registeredFor u = [] := by
        unfold tunnel.Engine.registeredFor
        rw [List.filter_eq_nil_iff]
        intro x _ hx
        simp only [tunnel.Engine.registered, Bool.and_eq_true, decide_eq_true_eq] at hx
        rw [hx.1, hl] at hx
        cases hx.2
      rw [this]
      simp
    | some p =>
      have hsub : ((e.registeredFor u).map (fun x => x.ptr)).Nodup :=
        ((List.filter_sublist e.live).map _).nodup h2
      have hall : ∀ a ∈ (e.registeredFor u).map (fun x => x.ptr), a = p := by
        intro a ha
        obtain ⟨x, hx, hxa⟩ := List.mem_map.mp ha
        have hx2 := (List.mem_filter.mp hx).2
        simp only [tunnel.Engine.registered, Bool.and_eq_true, decide_eq_true_eq] at hx2
        rw [hx2.1, hl] at hx2
        rw [← hxa]
        exact (Option.some.inj hx2.2).symm
      have := tunnel.nodup_all_eq_length_le_one _ p hsub hall
      rw [List.length_map] at this
      exact this
  · intro env sess s1 hacc
    obtain ⟨hp, _, _, _, _, _, _, _, hreg, _⟩ :=
      tunnel.ConnectAccept_ok e.server e.nextPtr env sess s1 hacc
    have hstep : e.step P (.connect env)
        = { e with server := s1, live := e.live ++ [sess], nextPtr := e.nextPtr + 1 } := by
      simp only [tunnel.Engine.step, hacc]
    rw [hstep]
    refine ⟨?_, ?_, ?_, ?_⟩
    · show s1.connections.lookup sess.uuid = some sess.ptr
      rw [hreg, GoMap.lookup_insert_self, hp]
    · exact List.mem_append.mpr (Or.inr (List.mem_singleton.mpr rfl))
    · intro x hx
      exact List.mem_append.mpr (Or.inl hx)
    · intro x hx
      have hxl := (List.mem_filter.mp hx).1
      have hxu := (List.mem_filter.mp hx).2
      constructor
      · exact List.mem_filter.mpr ⟨List.mem_append.mpr (Or.inl hxl), hxu⟩
      · simp only [decide_eq_true_eq] at hxu
        show decide (s1.connections.lookup x.uuid = some x.ptr) = false
        rw [hxu, hreg, GoMap.lookup_insert_self]
        have hlt := h1 x hxl
        simp only [decide_eq_false_iff_not, Option.some.injEq]
        omega

theorem C9_one_registered_session_per_identity_witness :
    (sample.twoConnects.registeredFor "alice").length ≤ 1 ∧
    (sample.twoConnects.liveFor "alice").length = 2 :=
  ⟨(C9_one_registered_session_per_identity toyPrimitive sample.twoConnects
      ⟨_, _, _, rfl⟩).1 "alice", by decide⟩

theorem wrapInt64_add_wrapInt64_right (a b : Int) :
    wrapInt64 (a + wrapInt64 b) = wrapInt64 (a + b) := by
  unfold wrapInt64
  omega

theorem dataBytes_nonneg (sent : List (protocol.Frame × List Byte)) :
    0 ≤ tunnel.dataBytes sent := by
  induction sent with
  | nil => simp [tunnel.dataBytes]
  | cons e rest ih =>
    have hcons : tunnel.dataBytes (e :: rest)
        = (if e.1.Typ = protocol.FrameTypeData then (e.1.Data.length : Int) else 0)
          + tunnel.dataBytes rest := by
      simp [tunnel.dataBytes]
    rw [hcons]
    split <;> omega

theorem writtenBytes_nonneg (written : List (List Byte)) :
    0 ≤ tunnel.writtenBytes written := by
  induction written with
  | nil => simp [tunnel.writtenBytes]
  | cons e rest ih =>
    have hcons : tunnel.writtenBytes (e :: rest)
        = (e.length : Int) + tunnel.writtenBytes rest := by
      simp [tunnel.writtenBytes]
    rw [hcons]
    omega

theorem run_uuid (P : XChaCha20Poly1305) (evs : List tunnel.Event) (sess : tunnel.Session)
    (rnd : RandSource) : (sess.run P rnd evs).1.uuid = sess.uuid :=
  tunnel.run_invariant P (fun t => t.uuid = sess.uuid)
    (fun _ _ hev hq => hev.uuid_eq.trans hq) evs sess rnd rfl

/-! ## Frames on the channel: lemmas -/

theorem serverCrypto_Encrypt_ok (P : XChaCha20Poly1305) (c : serverCrypto.Cipher)
    (src : RandSource) (p : List Byte) (h : 24 ≤ src.pool.length) :
    c.Encrypt P src p
      = (.ok (src.pool.take 24 ++ P.Seal c.key (src.pool.take 24) p []),
         { pool := src.pool.drop 24 }) := by
  simp only [serverCrypto.Cipher.Encrypt, rand_Read_ok src 24 h]

theorem serverCrypto_Encrypt_fail (P : XChaCha20Poly1305) (c : serverCrypto.Cipher)
    (src : RandSource) (p : List Byte) (h : ¬ 24 ≤ src.pool.length) :
    c.Encrypt P src p = (.error (Err.msg "crypto/rand: read failed"), { pool := [] }) := by
  simp only [serverCrypto.Cipher.Encrypt, rand_Read_fail src 24 h]

theorem Marshal_drop_four (f : protocol.Frame) : f.Marshal.drop 4 = f.Typ :: f.Data := by
  simp [protocol.Frame.Marshal, PutUint32]

/-! ## Frames on the channel: properties -/

/-- C11, as stated, fails: for the Ping frame with payload "ping" the message that the server's
`sendFrame` hands to the stream is the nonce followed by the sealing of the five bytes
`type || payload`, not of the nine bytes of `Marshal`. -/
theorem C11_sendFrame_plaintext_is_not_Marshal :
    (tunnel.Server.sendFrame toyPrimitive sample.session.conn { pool := List.replicate 24 1 }
        { Typ := protocol.FrameTypePing, Data := [112, 105, 110, 103] } none).2.2
      = some (List.replicate 24 1 ++ toyPrimitive.Seal sample.client.Key (List.replicate 24 1)
          [1, 112, 105, 110, 103] []) ∧
    protocol.Frame.Marshal { Typ := protocol.FrameTypePing, Data := [112, 105, 110, 103] }
      = [0, 0, 0, 5, 1, 112, 105, 110, 103] ∧
    (tunnel.Server.sendFrame toyPrimitive sample.session.conn { pool := List.replicate 24 1 }
        { Typ := protocol.FrameTypePing, Data := [112, 105, 110, 103] } none).2.2
      ≠ some (List.replicate 24 1 ++ toyPrimitive.Seal sample.client.Key (List.replicate 24 1)
          (protocol.Frame.Marshal
            { Typ := protocol.FrameTypePing, Data := [112, 105, 110, 103] }) []) := by
  refine ⟨by decide, by decide, by decide⟩

/-- C11 (amended). For every frame (type `t`, payload `p`) sent by the server's `sendFrame`, the
plaintext handed to the sealing is `t || p`, which is `Marshal` of the frame without its
four length bytes: when the 24 nonce bytes can be drawn, the message handed to the stream is
`nonce || Seal(nonce, t || p)` and the call returns what `stream.Send` returns; when they cannot,
the call returns the error and hands over no message. -/
theorem C11_sendFrame_plaintext (P : XChaCha20Poly1305) (conn : tunnel.Connection)
    (rnd : RandSource) (frame : protocol.Frame) (sendErr : Option Err) :
    (24 ≤ rnd.pool.length →
      tunnel.Server.sendFrame P conn rnd frame sendErr
        = (sendErr, { pool := rnd.pool.drop 24 },
           some (rnd.pool.take 24
             ++ P.Seal conn.cipher.key (rnd.pool.take 24) (frame.Typ :: frame.Data) [])) ∧
      (rnd.pool.take 24).length = 24) ∧
    (¬ 24 ≤ rnd.pool.length →
      ∃ err rnd1, tunnel.Server.sendFrame P conn rnd frame sendErr = (some err, rnd1, none)) ∧
    frame.Typ :: frame.Data = frame.Marshal.drop 4 ∧
    (frame.Typ :: frame.Data).length = 1 + frame.Data.length := by
  refine ⟨?_, ?_, (Marshal_drop_four frame).symm, ?_⟩
  · intro h
    constructor
    · simp only [tunnel.Server.sendFrame, serverCrypto_Encrypt_ok P conn.cipher rnd _ h]
    · exact take_length_of_le _ _ h
  · intro h
    refine ⟨Err.msg "crypto/rand: read failed", { pool := [] }, ?_⟩
    simp only [tunnel.Server.sendFrame, serverCrypto_Encrypt_fail P conn.cipher rnd _ h]
  · simp only [List.length_cons]
    omega

theorem C11_sendFrame_plaintext_witness :
    tunnel.Server.sendFrame toyPrimitive sample.session.conn { pool := List.replicate 30 4 }
        { Typ := protocol.FrameTypeData, Data := [8, 9] } none
      = (none, { pool := List.replicate 6 4 },
         some (List.replicate 24 4
           ++ toyPrimitive.Seal sample.client.Key (List.replicate 24 4) [0, 8, 9] [])) :=
  ((C11_sendFrame_plaintext toyPrimitive sample.session.conn { pool := List.replicate 30 4 }
      { Typ := protocol.FrameTypeData, Data := [8, 9] } none).1 (by decide)).1

/-! ## Frame codec, continued: lemmas -/

theorem ReadFull_ok (r : Reader) (n : Nat) (hn : n ≠ 0) (h : n ≤ r.data.length) :
    ReadFull r n = (.ok (r.data.take n), { r with data := r.data.drop n }) := by
  simp only [ReadFull, hn, h, if_true, if_false]

theorem ReadFull_none_available (r : Reader) (n : Nat) (hn : n ≠ 0) (h : r.data.length = 0) :
    ReadFull r n = (.error r.closing, r) := by
  have hle : ¬ n ≤ r.data.length := by omega
  unfold ReadFull
  rw [if_neg hn, if_neg hle, if_pos h]

theorem ReadFull_short (r : Reader) (n : Nat) (h0 : r.data.length ≠ 0)
    (h : r.data.length < n) :
    ReadFull r n
      = (.error (if r.closing = Err.EOF then Err.ErrUnexpectedEOF else r.closing),
         { r with data := [] }) := by
  have hn : n ≠ 0 := by omega
  have hle : ¬ n ≤ r.data.length := by omega
  by_cases hc : r.closing = Err.EOF
  · simp only [ReadFull, hn, hle, h0, hc, if_true, if_false]
  · simp only [ReadFull, hn, hle, h0, hc, if_false]

theorem Uint32_take (d : List Byte) (h : 4 ≤ d.length) : Uint32 (d.take 4) = Uint32 d := by
  match d, h with
  | b0 :: b1 :: b2 :: b3 :: rest, _ => rfl

theorem Uint32_some_of_length (d : List Byte) (h : 4 ≤ d.length) : ∃ L, Uint32 d = some L := by
  match d, h with
  | b0 :: b1 :: b2 :: b3 :: rest, _ => exact ⟨_, rfl⟩

theorem ReadFrame_header (r : Reader) (L : Nat) (h4 : 4 ≤ r.data.length)
    (hL : Uint32 r.data = some L) :
    protocol.ReadFrame r
      = if L = 0 then (.error (Err.msg "invalid frame length"), { r with data := r.data.drop 4 })
        else if L > 65536 then
          (.error (Err.msg "frame too large"), { r with data := r.data.drop 4 })
        else
          match ReadFull { r with data := r.data.drop 4 } L with
          | (.error err, r2) => (.error err, r2)
          | (.ok frameBuf, r2) =>
            match frameBuf with
            | [] => (.error Err.indexOutOfRange, r2)
            | t :: rest => (.ok { Typ := t, Data := rest }, r2) := by
  unfold protocol.ReadFrame
  rw [ReadFull_ok r 4 (by decide) h4]
  simp only [Uint32_take r.data h4, hL]

theorem ReadFrame_body_ok (r : Reader) (L : Nat) (hL : Uint32 r.data = some L)
    (h1 : 1 ≤ L) (h2 : L ≤ 65536) (hlen : 4 + L ≤ r.data.length) :
    ∃ t d, protocol.ReadFrame r
        = (.ok { Typ := t, Data := d }, { r with data := r.data.drop (4 + L) }) ∧
      (r.data.drop 4).take L = t :: d ∧ d.length = L - 1 := by
  have hne : ¬ L = 0 := by omega
  have hle : ¬ L > 65536 := by omega
  have hbody : L ≤ ({ r with data := r.data.drop 4 } : Reader).data.length := by
    show L ≤ (r.data.drop 4).length
    rw [List.length_drop]
    omega
  rw [ReadFrame_header r L (by omega) hL, if_neg hne, if_neg hle,
    ReadFull_ok { r with data := r.data.drop 4 } L hne hbody]
  have htl : ((r.data.drop 4).take L).length = L := by
    rw [List.length_take, List.length_drop]
    omega
  cases hfb : (r.data.drop 4).take L with
  | nil =>
    rw [hfb] at htl
    simp only [List.length_nil] at htl
    omega
  | cons t d =>
    refine ⟨t, d, ?_, rfl, ?_⟩
    · simp only [hfb, List.drop_drop]
    · rw [hfb] at htl
      simp only [List.length_cons] at htl
      omega

theorem ReadFrames_Marshal (fs : List protocol.Frame) (rest : List Byte) (closing : Err)
    (h : ∀ f ∈ fs, f.Data.length ≤ 65535) :
    protocol.ReadFrames fs.length
        { data := fs.flatMap protocol.Frame.Marshal ++ rest, closing := closing }
      = (fs.map Except.ok, { data := rest, closing := closing }) := by
  induction fs with
  | nil => rfl
  | cons f fs ih =>
    have hf := h f (by simp)
    have ih1 := ih (fun g hg => h g (by simp [hg]))
    have hstep := ReadFrame_Marshal_append f.Typ f.Data
      (fs.flatMap protocol.Frame.Marshal ++ rest) closing hf
    have hdata : (f :: fs).flatMap protocol.Frame.Marshal ++ rest
        = protocol.Frame.Marshal { Typ := f.Typ, Data := f.Data }
          ++ (fs.flatMap protocol.Frame.Marshal ++ rest) := by
      simp [List.flatMap_cons]
    simp only [List.length_cons, protocol.ReadFrames, hdata, hstep, ih1, List.map_cons]

theorem Marshal_length_field (f : protocol.Frame) :
    Uint32 f.Marshal = some ((f.Data.length + 1) % 2 ^ 32) := by
  have hlt : (f.Data.length + 1) % 2 ^ 32 < 2 ^ 32 := Nat.mod_lt _ (by decide)
  show Uint32 (PutUint32 ((f.Data.length + 1) % 2 ^ 32) ++ [f.Typ] ++ f.Data) = _
  rw [List.append_assoc]
  exact Uint32_PutUint32_append _ hlt _

theorem Marshal_length (f : protocol.Frame) : f.Marshal.length = 5 + f.Data.length := by
  simp [protocol.Frame.Marshal, PutUint32]
  omega

theorem ReadFull_error_cases (r : Reader) (n : Nat) (e : Err) (r2 : Reader)
    (h : ReadFull r n = (.error e, r2)) : e = r.closing ∨ e = Err.ErrUnexpectedEOF := by
  unfold ReadFull at h
  split at h
  · cases h
  · split at h
    · cases h
    · split at h
      · simp only [Prod.mk.injEq, Except.error.injEq] at h
        exact Or.inl h.1.symm
      · split at h
        · simp only [Prod.mk.injEq, Except.error.injEq] at h
          exact Or.inr h.1.symm
        · simp only [Prod.mk.injEq, Except.error.injEq] at h
          exact Or.inl h.1.symm

theorem ReadFrame_valid_length_error (r : Reader) (L : Nat) (h4 : 4 ≤ r.data.length)
    (hL : Uint32 r.data = some L) (h1 : ¬ L = 0) (h2 : ¬ L > 65536) (e : Err)
    (h : (protocol.ReadFrame r).1 = .error e) :
    e = r.closing ∨ e = Err.ErrUnexpectedEOF := by
  rw [ReadFrame_header r L h4 hL, if_neg h1, if_neg h2] at h
  rcases hrf : ReadFull { r with data := r.data.drop 4 } L with ⟨res, r2⟩
  rw [hrf] at h
  cases res with
  | error err =>
    simp only [Except.error.injEq] at h
    subst h
    exact ReadFull_error_cases { r with data := r.data.drop 4 } _ _ _ hrf
  | ok frameBuf =>
    have hn : L ≤ (r.data.drop 4).length := by
      by_contra hcon
      unfold ReadFull at hrf
      simp only [h1, if_false] at hrf
      rw [if_neg hcon] at hrf
      split at hrf
      · cases hrf
      · split at hrf
        · cases hrf
        · cases hrf
    rw [ReadFull_ok _ L h1 hn] at hrf
    simp only [Prod.mk.injEq, Except.ok.injEq] at hrf
    have hlen : frameBuf.length = L := by
      rw [← hrf.1, List.length_take]
      omega
    cases frameBuf with
    | nil =>
      simp only [List.length_nil] at hlen
      omega
    | cons t rest => cases h

/-! ## Frame codec, continued: properties -/

/-- C12. For every type byte `t` and payload `p` with `1 + len(p) < 2^32`, `Marshal` returns
`5 + len(p)` bytes: bytes 0..3 are the big-endian 32-bit encoding of `1 + len(p)`, byte 4 is
`t`, and the bytes from 5 on are exactly `p`. (`Marshal` is a function of the frame that
assigns to none of its fields.) -/
theorem C12_Marshal_layout (t : Byte) (p : List Byte) (h : 1 + p.length < 2 ^ 32) :
    (protocol.Frame.Marshal { Typ := t, Data := p }).length = 5 + p.length ∧
    (∃ b0 b1 b2 b3 : Byte,
      (protocol.Frame.Marshal { Typ := t, Data := p }).take 4 = [b0, b1, b2, b3] ∧
      b0.val * 2 ^ 24 + b1.val * 2 ^ 16 + b2.val * 2 ^ 8 + b3.val = 1 + p.length) ∧
    (protocol.Frame.Marshal { Typ := t, Data := p })[4]? = some t ∧
    (protocol.Frame.Marshal { Typ := t, Data := p }).drop 5 = p := by
  have hmod : (p.length + 1) % 2 ^ 32 = p.length + 1 := Nat.mod_eq_of_lt (by omega)
  have hM : protocol.Frame.Marshal { Typ := t, Data := p }
      = toByte ((p.length + 1) / 2 ^ 24) :: toByte ((p.length + 1) / 2 ^ 16)
        :: toByte ((p.length + 1) / 2 ^ 8) :: toByte (p.length + 1) :: t :: p := by
    show PutUint32 ((p.length + 1) % 2 ^ 32) ++ [t] ++ p = _
    rw [hmod]
    rfl
  rw [hM]
  refine ⟨?_, ⟨_, _, _, _, rfl, ?_⟩, by simp, rfl⟩
  · simp only [List.length_cons]
    omega
  · simp only [toByte]
    omega

theorem C12_Marshal_layout_witness :
    (protocol.Frame.Marshal { Typ := 2, Data := [7, 8, 9] }).length = 5 + 3 ∧
    (protocol.Frame.Marshal { Typ := 2, Data := [7, 8, 9] })[4]? = some 2 ∧
    (protocol.Frame.Marshal { Typ := 2, Data := [7, 8, 9] }).drop 5 = [7, 8, 9] :=
  have h := C12_Marshal_layout 2 [7, 8, 9] (by decide)
  ⟨h.1, h.2.2.1, h.2.2.2⟩

/-- C13. For every stream that supplies at least 4 bytes, with `L` the big-endian value of the
first 4 (and whose own errors are not the two errors that `ReadFrame` creates): `ReadFrame`
fails with "invalid frame length" if and only if `L = 0`, and with "frame too large" if and
only if `L > 65536`; in both cases no frame is returned and exactly the 4 length bytes have
been consumed. -/
theorem C13_ReadFrame_length_validation (r : Reader) (L : Nat) (h4 : 4 ≤ r.data.length)
    (hL : Uint32 r.data = some L) (hc1 : r.closing ≠ Err.msg "invalid frame length")
    (hc2 : r.closing ≠ Err.msg "frame too large") :
    ((protocol.ReadFrame r).1 = .error (Err.msg "invalid frame length") ↔ L = 0) ∧
    ((protocol.ReadFrame r).1 = .error (Err.msg "frame too large") ↔ L > 65536) ∧
    (L = 0 ∨ L > 65536 → (protocol.ReadFrame r).2 = { r with data := r.data.drop 4 }) := by
  by_cases h0 : L = 0
  · have hgt : ¬ L > 65536 := by omega
    rw [ReadFrame_header r L h4 hL, if_pos h0]
    simp [h0]
  · by_cases h1 : L > 65536
    · rw [ReadFrame_header r L h4 hL, if_neg h0, if_pos h1]
      simp [h0, h1]
    · refine ⟨?_, ?_, ?_⟩
      · constructor
        · intro h
          rcases ReadFrame_valid_length_error r L h4 hL h0 h1 _ h with he | he
          · exact absurd he.symm hc1
          · cases he
        · intro h
          exact absurd h h0
      · constructor
        · intro h
          rcases ReadFrame_valid_length_error r L h4 hL h0 h1 _ h with he | he
          · exact absurd he.symm hc2
          · cases he
        · intro h
          exact absurd h h1
      · intro h
        rcases h with h | h
        · exact absurd h h0
        · exact absurd h h1

theorem C13_ReadFrame_length_validation_witness :
    (protocol.ReadFrame { data := [0, 0, 0, 0, 9], closing := Err.EOF }).1
      = .error (Err.msg "invalid frame length") ∧
    (protocol.ReadFrame { data := [0, 0, 0, 0, 9], closing := Err.EOF }).2
      = { data := [9], closing := Err.EOF } ∧
    (protocol.ReadFrame { data := [0, 1, 0, 0, 9], closing := Err.EOF }).1
      ≠ .error (Err.msg "frame too large") :=
  have h := C13_ReadFrame_length_validation { data := [0, 0, 0, 0, 9], closing := Err.EOF } 0
    (by decide) (by decide) (by decide) (by decide)
  ⟨h.1.mpr rfl, h.2.2 (Or.inl rfl), fun hx =>
    absurd ((C13_ReadFrame_length_validation { data := [0, 1, 0, 0, 9], closing := Err.EOF }
      65536 (by decide) (by decide) (by decide) (by decide)).2.1.mp hx) (by decide)⟩

/-- C14. For every stream whose first 4 bytes encode a length `L` with `1 ≤ L ≤ 65536` and which
supplies at least `L` further bytes, `ReadFrame` succeeds, consumes exactly `4 + L` bytes, and
returns as `Type` the first of those `L` bytes and as `Data` the remaining `L - 1` (the index of
the type byte is in range); hence on the concatenation of `Marshal` of frames with payloads of at
most 65535 bytes, successive `ReadFrame` calls return the frames in order. -/
theorem C14_ReadFrame_success :
    (∀ (r : Reader) (L : Nat), Uint32 r.data = some L → 1 ≤ L → L ≤ 65536 →
      4 + L ≤ r.data.length →
      ∃ t d, protocol.ReadFrame r
          = (.ok { Typ := t, Data := d }, { r with data := r.data.drop (4 + L) }) ∧
        (r.data.drop 4).take L = t :: d ∧ d.length = L - 1) ∧
    (∀ (fs : List protocol.Frame) (rest : List Byte) (closing : Err),
      (∀ f ∈ fs, f.Data.length ≤ 65535) →
      protocol.ReadFrames fs.length
          { data := fs.flatMap protocol.Frame.Marshal ++ rest, closing := closing }
        = (fs.map Except.ok, { data := rest, closing := closing })) :=
  ⟨ReadFrame_body_ok, ReadFrames_Marshal⟩

theorem C14_ReadFrame_success_witness :
    (∃ t d, protocol.ReadFrame { data := [0, 0, 0, 3, 1, 8, 9, 7, 7], closing := Err.EOF }
        = (.ok { Typ := t, Data := d }, { data := [7, 7], closing := Err.EOF }) ∧
      [1, 8, 9] = t :: d ∧ d.length = 3 - 1) ∧
    protocol.ReadFrames 2
        { data := protocol.Frame.Marshal { Typ := 0, Data := [5] }
            ++ (protocol.Frame.Marshal { Typ := 1, Data := [] } ++ []) ++ [3],
          closing := Err.EOF }
      = ([.ok { Typ := 0, Data := [5] }, .ok { Typ := 1, Data := [] }],
         { data := [3], closing := Err.EOF }) :=
  ⟨C14_ReadFrame_success.1 { data := [0, 0, 0, 3, 1, 8, 9, 7, 7], closing := Err.EOF } 3
      (by decide) (by decide) (by decide) (by decide),
    C14_ReadFrame_success.2 [{ Typ := 0, Data := [5] }, { Typ := 1, Data := [] }] [3] Err.EOF
      (by decide)⟩

/-- C15, as stated, fails: on a stream that closes cleanly right after a complete 4-byte header
with the valid length 5, `ReadFrame` returns `io.EOF` itself. -/
theorem C15_EOF_after_complete_header :
    Uint32 [0, 0, 0, 5] = some 5 ∧
    (protocol.ReadFrame { data := [0, 0, 0, 5], closing := Err.EOF }).1 = .error Err.EOF := by
  refine ⟨by decide, by decide⟩

/-- C15 (amended). `ReadFrame` reports `io.EOF` exactly when the stream closes cleanly either with
zero bytes available at the start of a frame, or right after a complete 4-byte header with a
valid length. On a stream that closes cleanly after 1 to 3 bytes of the header, or after at
least one but not all of the declared bytes that follow a valid header, it returns
`io.ErrUnexpectedEOF`, which is distinct from `io.EOF`. -/
theorem C15_ReadFrame_end_of_stream (r : Reader) :
    ((protocol.ReadFrame r).1 = .error Err.EOF
      ↔ (r.closing = Err.EOF ∧
          (r.data = [] ∨
            (r.data.length = 4 ∧ ∃ L, Uint32 r.data = some L ∧ 1 ≤ L ∧ L ≤ 65536)))) ∧
    (r.closing = Err.EOF → 0 < r.data.length → r.data.length < 4 →
      (protocol.ReadFrame r).1 = .error Err.ErrUnexpectedEOF) ∧
    (∀ L, r.closing = Err.EOF → Uint32 r.data = some L → 1 ≤ L → L ≤ 65536 →
      4 < r.data.length → r.data.length < 4 + L →
      (protocol.ReadFrame r).1 = .error Err.ErrUnexpectedEOF) ∧
    Err.ErrUnexpectedEOF ≠ Err.EOF := by
  have hshort : 0 < r.data.length → r.data.length < 4 →
      (protocol.ReadFrame r).1
        = .error (if r.closing = Err.EOF then Err.ErrUnexpectedEOF else r.closing) := by
    intro h0 h4
    unfold protocol.ReadFrame
    rw [ReadFull_short r 4 (by omega) h4]
  have hbody : ∀ L, Uint32 r.data = some L → 1 ≤ L → L ≤ 65536 → 4 < r.data.length →
      r.data.length < 4 + L →
      (protocol.ReadFrame r).1
        = .error (if r.closing = Err.EOF then Err.ErrUnexpectedEOF else r.closing) := by
    intro L hL h1 h2 h4 hlt
    have hlen : ({ r with data := r.data.drop 4 } : Reader).data.length = r.data.length - 4 :=
      List.length_drop 4 r.data
    rw [ReadFrame_header r L (by omega) hL, if_neg (by omega), if_neg (by omega),
      ReadFull_short { r with data := r.data.drop 4 } L (by omega) (by omega)]
  refine ⟨?_, ?_, ?_, by decide⟩
  · by_cases hlen0 : r.data.length = 0
    · have hnil : r.data = [] := List.length_eq_zero.mp hlen0
      have hres : (protocol.ReadFrame r).1 = .error r.closing := by
        unfold protocol.ReadFrame
        rw [ReadFull_none_available r 4 (by decide) hlen0]
      rw [hres]
      constructor
      · intro h
        exact ⟨Except.error.inj h, Or.inl hnil⟩
      · intro h
        rw [h.1]
    · have hne : r.data ≠ [] := fun h => hlen0 (by rw [h]; rfl)
      by_cases h4 : r.data.length < 4
      · rw [hshort (by omega) h4]
        constructor
        · intro h
          by_cases hc : r.closing = Err.EOF
          · rw [if_pos hc] at h
            cases h
          · rw [if_neg hc] at h
            exact absurd (Except.error.inj h) hc
        · rintro ⟨_, h | h⟩
          · exact absurd h hne
          · omega
      · obtain ⟨L, hL⟩ := Uint32_some_of_length r.data (by omega)
        by_cases hv : 1 ≤ L ∧ L ≤ 65536
        · by_cases h5 : r.data.length = 4
          · have hlen : ({ r with data := r.data.drop 4 } : Reader).data.length = 0 := by
              show (r.data.drop 4).length = 0
              rw [List.length_drop]
              omega
            rw [ReadFrame_header r L (by omega) hL, if_neg (by omega), if_neg (by omega),
              ReadFull_none_available { r with data := r.data.drop 4 } L (by omega) hlen]
            constructor
            · intro h
              exact ⟨Except.error.inj h, Or.inr ⟨h5, L, hL, hv.1, hv.2⟩⟩
            · intro h
              show Except.error r.closing = _
              rw [h.1]
          · by_cases hfull : 4 + L ≤ r.data.length
            · obtain ⟨t, d, hok, _⟩ := ReadFrame_body_ok r L hL hv.1 hv.2 hfull
              rw [hok]
              constructor
              · intro h
                cases h
              · rintro ⟨_, h | h⟩
                · exact absurd h hne
                · exact absurd h.1 h5
            · rw [hbody L hL hv.1 hv.2 (by omega) (by omega)]
              constructor
              · intro h
                by_cases hc : r.closing = Err.EOF
                · rw [if_pos hc] at h
                  cases h
                · rw [if_neg hc] at h
                  exact absurd (Except.error.inj h) hc
              · rintro ⟨_, h | h⟩
                · exact absurd h hne
                · exact absurd h.1 h5
        · have hinv : L = 0 ∨ L > 65536 := by omega
          constructor
          · intro h
            rw [ReadFrame_header r L (by omega) hL] at h
            rcases hinv with h0 | h1
            · rw [if_pos h0] at h
              cases h
            · rw [if_neg (by omega), if_pos h1] at h
              cases h
          · rintro ⟨_, h | h⟩
            · exact absurd h hne
            · obtain ⟨_, L2, hL2, h1, h2⟩ := h
              rw [hL] at hL2
              have := Option.some.inj hL2
              omega
  · intro hc h0 h4
    rw [hshort h0 h4, if_pos hc]
  · intro L hc hL h1 h2 h4 hlt
    rw [hbody L hL h1 h2 h4 hlt, if_pos hc]

theorem C15_ReadFrame_end_of_stream_witness :
    (protocol.ReadFrame { data := [0, 0], closing := Err.EOF }).1
      = .error Err.ErrUnexpectedEOF ∧
    (protocol.ReadFrame { data := [0, 0, 0, 5, 1, 2], closing := Err.EOF }).1
      = .error Err.ErrUnexpectedEOF :=
  ⟨(C15_ReadFrame_end_of_stream { data := [0, 0], closing := Err.EOF }).2.1 rfl (by decide)
      (by decide),
    (C15_ReadFrame_end_of_stream { data := [0, 0, 0, 5, 1, 2], closing := Err.EOF }).2.2.1 5 rfl
      (by decide) (by decide) (by decide) (by decide) (by decide)⟩

theorem Marshal_of_65536_bytes (t : Byte) (p : List Byte) (closing : Err)
    (h : p.length = 65536) :
    Uint32 (protocol.Frame.Marshal { Typ := t, Data := p }) = some 65537 ∧
    (protocol.ReadFrame
        { data := protocol.Frame.Marshal { Typ := t, Data := p }, closing := closing }).1
      = .error (Err.msg "frame too large") := by
  have hL : Uint32 (protocol.Frame.Marshal { Typ := t, Data := p }) = some 65537 := by
    rw [Marshal_length_field]
    show some ((p.length + 1) % 2 ^ 32) = some 65537
    rw [h]
    rfl
  refine ⟨hL, ?_⟩
  have h4 : 4 ≤ (protocol.Frame.Marshal { Typ := t, Data := p }).length := by
    rw [Marshal_length]
    omega
  rw [ReadFrame_header _ 65537 h4 hL, if_neg (by decide), if_pos (by decide)]

/-- C16, as stated, fails: `Marshal` of a frame with a payload of 65536 bytes writes 65537 into
the length field, and `ReadFrame` rejects that output as too large. -/
theorem C16_Marshal_length_field_out_of_range :
    Uint32 (protocol.Frame.Marshal { Typ := 0, Data := List.replicate 65536 0 }) = some 65537 ∧
    (protocol.ReadFrame
        { data := protocol.Frame.Marshal { Typ := 0, Data := List.replicate 65536 0 },
          closing := Err.EOF }).1
      = .error (Err.msg "frame too large") :=
  Marshal_of_65536_bytes 0 (List.replicate 65536 0) Err.EOF (List.length_replicate 65536 0)

/-- C16 (amended). For every frame whose payload has at most 65535 bytes, the 4-byte length
field of its `Marshal` holds `1 + len(payload)`, a value between 1 and 65536 inclusive, so that
`ReadFrame` accepts it and returns the frame; for every frame the field holds
`(1 + len(payload)) mod 2^32`, and `Marshal` itself checks no bound. For a longer payload
`ReadFrame` never returns the frame that was serialized: it rejects the output as "frame too
large" when the field is above 65536, which is so for every payload of 65536 up to `2^32 - 2`
bytes, and as "invalid frame length" when the field is 0. -/
theorem C16_Marshal_wire_invariant (f : protocol.Frame) :
    Uint32 f.Marshal = some ((f.Data.length + 1) % 2 ^ 32) ∧
    (f.Data.length ≤ 65535 →
      Uint32 f.Marshal = some (1 + f.Data.length) ∧
      1 ≤ 1 + f.Data.length ∧ 1 + f.Data.length ≤ 65536 ∧
      ∀ closing, (protocol.ReadFrame { data := f.Marshal, closing := closing }).1 = .ok f) ∧
    ((f.Data.length + 1) % 2 ^ 32 > 65536 →
      ∀ closing, (protocol.ReadFrame { data := f.Marshal, closing := closing }).1
        = .error (Err.msg "frame too large")) ∧
    (65536 ≤ f.Data.length → f.Data.length ≤ 2 ^ 32 - 2 →
      ∀ closing, (protocol.ReadFrame { data := f.Marshal, closing := closing }).1
        = .error (Err.msg "frame too large")) ∧
    ((f.Data.length + 1) % 2 ^ 32 = 0 →
      ∀ closing, (protocol.ReadFrame { data := f.Marshal, closing := closing }).1
        = .error (Err.msg "invalid frame length")) ∧
    (65535 < f.Data.length →
      ∀ closing, (protocol.ReadFrame { data := f.Marshal, closing := closing }).1 ≠ .ok f) := by
  have h4 : ∀ closing, 4 ≤ ({ data := f.Marshal, closing := closing } : Reader).data.length := by
    intro closing
    show 4 ≤ f.Marshal.length
    rw [Marshal_length]
    omega
  have hL : ∀ closing, Uint32 ({ data := f.Marshal, closing := closing } : Reader).data
      = some ((f.Data.length + 1) % 2 ^ 32) := fun _ => Marshal_length_field f
  have hbig : (f.Data.length + 1) % 2 ^ 32 > 65536 →
      ∀ closing, (protocol.ReadFrame { data := f.Marshal, closing := closing }).1
        = .error (Err.msg "frame too large") := by
    intro hgt closing
    have hne : ¬ (f.Data.length + 1) % 2 ^ 32 = 0 := by omega
    rw [ReadFrame_header _ _ (h4 closing) (hL closing), if_neg hne, if_pos hgt]
  have hzero : (f.Data.length + 1) % 2 ^ 32 = 0 →
      ∀ closing, (protocol.ReadFrame { data := f.Marshal, closing := closing }).1
        = .error (Err.msg "invalid frame length") := by
    intro hz closing
    rw [ReadFrame_header _ _ (h4 closing) (hL closing), if_pos hz]
  refine ⟨Marshal_length_field f, ?_, hbig, ?_, hzero, ?_⟩
  · intro h
    refine ⟨?_, by omega, by omega, ?_⟩
    · rw [Marshal_length_field, Nat.mod_eq_of_lt (by omega), Nat.add_comm]
    · intro closing
      have := ReadFrame_Marshal_append f.Typ f.Data [] closing h
      rw [List.append_nil] at this
      rw [this]
  · intro hlo hhi
    have hpow : (2 : Nat) ^ 32 = 4294967296 := by norm_num
    have hmod : (f.Data.length + 1) % 2 ^ 32 = f.Data.length + 1 :=
      Nat.mod_eq_of_lt (by omega)
    exact hbig (by omega)
  · intro hlong closing
    by_cases hz : (f.Data.length + 1) % 2 ^ 32 = 0
    · rw [hzero hz closing]
      exact fun hcon => by cases hcon
    · by_cases hgt : (f.Data.length + 1) % 2 ^ 32 > 65536
      · rw [hbig hgt closing]
        exact fun hcon => by cases hcon
      · have hlen : 4 + (f.Data.length + 1) % 2 ^ 32
            ≤ ({ data := f.Marshal, closing := closing } : Reader).data.length := by
          show 4 + (f.Data.length + 1) % 2 ^ 32 ≤ f.Marshal.length
          rw [Marshal_length]
          omega
        obtain ⟨t, d, hrf, _, hd⟩ := ReadFrame_body_ok { data := f.Marshal, closing := closing }
          ((f.Data.length + 1) % 2 ^ 32) (hL closing) (by omega) (by omega) hlen
        rw [hrf]
        intro hcon
        have hfd : f.Data = d := by
          have := Except.ok.inj hcon
          rw [← this]
        rw [← hfd] at hd
        omega

theorem C16_Marshal_wire_invariant_witness :
    Uint32 (protocol.Frame.Marshal { Typ := 1, Data := [4, 4] }) = some (1 + 2) ∧
    (protocol.ReadFrame
        { data := protocol.Frame.Marshal { Typ := 1, Data := [4, 4] }, closing := Err.EOF }).1
      = .ok { Typ := 1, Data := [4, 4] } :=
  have h := (C16_Marshal_wire_invariant { Typ := 1, Data := [4, 4] }).2.1 (by decide)
  ⟨h.1, h.2.2.2 Err.EOF⟩

/-! ## Decryption: lemmas -/

theorem windows_Decrypt_short (P : XChaCha20Poly1305) (c : clientWindows.crypto.Cipher)
    (ct : List Byte) (h : ct.length < 24) :
    c.Decrypt P ct = .error (Err.msg "ciphertext too short") := by
  simp only [clientWindows.crypto.Cipher.Decrypt, chacha20poly1305.AEAD.NonceSize,
    chacha20poly1305.NonceSizeX, h, if_true]

theorem android_Decrypt_short (P : XChaCha20Poly1305) (c : clientAndroid.Cipher)
    (ct : List Byte) (h : ct.length < 24) :
    c.Decrypt P ct = .error (Err.msg "ciphertext too short") := by
  simp only [clientAndroid.Cipher.Decrypt, chacha20poly1305.AEAD.NonceSize,
    chacha20poly1305.NonceSizeX, h, if_true]

theorem windows_Decrypt_long (P : XChaCha20Poly1305) (c : clientWindows.crypto.Cipher)
    (ct : List Byte) (h : 24 ≤ ct.length) :
    c.Decrypt P ct
      = match P.Open c.aead.key (ct.take 24) (ct.drop 24) [] with
        | none => .error (Err.msg "chacha20poly1305: message authentication failed")
        | some plaintext => .ok plaintext := by
  have := windows_Decrypt_nonce_append P c (ct.take 24) (ct.drop 24) (take_length_of_le ct 24 h)
  rw [List.take_append_drop] at this
  exact this

theorem android_Decrypt_long (P : XChaCha20Poly1305) (c : clientAndroid.Cipher)
    (ct : List Byte) (h : 24 ≤ ct.length) :
    c.Decrypt P ct
      = match P.Open c.aead.key (ct.take 24) (ct.drop 24) [] with
        | none => .error (Err.msg "chacha20poly1305: message authentication failed")
        | some plaintext => .ok plaintext := by
  have := android_Decrypt_nonce_append P c (ct.take 24) (ct.drop 24) (take_length_of_le ct 24 h)
  rw [List.take_append_drop] at this
  exact this

theorem DecryptContract_of_eqs (P : XChaCha20Poly1305) (key ct : List Byte)
    (res : Except Err (List Byte))
    (hshort : ct.length < 24 → res = .error (Err.msg "ciphertext too short"))
    (hlong : 24 ≤ ct.length →
      res = match P.Open key (ct.take 24) (ct.drop 24) [] with
        | none => .error (Err.msg "chacha20poly1305: message authentication failed")
        | some plaintext => .ok plaintext) :
    DecryptContract P key ct res := by
  by_cases h : ct.length < 24
  · have hres := hshort h
    refine ⟨?_, ?_, ?_, ?_, ?_⟩
    · exact ⟨fun _ => h, fun _ => hres⟩
    · intro h24
      omega
    · intro _ plaintext hp
      rw [hres] at hp
      cases hp
    · rw [hres]
      decide
    · intro h24
      omega
  · have h24 : 24 ≤ ct.length := by omega
    have hres := hlong h24
    refine ⟨?_, ?_, ?_, ?_, ?_⟩
    · constructor
      · intro hr
        rw [hr] at hres
        cases hop : P.Open key (ct.take 24) (ct.drop 24) [] with
        | none =>
          rw [hop] at hres
          simp only [Except.error.injEq, Err.msg.injEq] at hres
          exact absurd hres (by decide)
        | some plaintext =>
          rw [hop] at hres
          cases hres
      · intro hlt
        exact absurd hlt h
    · intro _
      refine ⟨?_, ?_, ?_⟩
      · intro plaintext hop
        rw [hres, hop]
      · intro hop
        rw [hres, hop]
      · intro plaintext hr
        rw [hr] at hres
        cases hop : P.Open key (ct.take 24) (ct.drop 24) [] with
        | none =>
          rw [hop] at hres
          cases hres
        | some pt =>
          rw [hop] at hres
          simp only [Except.ok.injEq] at hres
          rw [hres]
    · intro hlt
      exact absurd hlt h
    · rw [hres]
      cases P.Open key (ct.take 24) (ct.drop 24) [] with
      | none => simp
      | some pt => simp
    · intro _
      simp only [sliceTo, sliceFrom, h24, if_true, and_self]

/-! ## Decryption: property -/

/-- C17. In both cipher implementations `Decrypt` fails with "ciphertext too short" if and only
if the input is shorter than the nonce size of 24 bytes; otherwise the first 24 bytes are the
nonce and the remainder the sealed data, the result is the opened plaintext exactly when the
tag check of the primitive succeeds, and it is the error of the primitive, with no plaintext,
when the check fails. The two slice expressions are in range and `Decrypt` never panics. -/
theorem C17_Decrypt_contract (P : XChaCha20Poly1305) (cw : clientWindows.crypto.Cipher)
    (ca : clientAndroid.Cipher) (ct : List Byte) :
    DecryptContract P cw.aead.key ct (cw.Decrypt P ct) ∧
    DecryptContract P ca.aead.key ct (ca.Decrypt P ct) :=
  ⟨DecryptContract_of_eqs P _ ct _ (windows_Decrypt_short P cw ct) (windows_Decrypt_long P cw ct),
   DecryptContract_of_eqs P _ ct _ (android_Decrypt_short P ca ct) (android_Decrypt_long P ca ct)⟩

theorem C17_Decrypt_contract_witness :
    clientWindows.crypto.Cipher.Decrypt toyPrimitive { aead := { key := [1] } } [1, 2, 3]
      = .error (Err.msg "ciphertext too short") ∧
    clientAndroid.Cipher.Decrypt toyPrimitive { aead := { key := [1] } }
        (List.replicate 24 0 ++ [5, 7])
      = .error (Err.msg "chacha20poly1305: message authentication failed") :=
  ⟨(C17_Decrypt_contract toyPrimitive { aead := { key := [1] } } { aead := { key := [1] } }
      [1, 2, 3]).1.1.mpr (by decide),
   ((C17_Decrypt_contract toyPrimitive { aead := { key := [1] } } { aead := { key := [1] } }
      (List.replicate 24 0 ++ [5, 7])).2.2.1 (by decide)).2.1 (by decide)⟩

/-! ## Credential store, continued: lemmas -/

theorem GoMap.modify_modify {V : Type} (m : GoMap V) (k : String) (f g : V → V) :
    GoMap.modify (GoMap.modify m k f) k g = GoMap.modify m k (fun v => g (f v)) := by
  induction m with
  | nil => rfl
  | cons e rest ih =>
    obtain ⟨k0, v⟩ := e
    by_cases h : k0 = k
    · simp only [GoMap.modify, h, if_true]
      rw [ih]
    · simp only [GoMap.modify, h, if_false]
      rw [ih]

theorem DeleteClient_some (cm : auth.ClientManager) (x : String) (c : auth.Client)
    (h : cm.clients.lookup x = some c) :
    cm.DeleteClient x = (true, { cm with clients := cm.clients.erase x }) := by
  simp only [auth.ClientManager.DeleteClient, h]

theorem DeleteClient_none (cm : auth.ClientManager) (x : String)
    (h : cm.clients.lookup x = none) : cm.DeleteClient x = (false, cm) := by
  simp only [auth.ClientManager.DeleteClient, h]

theorem BlockClient_some (cm : auth.ClientManager) (x : String) (c : auth.Client)
    (h : cm.clients.lookup x = some c) :
    cm.BlockClient x
      = (true, { cm with clients := cm.clients.modify x (fun c => { c with Blocked := true }) }) := by
  simp only [auth.ClientManager.BlockClient, h]

theorem BlockClient_none (cm : auth.ClientManager) (x : String)
    (h : cm.clients.lookup x = none) : cm.BlockClient x = (false, cm) := by
  simp only [auth.ClientManager.BlockClient, h]

theorem UnblockClient_some (cm : auth.ClientManager) (x : String) (c : auth.Client)
    (h : cm.clients.lookup x = some c) :
    cm.UnblockClient x
      = (true,
         { cm with clients := cm.clients.modify x (fun c => { c with Blocked := false }) }) := by
  simp only [auth.ClientManager.UnblockClient, h]

theorem UnblockClient_none (cm : auth.ClientManager) (x : String)
    (h : cm.clients.lookup x = none) : cm.UnblockClient x = (false, cm) := by
  simp only [auth.ClientManager.UnblockClient, h]

theorem UpdateTraffic_some (cm : auth.ClientManager) (x : String) (up down : Int)
    (c : auth.Client) (h : cm.clients.lookup x = some c) :
    cm.UpdateTraffic x up down
      = { cm with clients := cm.clients.modify x (fun c =>
          { c with BytesUp := wrapInt64 (c.BytesUp + up),
                   BytesDown := wrapInt64 (c.BytesDown + down) }) } := by
  simp only [auth.ClientManager.UpdateTraffic, h]

theorem UpdateTraffic_none (cm : auth.ClientManager) (x : String) (up down : Int)
    (h : cm.clients.lookup x = none) : cm.UpdateTraffic x up down = cm := by
  simp only [auth.ClientManager.UpdateTraffic, h]

theorem wrapInt64_range (v : Int) : -(2 ^ 63) ≤ wrapInt64 v ∧ wrapInt64 v < 2 ^ 63 := by
  unfold wrapInt64
  omega

theorem wrapInt64_exact (v : Int) (h1 : -(2 ^ 63) ≤ v) (h2 : v < 2 ^ 63) : wrapInt64 v = v := by
  unfold wrapInt64
  omega

/-! ## Credential store, continued: properties -/

/-- C18. For every store state and identity `x`, `DeleteClient`, `BlockClient` and
`UnblockClient` each return true exactly when a record is stored under `x` before the call,
whatever its `Blocked` flag and expiry; when the result is false the store is unchanged; when it
is true, `DeleteClient` removes the record under `x` and nothing else, `UnblockClient` sets that
record's `Blocked` flag to false and `BlockClient` sets it to true, with every other field of the
record and every other record unchanged. -/
theorem C18_delete_block_unblock (cm : auth.ClientManager) (x : String) :
    (((cm.DeleteClient x).1 = true ↔ ∃ c, cm.clients.lookup x = some c) ∧
     ((cm.BlockClient x).1 = true ↔ ∃ c, cm.clients.lookup x = some c) ∧
     ((cm.UnblockClient x).1 = true ↔ ∃ c, cm.clients.lookup x = some c)) ∧
    (((cm.DeleteClient x).1 = false → (cm.DeleteClient x).2 = cm) ∧
     ((cm.BlockClient x).1 = false → (cm.BlockClient x).2 = cm) ∧
     ((cm.UnblockClient x).1 = false → (cm.UnblockClient x).2 = cm)) ∧
    ((cm.DeleteClient x).1 = true →
      (cm.DeleteClient x).2.clients.lookup x = none ∧
      ∀ y, y ≠ x → (cm.DeleteClient x).2.clients.lookup y = cm.clients.lookup y) ∧
    (∀ c, cm.clients.lookup x = some c →
      (cm.UnblockClient x).2.clients.lookup x = some { c with Blocked := false } ∧
      ∀ y, y ≠ x → (cm.UnblockClient x).2.clients.lookup y = cm.clients.lookup y) ∧
    (∀ c, cm.clients.lookup x = some c →
      (cm.BlockClient x).2.clients.lookup x = some { c with Blocked := true } ∧
      ∀ y, y ≠ x → (cm.BlockClient x).2.clients.lookup y = cm.clients.lookup y) := by
  cases h : cm.clients.lookup x with
  | none =>
    rw [DeleteClient_none cm x h, BlockClient_none cm x h, UnblockClient_none cm x h]
    simp
  | some c =>
    rw [DeleteClient_some cm x c h, BlockClient_some cm x c h, UnblockClient_some cm x c h]
    refine ⟨by simp, by simp, ?_, ?_, ?_⟩
    · intro _
      exact ⟨GoMap.lookup_erase_self _ _, fun y hy => GoMap.lookup_erase_ne _ _ _ hy⟩
    · intro c1 hc1
      have hc : c1 = c := (Option.some.inj hc1).symm
      subst hc
      refine ⟨?_, fun y hy => GoMap.lookup_modify_ne _ _ _ _ hy⟩
      show (cm.clients.modify x _).lookup x = _
      rw [GoMap.lookup_modify_self, h]
      rfl
    · intro c1 hc1
      have hc : c1 = c := (Option.some.inj hc1).symm
      subst hc
      refine ⟨?_, fun y hy => GoMap.lookup_modify_ne _ _ _ _ hy⟩
      show (cm.clients.modify x _).lookup x = _
      rw [GoMap.lookup_modify_self, h]
      rfl

theorem C18_delete_block_unblock_witness :
    (sample.server.clientManager.DeleteClient "alice").1 = true ∧
    (sample.server.clientManager.DeleteClient "alice").2.clients.lookup "alice" = none ∧
    (sample.server.clientManager.UnblockClient "bob").2 = sample.server.clientManager :=
  have h := C18_delete_block_unblock sample.server.clientManager "alice"
  have hb := C18_delete_block_unblock sample.server.clientManager "bob"
  ⟨h.1.1.mpr ⟨sample.client, by decide⟩, (h.2.2.1 (h.1.1.mpr ⟨sample.client, by decide⟩)).1,
    hb.2.1.2.2 (by decide)⟩

/-- C19. Block idempotence: for every store state that holds a record under `x`,
`BlockClient(x); BlockClient(x)` returns true both times, leaves the `Blocked` flag of `x` true,
and yields exactly the store state of a single `BlockClient(x)`, which differs from the initial
state in the `Blocked` flag of `x` only. -/
theorem C19_block_idempotent (cm : auth.ClientManager) (x : String) (c : auth.Client)
    (h : cm.clients.lookup x = some c) :
    (cm.BlockClient x).1 = true ∧
    ((cm.BlockClient x).2.BlockClient x).1 = true ∧
    ((cm.BlockClient x).2.BlockClient x).2 = (cm.BlockClient x).2 ∧
    ((cm.BlockClient x).2.BlockClient x).2.clients.lookup x = some { c with Blocked := true } ∧
    (∀ y, y ≠ x →
      ((cm.BlockClient x).2.BlockClient x).2.clients.lookup y = cm.clients.lookup y) := by
  have h1 := BlockClient_some cm x c h
  have hl : (cm.BlockClient x).2.clients.lookup x = some { c with Blocked := true } := by
    rw [h1]
    show (cm.clients.modify x _).lookup x = _
    rw [GoMap.lookup_modify_self, h]
    rfl
  have h2 := BlockClient_some (cm.BlockClient x).2 x _ hl
  have hsame : ((cm.BlockClient x).2.BlockClient x).2 = (cm.BlockClient x).2 := by
    rw [h2, h1]
    show ({ clients := (cm.clients.modify x _).modify x _ } : auth.ClientManager) = _
    rw [GoMap.modify_modify]
  refine ⟨by rw [h1], by rw [h2], hsame, ?_, ?_⟩
  · rw [hsame]
    exact hl
  · intro y hy
    rw [hsame, h1]
    exact GoMap.lookup_modify_ne _ _ _ _ hy

theorem C19_block_idempotent_witness :
    ((sample.server.clientManager.BlockClient "alice").2.BlockClient "alice").1 = true ∧
    ((sample.server.clientManager.BlockClient "alice").2.BlockClient "alice").2
      = (sample.server.clientManager.BlockClient "alice").2 :=
  have h := C19_block_idempotent sample.server.clientManager "alice" sample.client (by decide)
  ⟨h.2.1, h.2.2.1⟩

/-- C20. For every store state, identity `x` and amounts `up`, `down`: if a record is stored
under `x`, `UpdateTraffic` sets its `BytesUp` to the old `BytesUp + up` and its `BytesDown` to
the old `BytesDown + down` in 64-bit signed arithmetic (the exact sums whenever they are in
range) and changes no other field and no other record; if no record is stored under `x` the
store is left completely unchanged. -/
theorem C20_UpdateTraffic (cm : auth.ClientManager) (x : String) (up down : Int) :
    (∀ c, cm.clients.lookup x = some c →
      (cm.UpdateTraffic x up down).clients.lookup x
        = some { c with BytesUp := wrapInt64 (c.BytesUp + up),
                        BytesDown := wrapInt64 (c.BytesDown + down) } ∧
      (-(2 ^ 63) ≤ c.BytesUp + up → c.BytesUp + up < 2 ^ 63 →
        wrapInt64 (c.BytesUp + up) = c.BytesUp + up) ∧
      (-(2 ^ 63) ≤ c.BytesDown + down → c.BytesDown + down < 2 ^ 63 →
        wrapInt64 (c.BytesDown + down) = c.BytesDown + down) ∧
      (-(2 ^ 63) ≤ wrapInt64 (c.BytesUp + up) ∧ wrapInt64 (c.BytesUp + up) < 2 ^ 63) ∧
      (-(2 ^ 63) ≤ wrapInt64 (c.BytesDown + down) ∧ wrapInt64 (c.BytesDown + down) < 2 ^ 63) ∧
      ∀ y, y ≠ x → (cm.UpdateTraffic x up down).clients.lookup y = cm.clients.lookup y) ∧
    (cm.clients.lookup x = none → cm.UpdateTraffic x up down = cm) := by
  constructor
  · intro c hc
    rw [UpdateTraffic_some cm x up down c hc]
    refine ⟨?_, wrapInt64_exact _, wrapInt64_exact _, wrapInt64_range _, wrapInt64_range _,
      fun y hy => GoMap.lookup_modify_ne _ _ _ _ hy⟩
    show (cm.clients.modify x _).lookup x = _
    rw [GoMap.lookup_modify_self, hc]
    rfl
  · exact UpdateTraffic_none cm x up down

theorem C20_UpdateTraffic_witness :
    (sample.server.clientManager.UpdateTraffic "alice" 600 5).clients.lookup "alice"
      = some { sample.client with BytesUp := wrapInt64 (50 + 600),
                                  BytesDown := wrapInt64 (60 + 5) } ∧
    wrapInt64 (50 + 600) = 50 + 600 ∧
    sample.server.clientManager.UpdateTraffic "bob" 1 1 = sample.server.clientManager :=
  have h := (C20_UpdateTraffic sample.server.clientManager "alice" 600 5).1 sample.client
    (by decide)
  ⟨h.1, h.2.1 (by decide) (by decide),
    (C20_UpdateTraffic sample.server.clientManager "bob" 1 1).2 (by decide)⟩

/-! ## Durations: lemmas -/

namespace time

theorem digitChar_isDigit (m : Nat) (h : m < 10) :
    isDigit (Nat.digitChar m) = true ∧ (Nat.digitChar m).toNat - 48 = m := by
  interval_cases m <;> exact ⟨by decide, by decide⟩

theorem foldl_digitStep_ge (cs : List Char) (x : Nat) : x ≤ cs.foldl digitStep x := by
  induction cs generalizing x with
  | nil => exact Nat.le_refl _
  | cons c cs ih =>
    have := ih (digitStep x c)
    simp only [List.foldl_cons]
    unfold digitStep at this ⊢
    omega

theorem toDigitsCore_spec (fuel : Nat) :
    ∀ (n : Nat) (ds : List Char), n < fuel →
      ∃ pre, Nat.toDigitsCore 10 fuel n ds = pre ++ ds ∧ pre ≠ [] ∧
        (∀ c ∈ pre, isDigit c = true) ∧ pre.foldl digitStep 0 = n := by
  induction fuel with
  | zero =>
    intro n ds h
    omega
  | succ fuel ih =>
    intro n ds h
    have hd := digitChar_isDigit (n % 10) (Nat.mod_lt n (by decide))
    by_cases h0 : n / 10 = 0
    · refine ⟨[Nat.digitChar (n % 10)], ?_, by simp, ?_, ?_⟩
      · simp only [Nat.toDigitsCore, h0, if_true, List.singleton_append]
      · intro c hc
        rw [List.mem_singleton.mp hc]
        exact hd.1
      · simp only [List.foldl_cons, List.foldl_nil, digitStep, hd.2]
        omega
    · obtain ⟨pre, hpre, _, hall, hval⟩ := ih (n / 10) (Nat.digitChar (n % 10) :: ds) (by omega)
      refine ⟨pre ++ [Nat.digitChar (n % 10)], ?_, by simp, ?_, ?_⟩
      · simp only [Nat.toDigitsCore, h0, if_false, hpre, List.append_assoc,
          List.singleton_append]
      · intro c hc
        rcases List.mem_append.mp hc with hc | hc
        · exact hall c hc
        · rw [List.mem_singleton.mp hc]
          exact hd.1
      · simp only [List.foldl_append, List.foldl_cons, List.foldl_nil, hval, digitStep, hd.2]
        omega

theorem toDigits_spec (n : Nat) :
    ∃ pre, Nat.toDigits 10 n = pre ∧ pre ≠ [] ∧ (∀ c ∈ pre, isDigit c = true) ∧
      pre.foldl digitStep 0 = n := by
  obtain ⟨pre, hpre, hne, hall, hval⟩ := toDigitsCore_spec (n + 1) n [] (Nat.lt_succ_self n)
  rw [List.append_nil] at hpre
  exact ⟨pre, hpre, hne, hall, hval⟩

theorem leadingIntFrom_digits (pre : List Char) (c : Char) (rest : List Char)
    (hc : isDigit c = false) :
    ∀ x, x ≤ 2 ^ 63 → (∀ d ∈ pre, isDigit d = true) →
      leadingIntFrom (pre ++ c :: rest) x
        = if pre.foldl digitStep x ≤ 2 ^ 63 then some (pre.foldl digitStep x, c :: rest)
          else none := by
  induction pre with
  | nil =>
    intro x hx _
    simp only [List.nil_append, leadingIntFrom, hc, Bool.not_false, if_true, List.foldl_nil, hx]
  | cons d ds ih =>
    intro x hx hall
    have hd : isDigit d = true := hall d (by simp)
    have hds : ∀ e ∈ ds, isDigit e = true := fun e he => hall e (by simp [he])
    have hge := foldl_digitStep_ge ds (digitStep x d)
    simp only [List.cons_append, leadingIntFrom, hd, Bool.not_true, Bool.false_eq_true,
      if_false, List.foldl_cons]
    by_cases h1 : x > 2 ^ 63 / 10
    · have : ¬ List.foldl digitStep (digitStep x d) ds ≤ 2 ^ 63 := by
        unfold digitStep at hge ⊢
        omega
      rw [if_pos h1, if_neg this]
    · rw [if_neg h1]
      by_cases h2 : x * 10 + (d.toNat - 48) > 2 ^ 63
      · have : ¬ List.foldl digitStep (digitStep x d) ds ≤ 2 ^ 63 := by
          unfold digitStep at hge ⊢
          omega
        rw [if_pos h2, if_neg this]
      · rw [if_neg h2]
        exact ih (digitStep x d) (by unfold digitStep; omega) hds

theorem leadingInt_toDigits (n : Nat) (c : Char) (rest : List Char) (hc : isDigit c = false) :
    leadingInt (Nat.toDigits 10 n ++ c :: rest)
      = if n ≤ 2 ^ 63 then some (n, c :: rest) else none := by
  obtain ⟨pre, hpre, _, hall, hval⟩ := toDigits_spec n
  rw [hpre]
  unfold leadingInt
  rw [leadingIntFrom_digits pre c rest hc 0 (by omega) hall, hval]


theorem isDigit_not_sign (c : Char) (h : isDigit c = true) :
    c ≠ '-' ∧ c ≠ '+' ∧ c ≠ '.' := by
  refine ⟨?_, ?_, ?_⟩ <;>
  · intro hc
    rw [hc] at h
    revert h
    decide

theorem parseTerm_hours (frac : Nat → Nat → Nat → Nat) (p0 : Char) (pt : List Char) (n : Nat)
    (hp0 : isDigit p0 = true)
    (hli : leadingInt (p0 :: (pt ++ ['h'])) = if n ≤ 2 ^ 63 then some (n, ['h']) else none) :
    parseTerm frac (p0 :: (pt ++ ['h']))
      = if n ≤ 2562047 then .ok (n * 3600000000000, [])
        else .error (Err.msg "time: invalid duration") := by
  unfold parseTerm
  simp only [hp0, Bool.or_true, Bool.not_true, Bool.false_eq_true, if_false, hli]
  by_cases h63 : n ≤ 2 ^ 63
  · rw [if_pos h63]
    have hlen : decide ((p0 :: (pt ++ ['h'])).length ≠ 1) = true := by
      simp
    have hfr : (match ['h'] with
        | '.' :: s2 =>
          ((leadingFraction s2).1, (leadingFraction s2).2.1, (leadingFraction s2).2.2,
            decide (s2.length ≠ (leadingFraction s2).2.2.length))
        | _ => ((0 : Nat), (1 : Nat), ['h'], false)) = (0, 1, ['h'], false) := by
      rfl
    have hu : List.takeWhile (fun c => !(c = '.' || isDigit c)) ['h'] = ['h'] := by decide
    have hd : List.dropWhile (fun c => !(c = '.' || isDigit c)) ['h'] = [] := by decide
    have hunit : unitMap ['h'] = some 3600000000000 := by decide
    simp only [hfr, hlen, Bool.not_true, Bool.false_and, Bool.false_eq_true, if_false, hu, hd,
      List.length_singleton, Nat.succ_ne_zero, hunit]
    by_cases hn : n ≤ 2562047
    · have h1 : ¬ n > 2 ^ 63 / 3600000000000 := by omega
      simp only [h1, if_false, hn, if_true, gt_iff_lt, Nat.lt_irrefl]
    · have h1 : n > 2 ^ 63 / 3600000000000 := by omega
      simp only [h1, if_true, hn, if_false]
  · rw [if_neg h63]
    have hn : ¬ n ≤ 2562047 := by omega
    simp only [hn, if_false]

theorem ParseDuration_hours (frac : Nat → Nat → Nat → Nat) (n : Nat) :
    ParseDuration frac (String.mk (Nat.toDigits 10 n ++ ['h']))
      = if n ≤ 2562047 then .ok ((n : Int) * 3600000000000)
        else .error (Err.msg "time: invalid duration") := by
  obtain ⟨pre, hpre, hne, hall, _⟩ := toDigits_spec n
  have hli := leadingInt_toDigits n 'h' [] (by decide)
  rw [hpre] at hli ⊢
  cases pre with
  | nil => exact absurd rfl hne
  | cons p0 pt =>
    have hp0 : isDigit p0 = true := hall p0 (by simp)
    obtain ⟨hm, hpl, _⟩ := isDigit_not_sign p0 hp0
    have hterm := parseTerm_hours frac p0 pt n hp0 hli
    have hbody0 : ¬ (p0 :: (pt ++ ['h']) = ['0']) := by
      intro h
      have := congrArg List.length h
      simp at this
    unfold ParseDuration
    simp only [List.cons_append, List.head?_cons, Option.some.injEq, hm, hpl, or_self,
      if_false, decide_False, hbody0, reduceCtorEq, List.length_cons, parseTerms, hterm,
      Bool.false_eq_true]
    by_cases hn : n ≤ 2562047
    · have h0 : n * 3600000000000 < 2 ^ 63 := by omega
      have h2 : (0 + n * 3600000000000) % 2 ^ 64 = n * 3600000000000 := by
        rw [Nat.zero_add]
        exact Nat.mod_eq_of_lt (by omega)
      have h1 : ¬ (0 + n * 3600000000000) % 2 ^ 64 > 2 ^ 63 := by
        rw [h2]
        omega
      have h3 : ¬ n * 3600000000000 > 2 ^ 63 - 1 := by omega
      have h4 : ¬ n * 3600000000000 > 2 ^ 63 := by omega
      simp only [hn, if_true, h1, if_false, h2, parseTerms]
      rw [if_neg h4]
      dsimp only
      rw [if_neg h3]
      push_cast
      rfl
    · simp only [hn, if_false]

end time

theorem parseDuration_days (frac : Nat → Nat → Nat → Nat) (n : Nat) :
    api.parseDuration frac (toString n ++ "d")
      = if n ≤ 2562047 then .ok (wrapInt64 ((n : Int) * 3600000000000 * 24))
        else .error (Err.msg "time: invalid duration") := by
  have hdata : (toString n ++ "d").data = Nat.toDigits 10 n ++ ['d'] := rfl
  unfold api.parseDuration
  rw [hdata]
  have hlast : (Nat.toDigits 10 n ++ ['d']).getLast? = some 'd' := by simp
  have hdrop : (Nat.toDigits 10 n ++ ['d']).dropLast = Nat.toDigits 10 n := by simp
  rw [if_pos hlast, hdrop, time.ParseDuration_hours]
  by_cases hn : n ≤ 2562047
  · rw [if_pos hn, if_pos hn]
  · rw [if_neg hn, if_neg hn]

theorem parseDuration_no_suffix (frac : Nat → Nat → Nat → Nat) (s : String)
    (h : s.data.getLast? ≠ some 'd') : api.parseDuration frac s = time.ParseDuration frac s := by
  unfold api.parseDuration
  rw [if_neg h]

theorem parseDuration_hours (frac : Nat → Nat → Nat → Nat) (m : Nat) :
    api.parseDuration frac (toString m ++ "h")
      = if m ≤ 2562047 then .ok ((m : Int) * 3600000000000)
        else .error (Err.msg "time: invalid duration") := by
  have hdata : (toString m ++ "h").data = Nat.toDigits 10 m ++ ['h'] := rfl
  have hlast : (toString m ++ "h").data.getLast? ≠ some 'd' := by
    rw [hdata]
    simp
  rw [parseDuration_no_suffix frac _ hlast]
  exact time.ParseDuration_hours frac m

/-! ## Durations: properties -/

/-- C24, as stated, fails for large day counts: `parseDuration("106752d")` succeeds with a
negative duration, the product by 24 having overflowed `int64`, and `parseDuration("2562048d")`
fails. -/
theorem C24_parseDuration_days_overflow :
    toString 106752 ++ "d" = "106752d" ∧
    api.parseDuration exactFrac "106752d" = .ok (-9223371273709551616) ∧
    (106752 : Int) * (24 * 3600000000000) = 9223372800000000000 ∧
    api.parseDuration exactFrac "2562048d" = .error (Err.msg "time: invalid duration") := by
  refine ⟨by decide, by decide, by decide, by decide⟩

/-- C24 (amended). A trailing `d` multiplies by 24 hours within the range of a duration: for every
non-negative decimal integer `n` up to 106751, `parseDuration("<n>d")` succeeds and returns
exactly `n` times 24 hours, the same duration as `parseDuration("<24n>h")`; whenever
`parseDuration("<24n>h")` succeeds, `parseDuration("<n>d")` returns the same duration. For
`n` up to 2562047 the result is `n` hours times 24 in `int64` arithmetic, and for larger `n` the
call fails. A string without a trailing `d` is parsed by `time.ParseDuration` unchanged, and
"24h" is 24 hours, "7d" is 168 hours. -/
theorem C24_parseDuration_days (frac : Nat → Nat → Nat → Nat) (n : Nat) :
    (api.parseDuration frac (toString n ++ "d")
      = if n ≤ 2562047 then .ok (wrapInt64 ((n : Int) * 3600000000000 * 24))
        else .error (Err.msg "time: invalid duration")) ∧
    (n ≤ 106751 →
      api.parseDuration frac (toString n ++ "d") = .ok ((n : Int) * (24 * 3600000000000)) ∧
      api.parseDuration frac (toString (24 * n) ++ "h")
        = .ok ((n : Int) * (24 * 3600000000000))) ∧
    (∀ d, api.parseDuration frac (toString (24 * n) ++ "h") = .ok d →
      api.parseDuration frac (toString n ++ "d") = .ok d) ∧
    (∀ s : String, s.data.getLast? ≠ some 'd' →
      api.parseDuration frac s = time.ParseDuration frac s) ∧
    api.parseDuration frac "24h" = .ok (24 * 3600000000000) ∧
    api.parseDuration frac "7d" = .ok (168 * 3600000000000) ∧
    api.parseDuration frac "168h" = .ok (168 * 3600000000000) := by
  have e1 : (n : Int) * 3600000000000 * 24 = (n : Int) * (24 * 3600000000000) := by ring
  have e2 : ((24 * n : Nat) : Int) * 3600000000000 = (n : Int) * (24 * 3600000000000) := by
    push_cast; ring
  have hsmall : n ≤ 106751 →
      api.parseDuration frac (toString n ++ "d") = .ok ((n : Int) * (24 * 3600000000000)) ∧
      api.parseDuration frac (toString (24 * n) ++ "h")
        = .ok ((n : Int) * (24 * 3600000000000)) := by
    intro hn
    constructor
    · rw [parseDuration_days, if_pos (by omega)]
      have : wrapInt64 ((n : Int) * 3600000000000 * 24) = (n : Int) * 3600000000000 * 24 :=
        wrapInt64_exact _ (by omega) (by omega)
      rw [this, e1]
    · rw [parseDuration_hours, if_pos (by omega), e2]
  refine ⟨parseDuration_days frac n, hsmall, ?_, parseDuration_no_suffix frac, ?_, ?_, ?_⟩
  · intro d hd
    rw [parseDuration_hours] at hd
    by_cases h24 : 24 * n ≤ 2562047
    · rw [if_pos h24, e2] at hd
      have hn : n ≤ 106751 := by omega
      rw [(hsmall hn).1, ← hd]
    · rw [if_neg h24] at hd
      cases hd
  · have h := parseDuration_hours frac 24
    rw [if_pos (by decide)] at h
    exact h
  · have h := parseDuration_days frac 7
    rw [if_pos (by decide)] at h
    have hw : wrapInt64 (((7 : Nat) : Int) * 3600000000000 * 24) = 168 * 3600000000000 := by
      rw [wrapInt64_exact _ (by norm_num) (by norm_num)]
      norm_num
    rw [hw] at h
    exact h
  · have h := parseDuration_hours frac 168
    rw [if_pos (by decide)] at h
    exact h

theorem C24_parseDuration_days_witness :
    api.parseDuration exactFrac (toString 30 ++ "d") = .ok (30 * (24 * 3600000000000)) ∧
    api.parseDuration exactFrac (toString (24 * 30) ++ "h") = .ok (30 * (24 * 3600000000000)) :=
  (C24_parseDuration_days exactFrac 30).2.1 (by decide)

/-! ## Traffic counters: lemmas -/

theorem lookup_modify_some {V : Type} (m : GoMap V) (k y : String) (f : V → V) (c : V)
    (h : m.lookup y = some c) :
    (m.modify k f).lookup y = some (if y = k then f c else c) := by
  by_cases hy : y = k
  · subst hy
    rw [GoMap.lookup_modify_self, h, if_pos rfl]
    rfl
  · rw [GoMap.lookup_modify_ne _ _ _ _ hy, h, if_neg hy]

theorem BlockClient_lookup (cm : auth.ClientManager) (x y : String) (c : auth.Client)
    (h : cm.clients.lookup y = some c) :
    (cm.BlockClient x).2.clients.lookup y
      = some (if y = x then { c with Blocked := true } else c) := by
  cases hx : cm.clients.lookup x with
  | none =>
    have hne : ¬ y = x := fun e => by rw [e, hx] at h; cases h
    rw [BlockClient_none cm x hx, if_neg hne]
    exact h
  | some c0 =>
    rw [BlockClient_some cm x c0 hx]
    exact lookup_modify_some _ _ _ _ _ h

theorem UnblockClient_lookup (cm : auth.ClientManager) (x y : String) (c : auth.Client)
    (h : cm.clients.lookup y = some c) :
    (cm.UnblockClient x).2.clients.lookup y
      = some (if y = x then { c with Blocked := false } else c) := by
  cases hx : cm.clients.lookup x with
  | none =>
    have hne : ¬ y = x := fun e => by rw [e, hx] at h; cases h
    rw [UnblockClient_none cm x hx, if_neg hne]
    exact h
  | some c0 =>
    rw [UnblockClient_some cm x c0 hx]
    exact lookup_modify_some _ _ _ _ _ h

theorem UpdateTraffic_lookup (cm : auth.ClientManager) (x y : String) (up down : Int)
    (c : auth.Client) (h : cm.clients.lookup y = some c) :
    (cm.UpdateTraffic x up down).clients.lookup y
      = some (if y = x then { c with BytesUp := wrapInt64 (c.BytesUp + up),
                                     BytesDown := wrapInt64 (c.BytesDown + down) } else c) := by
  cases hx : cm.clients.lookup x with
  | none =>
    have hne : ¬ y = x := fun e => by rw [e, hx] at h; cases h
    rw [UpdateTraffic_none cm x up down hx, if_neg hne]
    exact h
  | some c0 =>
    rw [UpdateTraffic_some cm x up down c0 hx]
    exact lookup_modify_some _ _ _ _ _ h

theorem lookup_of_modify_some {V : Type} (m : GoMap V) (k y : String) (f : V → V) (c1 : V)
    (h : (m.modify k f).lookup y = some c1) :
    ∃ c, m.lookup y = some c ∧ c1 = if y = k then f c else c := by
  cases hy : m.lookup y with
  | none =>
    by_cases e : y = k
    · subst e
      rw [GoMap.lookup_modify_self, hy] at h
      cases h
    · rw [GoMap.lookup_modify_ne _ _ _ _ e, hy] at h
      cases h
  | some c =>
    rw [lookup_modify_some _ _ _ _ _ hy] at h
    exact ⟨c, rfl, (Option.some.inj h).symm⟩

theorem CreateClient_error (cm : auth.ClientManager) (src : RandSource) (now1 now2 d : Int)
    (e : Err) (cm1 : auth.ClientManager) (src1 : RandSource)
    (h : cm.CreateClient src now1 now2 d = (.error e, cm1, src1)) : cm1 = cm := by
  unfold auth.ClientManager.CreateClient at h
  generalize auth.generateUUID src = gu at h
  obtain ⟨uuid, s1⟩ := gu
  simp only at h
  by_cases hk : 32 ≤ (auth.generateSecret s1).2.pool.length
  · rw [rand_Read_ok _ _ hk] at h
    simp only [Prod.mk.injEq, reduceCtorEq, false_and] at h
  · rw [rand_Read_fail _ _ hk] at h
    simp only [Prod.mk.injEq] at h
    exact h.2.1.symm

/-! ## Traffic counters: properties -/

/-- C21, as stated, fails for `UpdateTraffic` itself: the counters are `int64` sums. Starting from
a store whose record for `alice` has `BytesUp = 50`, two calls of `UpdateTraffic` with
non-negative amounts take `BytesUp` to the largest `int64` value and then to the smallest one; and
a call with a negative amount lowers the counter directly. -/
theorem C21_UpdateTraffic_lowers_counter :
    ((sample.server.clientManager.UpdateTraffic "alice" (2 ^ 63 - 51) 0).clients.lookup
        "alice").map (fun c => c.BytesUp) = some (2 ^ 63 - 1) ∧
    (((sample.server.clientManager.UpdateTraffic "alice" (2 ^ 63 - 51) 0).UpdateTraffic
        "alice" 1 0).clients.lookup "alice").map (fun c => c.BytesUp) = some (-(2 ^ 63)) ∧
    ((sample.server.clientManager.UpdateTraffic "alice" (-1) (-1)).clients.lookup
        "alice").map (fun c => (c.BytesUp, c.BytesDown)) = some (49, 59) := by
  decide

/-- C21 (amended). For every store state and every record `c` stored under an identity `y`:
`GetClient` and `ListClients` leave the store unchanged; `BlockClient` and `UnblockClient` on any
identity, and a `CreateClient` that fails or that generates another identity, leave the record
under `y` with the same `BytesUp` and `BytesDown`; and `UpdateTraffic` on any identity with
non-negative amounts whose sums with the counters stay in the `int64` range leaves a record under
`y` whose `BytesUp` and `BytesDown` are not smaller than before, and are unchanged when the
identity is not `y`. -/
theorem C21_counters_monotone (cm : auth.ClientManager) (y : String) (c : auth.Client)
    (h : cm.clients.lookup y = some c) :
    (∀ now x, (cm.GetClient now x).2 = cm) ∧
    cm.ListClients.2 = cm ∧
    (∀ x, ∃ c1, (cm.BlockClient x).2.clients.lookup y = some c1 ∧
      c1.BytesUp = c.BytesUp ∧ c1.BytesDown = c.BytesDown) ∧
    (∀ x, ∃ c1, (cm.UnblockClient x).2.clients.lookup y = some c1 ∧
      c1.BytesUp = c.BytesUp ∧ c1.BytesDown = c.BytesDown) ∧
    (∀ src now1 now2 d c2 cm1 src1, cm.CreateClient src now1 now2 d = (.ok c2, cm1, src1) →
      c2.UUID ≠ y → cm1.clients.lookup y = some c) ∧
    (∀ src now1 now2 d e cm1 src1, cm.CreateClient src now1 now2 d = (.error e, cm1, src1) →
      cm1 = cm) ∧
    (∀ x up down, x ≠ y → (cm.UpdateTraffic x up down).clients.lookup y = some c) ∧
    (∀ x up down, 0 ≤ up → 0 ≤ down → -(2 ^ 63) ≤ c.BytesUp → -(2 ^ 63) ≤ c.BytesDown →
      c.BytesUp + up < 2 ^ 63 → c.BytesDown + down < 2 ^ 63 →
      ∃ c1, (cm.UpdateTraffic x up down).clients.lookup y = some c1 ∧
        c.BytesUp ≤ c1.BytesUp ∧ c.BytesDown ≤ c1.BytesDown) := by
  refine ⟨fun now x => GetClient_store cm now x, rfl, ?_, ?_, ?_, ?_, ?_, ?_⟩
  · intro x
    refine ⟨_, BlockClient_lookup cm x y c h, ?_⟩
    by_cases e : y = x
    · rw [if_pos e]
      exact ⟨rfl, rfl⟩
    · rw [if_neg e]
      exact ⟨rfl, rfl⟩
  · intro x
    refine ⟨_, UnblockClient_lookup cm x y c h, ?_⟩
    by_cases e : y = x
    · rw [if_pos e]
      exact ⟨rfl, rfl⟩
    · rw [if_neg e]
      exact ⟨rfl, rfl⟩
  · intro src now1 now2 d c2 cm1 src1 hc hne
    rw [(CreateClient_ok cm src now1 now2 d c2 cm1 src1 hc).2.2.2.2.2.2,
      GoMap.lookup_insert_ne _ _ _ _ (fun e => hne e.symm)]
    exact h
  · intro src now1 now2 d e cm1 src1 hc
    exact CreateClient_error cm src now1 now2 d e cm1 src1 hc
  · intro x up down hne
    rw [UpdateTraffic_lookup cm x y up down c h, if_neg (fun e => hne e.symm)]
  · intro x up down hup hdown hlo1 hlo2 hhi1 hhi2
    refine ⟨_, UpdateTraffic_lookup cm x y up down c h, ?_⟩
    by_cases e : y = x
    · rw [if_pos e]
      show c.BytesUp ≤ wrapInt64 (c.BytesUp + up) ∧ c.BytesDown ≤ wrapInt64 (c.BytesDown + down)
      rw [wrapInt64_exact _ (by omega) hhi1, wrapInt64_exact _ (by omega) hhi2]
      constructor <;> omega
    · rw [if_neg e]
      exact ⟨le_refl _, le_refl _⟩

theorem C21_counters_monotone_witness :
    (∃ c1, (sample.server.clientManager.BlockClient "alice").2.clients.lookup "alice" = some c1 ∧
      c1.BytesUp = sample.client.BytesUp ∧ c1.BytesDown = sample.client.BytesDown) ∧
    (∃ c1, (sample.server.clientManager.UpdateTraffic "alice" 600 5).clients.lookup "alice"
        = some c1 ∧
      sample.client.BytesUp ≤ c1.BytesUp ∧ sample.client.BytesDown ≤ c1.BytesDown) :=
  have h := C21_counters_monotone sample.server.clientManager "alice" sample.client (by decide)
  ⟨h.2.2.1 "alice",
    h.2.2.2.2.2.2.2 "alice" 600 5 (by decide) (by decide) (by decide) (by decide) (by decide)
      (by decide)⟩

/-! ## Validity window: lemmas and properties -/

theorem ValidWindow_modify (cm : auth.ClientManager) (x : String) (f : auth.Client → auth.Client)
    (hf : ∀ c, (f c).CreatedAt = c.CreatedAt ∧ (f c).ExpiresAt = c.ExpiresAt)
    (hinv : cm.ValidWindow) :
    auth.ClientManager.ValidWindow { cm with clients := cm.clients.modify x f } := by
  intro u c1 hu
  obtain ⟨c, hc, e⟩ := lookup_of_modify_some cm.clients x u f c1 hu
  have hw := hinv u c hc
  by_cases hx : u = x
  · rw [if_pos hx] at e
    rw [e, (hf c).1, (hf c).2]
    exact hw
  · rw [if_neg hx] at e
    rw [e]
    exact hw

theorem ValidWindow_erase (cm : auth.ClientManager) (x : String) (hinv : cm.ValidWindow) :
    auth.ClientManager.ValidWindow { cm with clients := cm.clients.erase x } := by
  intro u c hu
  by_cases hx : u = x
  · subst hx
    have hn : (cm.clients.erase u).lookup u = none := GoMap.lookup_erase_self _ _
    rw [hn] at hu
    cases hu
  · have he : (cm.clients.erase x).lookup u = cm.clients.lookup u :=
      GoMap.lookup_erase_ne _ _ _ hx
    rw [he] at hu
    exact hinv u c hu

theorem ValidWindow_insert (cm : auth.ClientManager) (c : auth.Client)
    (hc : c.CreatedAt < c.ExpiresAt) (hinv : cm.ValidWindow) :
    auth.ClientManager.ValidWindow { cm with clients := cm.clients.insert c.UUID c } := by
  intro u c1 hu
  by_cases hx : u = c.UUID
  · subst hx
    have hn : (cm.clients.insert c.UUID c).lookup c.UUID = some c := GoMap.lookup_insert_self _ _ _
    rw [hn] at hu
    rw [← Option.some.inj hu]
    exact hc
  · have he : (cm.clients.insert c.UUID c).lookup u = cm.clients.lookup u :=
      GoMap.lookup_insert_ne _ _ _ _ hx
    rw [he] at hu
    exact hinv u c1 hu

theorem ValidWindow_Delete (cm : auth.ClientManager) (x : String) (hinv : cm.ValidWindow) :
    (cm.DeleteClient x).2.ValidWindow := by
  cases hx : cm.clients.lookup x with
  | none =>
    rw [DeleteClient_none cm x hx]
    exact hinv
  | some c0 =>
    rw [DeleteClient_some cm x c0 hx]
    exact ValidWindow_erase cm x hinv

theorem ValidWindow_Block (cm : auth.ClientManager) (x : String) (hinv : cm.ValidWindow) :
    (cm.BlockClient x).2.ValidWindow := by
  cases hx : cm.clients.lookup x with
  | none =>
    rw [BlockClient_none cm x hx]
    exact hinv
  | some c0 =>
    rw [BlockClient_some cm x c0 hx]
    exact ValidWindow_modify cm x _ (fun _ => ⟨rfl, rfl⟩) hinv

theorem ValidWindow_Unblock (cm : auth.ClientManager) (x : String) (hinv : cm.ValidWindow) :
    (cm.UnblockClient x).2.ValidWindow := by
  cases hx : cm.clients.lookup x with
  | none =>
    rw [UnblockClient_none cm x hx]
    exact hinv
  | some c0 =>
    rw [UnblockClient_some cm x c0 hx]
    exact ValidWindow_modify cm x _ (fun _ => ⟨rfl, rfl⟩) hinv

theorem ValidWindow_UpdateTraffic (cm : auth.ClientManager) (x : String) (up down : Int)
    (hinv : cm.ValidWindow) : (cm.UpdateTraffic x up down).ValidWindow := by
  cases hx : cm.clients.lookup x with
  | none =>
    rw [UpdateTraffic_none cm x up down hx]
    exact hinv
  | some c0 =>
    rw [UpdateTraffic_some cm x up down c0 hx]
    exact ValidWindow_modify cm x _ (fun _ => ⟨rfl, rfl⟩) hinv

theorem ValidWindow_CreateClient (cm : auth.ClientManager) (src : RandSource)
    (now1 now2 d : Int) (hd : 0 < d) (hclock : now1 ≤ now2) (hinv : cm.ValidWindow) :
    (cm.CreateClient src now1 now2 d).2.1.ValidWindow := by
  rcases hc : cm.CreateClient src now1 now2 d with ⟨r, cm1, src1⟩
  cases r with
  | error e =>
    rw [CreateClient_error cm src now1 now2 d e cm1 src1 hc]
    exact hinv
  | ok c =>
    obtain ⟨h1, h2, _, _, _, _, h7⟩ := CreateClient_ok cm src now1 now2 d c cm1 src1 hc
    have hw : c.CreatedAt < c.ExpiresAt := by
      rw [h1, h2]
      omega
    have := ValidWindow_insert cm c hw hinv
    intro u c1 hu
    show c1.CreatedAt < c1.ExpiresAt
    have hu1 : cm1.clients.lookup u = some c1 := hu
    rw [h7] at hu1
    exact this u c1 hu1

theorem createClient_store (frac : Nat → Nat → Nat → Nat) (cm : auth.ClientManager)
    (src : RandSource) (now1 now2 : Int) (s : String) (d : Int)
    (hd : api.parseDuration frac s = .ok d) :
    (api.createClient frac cm src now1 now2 (some s)).2.1
      = (cm.CreateClient src now1 now2 d).2.1 := by
  unfold api.createClient
  simp only [hd]
  rcases hc : cm.CreateClient src now1 now2 d with ⟨r, cm1, src1⟩
  cases r <;> rfl

/-- C22, as stated, fails for duration strings that `parseDuration` accepts and that are not
positive: through `createClient` at clock reading 100, the strings "0" and "0d" store a record
with `ExpiresAt = CreatedAt`, and "-1h" stores one with `ExpiresAt` an hour before
`CreatedAt`. -/
theorem C22_createClient_nonpositive_duration :
    api.parseDuration exactFrac "0" = .ok 0 ∧
    api.parseDuration exactFrac "0d" = .ok 0 ∧
    api.parseDuration exactFrac "-1h" = .ok (-3600000000000) ∧
    (api.createClient exactFrac auth.NewClientManager { pool := List.replicate 64 1 } 100 100
        (some "0")).2.1.clients.map (fun e => (e.2.CreatedAt, e.2.ExpiresAt)) = [(100, 100)] ∧
    (api.createClient exactFrac auth.NewClientManager { pool := List.replicate 64 1 } 100 100
        (some "-1h")).2.1.clients.map (fun e => (e.2.CreatedAt, e.2.ExpiresAt))
      = [(100, -3599999999900)] ∧
    ¬ (api.createClient exactFrac auth.NewClientManager { pool := List.replicate 64 1 } 100 100
        (some "0")).2.1.ValidWindow := by
  refine ⟨by decide, by decide, by decide, by decide, by decide, ?_⟩
  intro h
  have e : (api.createClient exactFrac auth.NewClientManager { pool := List.replicate 64 1 }
      100 100 (some "0")).2.1.clients.lookup "01010101010141018101010101010101"
      = some { UUID := "01010101010141018101010101010101",
               Secret := "01010101010101010101010101010101", Key := List.replicate 32 1,
               CreatedAt := 100, ExpiresAt := 100, Blocked := false, BytesUp := 0,
               BytesDown := 0 } := by
    decide
  exact absurd (h _ _ e) (by decide)

/-- C22 (amended). The validity window `CreatedAt < ExpiresAt` holds for every stored record as
long as records are created with positive durations: the empty store satisfies it; from a store
that satisfies it, `createClient` with a string that `parseDuration` maps to a positive duration,
the second clock reading not being before the first, yields a store that satisfies it, whether or
not the creation succeeds; and `DeleteClient`, `BlockClient`, `UnblockClient`, `UpdateTraffic`
and `GetClient` preserve it. -/
theorem C22_valid_window (frac : Nat → Nat → Nat → Nat) (cm : auth.ClientManager)
    (hinv : cm.ValidWindow) :
    auth.NewClientManager.ValidWindow ∧
    (∀ src now1 now2 s d, api.parseDuration frac s = .ok d → 0 < d → now1 ≤ now2 →
      (api.createClient frac cm src now1 now2 (some s)).2.1.ValidWindow) ∧
    (∀ src now1 now2 s e, api.parseDuration frac s = .error e →
      (api.createClient frac cm src now1 now2 (some s)).2.1 = cm) ∧
    (∀ x, (cm.DeleteClient x).2.ValidWindow) ∧
    (∀ x, (cm.BlockClient x).2.ValidWindow) ∧
    (∀ x, (cm.UnblockClient x).2.ValidWindow) ∧
    (∀ x up down, (cm.UpdateTraffic x up down).ValidWindow) ∧
    (∀ now x, (cm.GetClient now x).2.ValidWindow) := by
  refine ⟨?_, ?_, ?_, fun x => ValidWindow_Delete cm x hinv, fun x => ValidWindow_Block cm x hinv,
    fun x => ValidWindow_Unblock cm x hinv,
    fun x up down => ValidWindow_UpdateTraffic cm x up down hinv, ?_⟩
  · intro u c hu
    cases hu
  · intro src now1 now2 s d hd hpos hclock
    rw [createClient_store frac cm src now1 now2 s d hd]
    exact ValidWindow_CreateClient cm src now1 now2 d hpos hclock hinv
  · intro src now1 now2 s e he
    unfold api.createClient
    simp only [he]
  · intro now x
    rw [GetClient_store]
    exact hinv

theorem C22_valid_window_witness :
    sample.server.clientManager.ValidWindow ∧
    (api.createClient exactFrac sample.server.clientManager { pool := List.replicate 64 1 }
      100 101 (some "7d")).2.1.ValidWindow ∧
    (sample.server.clientManager.BlockClient "alice").2.ValidWindow :=
  have hinv : sample.server.clientManager.ValidWindow := by
    intro u c hu
    by_cases e : u = "alice"
    · subst e
      have hc : c = sample.client := (Option.some.inj hu).symm
      subst hc
      decide
    · have hn : sample.server.clientManager.clients.lookup u = none := by
        show GoMap.lookup [("alice", sample.client)] u = none
        simp only [GoMap.lookup]
        rw [if_neg (fun h : "alice" = u => e h.symm)]
      rw [hn] at hu
      cases hu
  have h := C22_valid_window exactFrac sample.server.clientManager hinv
  ⟨hinv, h.2.1 { pool := List.replicate 64 1 } 100 101 "7d" (168 * 3600000000000) (by decide)
    (by decide) (by decide), h.2.2.2.2.1 "alice"⟩

/-! ## Blocking and running sessions: lemmas -/

namespace tunnel

theorem handleTunToStream_seesBlocked (P : XChaCha20Poly1305) (sess : Session)
    (rnd : RandSource) (data : List Byte) (readErr sendErr : Option Err) (b : Bool) :
    Server.handleTunToStream P (sess.seesBlocked b) rnd data readErr sendErr
      = ((Server.handleTunToStream P sess rnd data readErr sendErr).1.seesBlocked b,
         (Server.handleTunToStream P sess rnd data readErr sendErr).2) := by
  unfold Server.handleTunToStream
  have hsf : ∀ f, Server.sendFrame P (sess.seesBlocked b).conn rnd f sendErr
      = Server.sendFrame P sess.conn rnd f sendErr := fun _ => rfl
  have hdone : (sess.seesBlocked b).conn.done = sess.conn.done := rfl
  rw [hdone]
  by_cases hd : sess.conn.done = true
  · rw [if_pos hd, if_pos hd]
    rfl
  · rw [if_neg hd, if_neg hd]
    cases readErr with
    | some err => rfl
    | none =>
      dsimp only
      by_cases hn : (data.take 1500).length > 0
      · rw [if_pos hn, if_pos hn, hsf]
        rcases Server.sendFrame P sess.conn rnd
          { Typ := protocol.FrameTypeData, Data := data.take 1500 } sendErr
          with ⟨_ | err, rnd1, msg⟩
        · rfl
        · rfl
      · rw [if_neg hn, if_neg hn]

theorem handleStreamToTun_seesBlocked (P : XChaCha20Poly1305) (sess : Session)
    (rnd : RandSource) (recv : Except Err (List Byte)) (writeErr sendErr : Option Err)
    (now : Int) (b : Bool) :
    Server.handleStreamToTun P (sess.seesBlocked b) rnd recv writeErr sendErr now
      = ((Server.handleStreamToTun P sess rnd recv writeErr sendErr now).1.seesBlocked b,
         (Server.handleStreamToTun P sess rnd recv writeErr sendErr now).2) := by
  unfold Server.handleStreamToTun
  have hsf : ∀ f, Server.sendFrame P (sess.seesBlocked b).conn rnd f sendErr
      = Server.sendFrame P sess.conn rnd f sendErr := fun _ => rfl
  have hdone : (sess.seesBlocked b).conn.done = sess.conn.done := rfl
  have hciph : (sess.seesBlocked b).conn.cipher = sess.conn.cipher := rfl
  rw [hdone]
  by_cases hd : sess.conn.done = true
  · rw [if_pos hd, if_pos hd]
    rfl
  · rw [if_neg hd, if_neg hd]
    cases recv with
    | error err =>
      by_cases he : err = Err.EOF
      · simp only [he, if_true]
        rfl
      · simp only [he, if_false]
        rfl
    | ok msgData =>
      dsimp only
      rw [hciph]
      cases hdec : sess.conn.cipher.Decrypt P msgData with
      | error e => rfl
      | ok decrypted =>
        dsimp only
        cases decrypted with
        | nil => rfl
        | cons typ payload =>
          have hlen : ¬ (typ :: payload).length < 1 := by simp
          simp only [hlen, if_false]
          by_cases h0 : typ = protocol.FrameTypeData
          · simp only [h0, if_true]
            cases writeErr with
            | some err => rfl
            | none => rfl
          · simp only [h0, if_false]
            by_cases h1 : typ = protocol.FrameTypePing
            · simp only [h1, if_true]
              rw [hsf]
              rcases hsf : Server.sendFrame P sess.conn rnd
                { Typ := protocol.FrameTypePong, Data := payload } sendErr
                with ⟨_ | err, rnd1, _ | msg⟩ <;> rfl
            · simp only [h1, if_false]
              by_cases h2 : typ = protocol.FrameTypePong
              · simp only [h2, if_true]
                rfl
              · simp only [h2, if_false]

theorem keepAlive_seesBlocked (P : XChaCha20Poly1305) (sess : Session) (rnd : RandSource)
    (now : Int) (sendErr : Option Err) (b : Bool) :
    Server.keepAlive P (sess.seesBlocked b) rnd now sendErr
      = ((Server.keepAlive P sess rnd now sendErr).1.seesBlocked b,
         (Server.keepAlive P sess rnd now sendErr).2) := by
  unfold Server.keepAlive
  have hsf : ∀ f, Server.sendFrame P (sess.seesBlocked b).conn rnd f sendErr
      = Server.sendFrame P sess.conn rnd f sendErr := fun _ => rfl
  have hdone : (sess.seesBlocked b).conn.done = sess.conn.done := rfl
  have hlp : (sess.seesBlocked b).conn.lastPing = sess.conn.lastPing := rfl
  rw [hdone, hlp]
  by_cases hd : sess.conn.done = true
  · rw [if_pos hd, if_pos hd]
    rfl
  · rw [if_neg hd, if_neg hd]
    by_cases ht : now - sess.conn.lastPing > 30 * 10 ^ 9
    · rw [if_pos ht, if_pos ht]
      rfl
    · rw [if_neg ht, if_neg ht]
      dsimp only
      rw [hsf]
      rcases Server.sendFrame P sess.conn rnd
        { Typ := protocol.FrameTypePing, Data := [112, 105, 110, 103] } sendErr
        with ⟨_ | err, rnd1, msg⟩ <;> rfl

theorem step_seesBlocked (P : XChaCha20Poly1305) (sess : Session) (rnd : RandSource)
    (ev : Event) (b : Bool) :
    (sess.seesBlocked b).step P rnd ev
      = ((sess.step P rnd ev).1.seesBlocked b, (sess.step P rnd ev).2) := by
  cases ev with
  | tunRead data readErr sendErr =>
    show (if sess.tunToStream = true then _ else _) = _
    by_cases h : sess.tunToStream = true
    · rw [if_pos h, handleTunToStream_seesBlocked]
      simp only [Session.step, h, if_true]
    · rw [if_neg h]
      simp only [Session.step, h]
      rfl
  | streamRecv recv writeErr sendErr now =>
    show (if sess.streamToTun = true then _ else _) = _
    by_cases h : sess.streamToTun = true
    · rw [if_pos h, handleStreamToTun_seesBlocked]
      simp only [Session.step, h, if_true]
    · rw [if_neg h]
      simp only [Session.step, h]
      rfl
  | tick now sendErr =>
    show (if sess.keepAlive = true then _ else _) = _
    by_cases h : sess.keepAlive = true
    · rw [if_pos h, keepAlive_seesBlocked]
      simp only [Session.step, h, if_true]
    · rw [if_neg h]
      simp only [Session.step, h]
      rfl
  | ctxDone => rfl

end tunnel

theorem GoMap.modify_of_lookup_none {V : Type} (m : GoMap V) (k : String) (f : V → V)
    (h : m.lookup k = none) : m.modify k f = m := by
  induction m with
  | nil => rfl
  | cons e rest ih =>
    obtain ⟨k0, v⟩ := e
    by_cases hk : k0 = k
    · simp only [GoMap.lookup, hk, if_true, reduceCtorEq] at h
    · simp only [GoMap.lookup, hk, if_false] at h
      simp only [GoMap.modify, hk, if_false]
      rw [ih h]

theorem GoMap.modify_comm {V : Type} (m : GoMap V) (k1 k2 : String) (f g : V → V)
    (hfg : ∀ v, g (f v) = f (g v)) :
    (m.modify k1 f).modify k2 g = (m.modify k2 g).modify k1 f := by
  induction m with
  | nil => rfl
  | cons e rest ih =>
    obtain ⟨k0, v⟩ := e
    by_cases h1 : k0 = k1
    · subst h1
      by_cases h2 : k0 = k2
      · subst h2
        simp only [GoMap.modify, if_true, ih, hfg]
      · simp only [GoMap.modify, h2, if_true, if_false, ih]
    · by_cases h2 : k0 = k2
      · subst h2
        simp only [GoMap.modify, h1, if_true, if_false, ih]
      · simp only [GoMap.modify, h1, h2, if_false, ih]

theorem BlockClient_store (cm : auth.ClientManager) (x : String) :
    (cm.BlockClient x).2
      = { cm with clients := cm.clients.modify x (fun c => { c with Blocked := true }) } := by
  cases hx : cm.clients.lookup x with
  | none =>
    rw [BlockClient_none cm x hx, GoMap.modify_of_lookup_none _ _ _ hx]
  | some c0 => rw [BlockClient_some cm x c0 hx]

theorem UpdateTraffic_store (cm : auth.ClientManager) (x : String) (up down : Int) :
    cm.UpdateTraffic x up down
      = { cm with clients := cm.clients.modify x (fun c =>
          { c with BytesUp := wrapInt64 (c.BytesUp + up),
                   BytesDown := wrapInt64 (c.BytesDown + down) }) } := by
  cases hx : cm.clients.lookup x with
  | none =>
    rw [UpdateTraffic_none cm x up down hx, GoMap.modify_of_lookup_none _ _ _ hx]
  | some c0 => rw [UpdateTraffic_some cm x up down c0 hx]

theorem BlockClient_UpdateTraffic_comm (cm : auth.ClientManager) (x u : String)
    (up down : Int) :
    (cm.BlockClient x).2.UpdateTraffic u up down = ((cm.UpdateTraffic u up down).BlockClient x).2 := by
  rw [BlockClient_store, BlockClient_store, UpdateTraffic_store, UpdateTraffic_store]
  show ({ clients := (cm.clients.modify x _).modify u _ } : auth.ClientManager)
    = { clients := (cm.clients.modify u _).modify x _ }
  rw [GoMap.modify_comm]
  intro v
  rfl

theorem BlockClient_GetClient (cm : auth.ClientManager) (x : String) (now : Int) :
    ((cm.BlockClient x).2.GetClient now x).1 = none := by
  rw [GetClient_none_iff]
  cases hx : cm.clients.lookup x with
  | none =>
    left
    rw [BlockClient_none cm x hx]
    exact hx
  | some c0 =>
    right
    refine ⟨{ c0 with Blocked := true }, ?_, Or.inl rfl⟩
    rw [BlockClient_lookup cm x x c0 hx, if_pos rfl]

namespace tunnel

theorem Engine.block_event_comm (P : XChaCha20Poly1305) (e : Engine) (x : String) (ptr : Nat)
    (ev : Event) :
    (e.step P (.blockClient x)).step P (.event ptr ev)
      = (e.step P (.event ptr ev)).step P (.blockClient x) := by
  simp only [Engine.step]
  cases e.live.find? (fun y => y.ptr = ptr) with
  | none => rfl
  | some sess => rfl

theorem Engine.block_teardown_comm (P : XChaCha20Poly1305) (e : Engine) (x : String)
    (ptr : Nat) :
    (e.step P (.blockClient x)).step P (.teardown ptr)
      = (e.step P (.teardown ptr)).step P (.blockClient x) := by
  simp only [Engine.step]
  cases e.live.find? (fun y => y.ptr = ptr) with
  | none => rfl
  | some sess =>
    dsimp only
    by_cases hc : sess.canReturn = true
    · rw [if_pos hc, if_pos hc]
      simp only [Server.ConnectDeferred, BlockClient_UpdateTraffic_comm]
    · rw [if_neg hc, if_neg hc]

end tunnel

/-! ## Blocking and running sessions: property -/

/-- C23. Block non-retroactivity. For every engine state with a live session `sess` of identity
`x`, the step `BlockClient(x)` leaves the list of live sessions (so every field of every
session), the registry, the random source and the next address as they are, and `sess` is
registered afterwards exactly if it was before; in the store the record under `x` differs in its
`Blocked` flag only and every other record is unchanged. No step of the session depends on the
flag: a pass of a forwarding loop or of keepalive, and a cancellation, from a session that sees
the flag as `b` gives the result of the same step from `sess`, seeing the flag as `b`; whether
`Connect` can return and the clean-up it then runs are the same; and in the engine, blocking
before and after an event of a session, and before and after its teardown, lead to the same
state. A later `Connect` claiming `x` is rejected with "invalid credentials" by `GetClient`. -/
theorem C23_block_not_retroactive (P : XChaCha20Poly1305) (e : tunnel.Engine) (x : String)
    (sess : tunnel.Session) (hlive : sess ∈ e.live) (hx : sess.uuid = x) :
    (sess ∈ (e.step P (.blockClient x)).live ∧
     (e.step P (.blockClient x)).live = e.live ∧
     (e.step P (.blockClient x)).server.connections = e.server.connections ∧
     (e.step P (.blockClient x)).rnd = e.rnd ∧
     (e.step P (.blockClient x)).nextPtr = e.nextPtr ∧
     (e.step P (.blockClient x)).registered sess = e.registered sess) ∧
    ((∀ c, e.server.clientManager.clients.lookup x = some c →
       (e.step P (.blockClient x)).server.clientManager.clients.lookup x
         = some { c with Blocked := true }) ∧
     (∀ y, y ≠ x →
       (e.step P (.blockClient x)).server.clientManager.clients.lookup y
         = e.server.clientManager.clients.lookup y)) ∧
    ((∀ b rnd ev, (sess.seesBlocked b).step P rnd ev
        = ((sess.step P rnd ev).1.seesBlocked b, (sess.step P rnd ev).2)) ∧
     (∀ b, (sess.seesBlocked b).canReturn = sess.canReturn) ∧
     (∀ b s, tunnel.Server.ConnectDeferred s (sess.seesBlocked b)
        = tunnel.Server.ConnectDeferred s sess) ∧
     (∀ ptr ev, (e.step P (.blockClient x)).step P (.event ptr ev)
        = (e.step P (.event ptr ev)).step P (.blockClient x)) ∧
     (∀ ptr, (e.step P (.blockClient x)).step P (.teardown ptr)
        = (e.step P (.teardown ptr)).step P (.blockClient x))) ∧
    (∀ ptr env md secret us ss, env.md = some md →
      tunnel.MD.Get md "uuid" = sess.uuid :: us → tunnel.MD.Get md "secret" = secret :: ss →
      ((e.step P (.blockClient x)).server.ConnectAccept ptr env).1
        = .error (Err.msg "invalid credentials")) := by
  refine ⟨⟨hlive, rfl, rfl, rfl, rfl, rfl⟩, ⟨?_, ?_⟩,
    ⟨fun b rnd ev => tunnel.step_seesBlocked P sess rnd ev b, fun _ => rfl, fun _ _ => rfl,
      tunnel.Engine.block_event_comm P e x, tunnel.Engine.block_teardown_comm P e x⟩, ?_⟩
  · intro c hc
    show (e.server.clientManager.BlockClient x).2.clients.lookup x = _
    rw [BlockClient_lookup _ x x c hc, if_pos rfl]
  · intro y hy
    show (e.server.clientManager.BlockClient x).2.clients.lookup y = _
    rw [BlockClient_store]
    exact GoMap.lookup_modify_ne _ _ _ _ hy
  · intro ptr env md secret us ss hmd hu hs
    rw [tunnel.ConnectAccept_with_credentials _ ptr env md sess.uuid secret us ss hmd hu hs]
    have hg : ((e.step P (.blockClient x)).server.clientManager.GetClient env.now sess.uuid).1
        = none := by
      rw [hx]
      exact BlockClient_GetClient e.server.clientManager x env.now
    rw [hg]

theorem C23_block_not_retroactive_witness :
    (sample.twoConnects.step toyPrimitive (.blockClient "alice")).live = sample.twoConnects.live ∧
    (sample.twoConnects.step toyPrimitive (.blockClient "alice")).server.connections
      = sample.twoConnects.server.connections ∧
    ((sample.twoConnects.step toyPrimitive (.blockClient "alice")).server.ConnectAccept 2
      (sample.env "s3cret")).1 = .error (Err.msg "invalid credentials") :=
  have h := C23_block_not_retroactive toyPrimitive sample.twoConnects "alice" sample.session
    (by decide) (by decide)
  ⟨h.1.2.1, h.1.2.2.1,
    h.2.2.2 2 (sample.env "s3cret") [("uuid", ["alice"]), ("secret", ["s3cret"])] "s3cret" [] []
      (by decide) (by decide) (by decide)⟩

/-! ## The receive loop and keepalive of the server: lemmas -/

theorem parsePlaintext_eq (decrypted : List Byte) :
    parsePlaintext decrypted
      = match decrypted with
        | [] => .ok none
        | t :: p => .ok (some (t, p)) := by
  cases decrypted with
  | nil => rfl
  | cons t p => simp [parsePlaintext, sliceFrom]

namespace tunnel

theorem handleStreamToTun_switch (P : XChaCha20Poly1305) (sess : Session) (rnd : RandSource)
    (msgData : List Byte) (t : Byte) (p : List Byte) (writeErr sendErr : Option Err) (now : Int)
    (hd : sess.conn.done = false)
    (hdec : sess.conn.cipher.Decrypt P msgData = .ok (t :: p)) :
    Server.handleStreamToTun P sess rnd (.ok msgData) writeErr sendErr now
      = Server.switchFrameType P sess rnd t p writeErr sendErr now := by
  have hlen : ¬ (t :: p).length < 1 := by simp
  have hd1 : ¬ sess.conn.done = true := by
    rw [hd]
    decide
  unfold Server.handleStreamToTun
  rw [if_neg hd1]
  dsimp only
  rw [hdec]
  dsimp only
  rw [if_neg hlen]
  rfl

theorem handleStreamToTun_dropped (P : XChaCha20Poly1305) (sess : Session) (rnd : RandSource)
    (msgData : List Byte) (e : Err) (writeErr sendErr : Option Err) (now : Int)
    (hd : sess.conn.done = false) (hdec : sess.conn.cipher.Decrypt P msgData = .error e) :
    Server.handleStreamToTun P sess rnd (.ok msgData) writeErr sendErr now = (sess, rnd) := by
  have hd1 : ¬ sess.conn.done = true := by
    rw [hd]
    decide
  unfold Server.handleStreamToTun
  rw [if_neg hd1]
  dsimp only
  rw [hdec]

theorem sendFrame_ok (P : XChaCha20Poly1305) (conn : Connection) (rnd : RandSource)
    (frame : protocol.Frame) (sendErr : Option Err) (h : 24 ≤ rnd.pool.length) :
    Server.sendFrame P conn rnd frame sendErr
      = (sendErr, { pool := rnd.pool.drop 24 },
         some (rnd.pool.take 24
           ++ P.Seal conn.cipher.key (rnd.pool.take 24) (frame.Typ :: frame.Data) [])) := by
  simp only [Server.sendFrame, serverCrypto_Encrypt_ok P conn.cipher rnd _ h]

theorem sendFrame_fail (P : XChaCha20Poly1305) (conn : Connection) (rnd : RandSource)
    (frame : protocol.Frame) (sendErr : Option Err) (h : ¬ 24 ≤ rnd.pool.length) :
    Server.sendFrame P conn rnd frame sendErr
      = (some (Err.msg "crypto/rand: read failed"), { pool := [] }, none) := by
  simp only [Server.sendFrame, serverCrypto_Encrypt_fail P conn.cipher rnd _ h]

theorem sendFrame_msg_of_ok (P : XChaCha20Poly1305) (conn : Connection) (rnd : RandSource)
    (frame : protocol.Frame) (sendErr : Option Err)
    (h : (Server.sendFrame P conn rnd frame sendErr).1 = none) :
    ∃ msg, (Server.sendFrame P conn rnd frame sendErr).2.2 = some msg := by
  by_cases hp : 24 ≤ rnd.pool.length
  · rw [sendFrame_ok P conn rnd frame sendErr hp]
    exact ⟨_, rfl⟩
  · rw [sendFrame_fail P conn rnd frame sendErr hp] at h
    cases h

theorem switchFrameType_ping (P : XChaCha20Poly1305) (sess : Session) (rnd : RandSource)
    (p : List Byte) (writeErr sendErr : Option Err) (now : Int) :
    Server.switchFrameType P sess rnd protocol.FrameTypePing p writeErr sendErr now
      = (match Server.sendFrame P sess.conn rnd
            { Typ := protocol.FrameTypePong, Data := p } sendErr with
         | (none, rnd1, some msg) =>
           ({ sess with conn := { sess.conn with lastPing := now },
                        sent := sess.sent ++ [({ Typ := protocol.FrameTypePong, Data := p }, msg)] },
             rnd1)
         | (_, rnd1, _) => ({ sess with conn := { sess.conn with lastPing := now } }, rnd1)) := by
  simp only [Server.switchFrameType, ping_ne_data, if_false, if_true]

theorem switchFrameType_pong (P : XChaCha20Poly1305) (sess : Session) (rnd : RandSource)
    (p : List Byte) (writeErr sendErr : Option Err) (now : Int) :
    Server.switchFrameType P sess rnd protocol.FrameTypePong p writeErr sendErr now
      = ({ sess with conn := { sess.conn with lastPing := now } }, rnd) := by
  have h : protocol.FrameTypePong ≠ protocol.FrameTypePing := by decide
  simp only [Server.switchFrameType, pong_ne_data, h, if_false, if_true]

theorem switchFrameType_data (P : XChaCha20Poly1305) (sess : Session) (rnd : RandSource)
    (p : List Byte) (writeErr sendErr : Option Err) (now : Int) :
    Server.switchFrameType P sess rnd protocol.FrameTypeData p writeErr sendErr now
      = (match writeErr with
         | some err =>
           ({ sess with errChan := sess.errChan ++ [some (Err.wrapped "tun write error" err)],
                        streamToTun := false }, rnd)
         | none =>
           ({ sess with
               conn := { sess.conn with bytesDown := wrapInt64 (sess.conn.bytesDown + p.length) },
               written := sess.written ++ [p] }, rnd)) := by
  simp only [Server.switchFrameType, if_true]

end tunnel

/-! ## The receive loop and keepalive of the server: properties -/

/-- C25. In a pass of the server's channel-to-adapter loop that receives a message (the context
not being done) which decrypts to a non-empty plaintext. If the plaintext is a Ping frame with
payload `p`, the loop makes exactly one call of `sendFrame`, for the Pong frame with the same
payload `p`, and sets `lastPing` to the current time; nothing is written to the adapter, no
counter changes and no termination is signalled. When the nonce can be drawn and `stream.Send`
reports no error, the message sent is the sealing of `Pong || p` and it is the one frame added to
those sent; the result of the call is not looked at, so when it reports an error the session
differs from the initial one in `lastPing` only. If the plaintext is a Pong frame, the session
differs from the initial one in `lastPing` only, which is the current time, and the random source
is untouched. -/
theorem C25_ping_pong (P : XChaCha20Poly1305) (sess : tunnel.Session) (rnd : RandSource)
    (msgData p : List Byte) (writeErr sendErr : Option Err) (now : Int)
    (hd : sess.conn.done = false) :
    (sess.conn.cipher.Decrypt P msgData = .ok (protocol.FrameTypePing :: p) →
      (tunnel.Server.handleStreamToTun P sess rnd (.ok msgData) writeErr sendErr now).2
        = (tunnel.Server.sendFrame P sess.conn rnd
            { Typ := protocol.FrameTypePong, Data := p } sendErr).2.1 ∧
      (tunnel.Server.handleStreamToTun P sess rnd (.ok msgData) writeErr sendErr now).1.conn
        = { sess.conn with lastPing := now } ∧
      (tunnel.Server.handleStreamToTun P sess rnd (.ok msgData) writeErr sendErr now).1.written
        = sess.written ∧
      (tunnel.Server.handleStreamToTun P sess rnd (.ok msgData) writeErr sendErr now).1.errChan
        = sess.errChan ∧
      (tunnel.Server.handleStreamToTun P sess rnd (.ok msgData) writeErr sendErr now).1.streamToTun
        = sess.streamToTun ∧
      (24 ≤ rnd.pool.length → sendErr = none →
        tunnel.Server.handleStreamToTun P sess rnd (.ok msgData) writeErr sendErr now
          = ({ sess with
                conn := { sess.conn with lastPing := now },
                sent := sess.sent ++
                  [({ Typ := protocol.FrameTypePong, Data := p },
                    rnd.pool.take 24 ++ P.Seal sess.conn.cipher.key (rnd.pool.take 24)
                      (protocol.FrameTypePong :: p) [])] },
             { pool := rnd.pool.drop 24 })) ∧
      ((tunnel.Server.sendFrame P sess.conn rnd
            { Typ := protocol.FrameTypePong, Data := p } sendErr).1 ≠ none →
        (tunnel.Server.handleStreamToTun P sess rnd (.ok msgData) writeErr sendErr now).1
          = { sess with conn := { sess.conn with lastPing := now } })) ∧
    (sess.conn.cipher.Decrypt P msgData = .ok (protocol.FrameTypePong :: p) →
      tunnel.Server.handleStreamToTun P sess rnd (.ok msgData) writeErr sendErr now
        = ({ sess with conn := { sess.conn with lastPing := now } }, rnd)) := by
  constructor
  · intro hdec
    rw [tunnel.handleStreamToTun_switch P sess rnd msgData _ p writeErr sendErr now hd hdec,
      tunnel.switchFrameType_ping]
    refine ⟨?_, ?_, ?_, ?_, ?_, ?_, ?_⟩
    · rcases tunnel.Server.sendFrame P sess.conn rnd
        { Typ := protocol.FrameTypePong, Data := p } sendErr with ⟨_ | err, rnd1, _ | msg⟩ <;> rfl
    · rcases tunnel.Server.sendFrame P sess.conn rnd
        { Typ := protocol.FrameTypePong, Data := p } sendErr with ⟨_ | err, rnd1, _ | msg⟩ <;> rfl
    · rcases tunnel.Server.sendFrame P sess.conn rnd
        { Typ := protocol.FrameTypePong, Data := p } sendErr with ⟨_ | err, rnd1, _ | msg⟩ <;> rfl
    · rcases tunnel.Server.sendFrame P sess.conn rnd
        { Typ := protocol.FrameTypePong, Data := p } sendErr with ⟨_ | err, rnd1, _ | msg⟩ <;> rfl
    · rcases tunnel.Server.sendFrame P sess.conn rnd
        { Typ := protocol.FrameTypePong, Data := p } sendErr with ⟨_ | err, rnd1, _ | msg⟩ <;> rfl
    · intro hp hs
      rw [tunnel.sendFrame_ok P sess.conn rnd _ sendErr hp, hs]
    · intro hne
      rcases hsf : tunnel.Server.sendFrame P sess.conn rnd
        { Typ := protocol.FrameTypePong, Data := p } sendErr with ⟨_ | err, rnd1, _ | msg⟩
      · rfl
      · rw [hsf] at hne
        exact absurd rfl hne
      · rfl
      · rfl
  · intro hdec
    rw [tunnel.handleStreamToTun_switch P sess rnd msgData _ p writeErr sendErr now hd hdec,
      tunnel.switchFrameType_pong]

theorem C25_ping_pong_witness :
    tunnel.Server.handleStreamToTun toyPrimitive sample.session { pool := List.replicate 24 1 }
        (.ok (List.replicate 24 2
          ++ toyPrimitive.Seal sample.client.Key (List.replicate 24 2) [1, 9, 9] []))
        none none 20
      = ({ sample.session with
            conn := { sample.session.conn with lastPing := 20 },
            sent := sample.session.sent ++
              [({ Typ := protocol.FrameTypePong, Data := [9, 9] },
                (List.replicate 24 1).take 24
                  ++ toyPrimitive.Seal sample.session.conn.cipher.key
                      ((List.replicate 24 1).take 24) (protocol.FrameTypePong :: [9, 9]) [])] },
         { pool := (List.replicate 24 1).drop 24 }) :=
  ((C25_ping_pong toyPrimitive sample.session { pool := List.replicate 24 1 }
      (List.replicate 24 2
        ++ toyPrimitive.Seal sample.client.Key (List.replicate 24 2) [1, 9, 9] [])
      [9, 9] none none 20 (by decide)).1 (by decide)).2.2.2.2.2.1 (by decide) rfl

/-- C26. On a tick of the keepalive loop of a server session whose context is not done: if more
than 30 seconds have passed since `lastPing`, the session is cancelled and the loop returns
without a call of `sendFrame`, so nothing is sent and the random source is untouched; otherwise
the loop makes exactly one call of `sendFrame`, for the Ping frame with payload "ping", and the
session is cancelled exactly when that call reports an error: when it reports none, the frame is
the one added to those sent and nothing else changes; when it reports one, nothing is added and
the loop returns. Hence a session whose keepalive loop runs and whose `lastPing` is more than 30
seconds old can return from `Connect` after the next tick. -/
theorem C26_keepalive_tick (P : XChaCha20Poly1305) (sess : tunnel.Session) (rnd : RandSource)
    (now : Int) (sendErr : Option Err) (hd : sess.conn.done = false) :
    (now - sess.conn.lastPing > 30 * 10 ^ 9 →
      tunnel.Server.keepAlive P sess rnd now sendErr
        = ({ sess with conn := { sess.conn with done := true }, keepAlive := false }, rnd)) ∧
    (now - sess.conn.lastPing ≤ 30 * 10 ^ 9 →
      (tunnel.Server.keepAlive P sess rnd now sendErr).2
        = (tunnel.Server.sendFrame P sess.conn rnd
            { Typ := protocol.FrameTypePing, Data := [112, 105, 110, 103] } sendErr).2.1 ∧
      ((tunnel.Server.keepAlive P sess rnd now sendErr).1.conn.done = true
        ↔ (tunnel.Server.sendFrame P sess.conn rnd
            { Typ := protocol.FrameTypePing, Data := [112, 105, 110, 103] } sendErr).1 ≠ none) ∧
      ((tunnel.Server.sendFrame P sess.conn rnd
            { Typ := protocol.FrameTypePing, Data := [112, 105, 110, 103] } sendErr).1 = none →
        ∃ msg,
          (tunnel.Server.sendFrame P sess.conn rnd
            { Typ := protocol.FrameTypePing, Data := [112, 105, 110, 103] } sendErr).2.2
            = some msg ∧
          (tunnel.Server.keepAlive P sess rnd now sendErr).1
            = { sess with sent := sess.sent ++
                  [({ Typ := protocol.FrameTypePing, Data := [112, 105, 110, 103] }, msg)] }) ∧
      ((tunnel.Server.sendFrame P sess.conn rnd
            { Typ := protocol.FrameTypePing, Data := [112, 105, 110, 103] } sendErr).1 ≠ none →
        (tunnel.Server.keepAlive P sess rnd now sendErr).1
          = { sess with conn := { sess.conn with done := true }, keepAlive := false })) ∧
    (sess.keepAlive = true → now - sess.conn.lastPing > 30 * 10 ^ 9 →
      (sess.step P rnd (.tick now sendErr)).1.canReturn = true ∧
      (sess.step P rnd (.tick now sendErr)).1.sent = sess.sent) := by
  have hd1 : ¬ sess.conn.done = true := by
    rw [hd]
    decide
  have hlate : now - sess.conn.lastPing > 30 * 10 ^ 9 →
      tunnel.Server.keepAlive P sess rnd now sendErr
        = ({ sess with conn := { sess.conn with done := true }, keepAlive := false }, rnd) := by
    intro ht
    unfold tunnel.Server.keepAlive
    rw [if_neg hd1, if_pos ht]
  refine ⟨hlate, ?_, ?_⟩
  · intro ht
    have ht1 : ¬ now - sess.conn.lastPing > 30 * 10 ^ 9 := not_lt.mpr ht
    unfold tunnel.Server.keepAlive
    rw [if_neg hd1, if_neg ht1]
    dsimp only
    have hmsg := tunnel.sendFrame_msg_of_ok P sess.conn rnd
      { Typ := protocol.FrameTypePing, Data := [112, 105, 110, 103] } sendErr
    rcases hsf : tunnel.Server.sendFrame P sess.conn rnd
      { Typ := protocol.FrameTypePing, Data := [112, 105, 110, 103] } sendErr
      with ⟨_ | err, rnd1, msg⟩
    · rw [hsf] at hmsg
      obtain ⟨m, hm⟩ := hmsg rfl
      have hm1 : msg = some m := hm
      subst hm1
      refine ⟨rfl, ?_, ?_, ?_⟩
      · constructor
        · intro h
          exact absurd h hd1
        · intro h
          exact absurd rfl h
      · intro _
        exact ⟨m, rfl, rfl⟩
      · intro h
        exact absurd rfl h
    · refine ⟨rfl, ?_, ?_, ?_⟩
      · constructor
        · intro _ h
          cases h
        · intro _
          rfl
      · intro h
        cases h
      · intro _
        rfl
  · intro hk ht
    have hstep : sess.step P rnd (.tick now sendErr)
        = tunnel.Server.keepAlive P sess rnd now sendErr := by
      simp only [tunnel.Session.step, hk, if_true]
    rw [hstep, hlate ht]
    constructor
    · simp only [tunnel.Session.canReturn, Bool.or_true]
    · rfl

theorem C26_keepalive_tick_witness :
    tunnel.Server.keepAlive toyPrimitive sample.session { pool := List.replicate 24 1 }
        30000000011 none
      = ({ sample.session with conn := { sample.session.conn with done := true },
                               keepAlive := false }, { pool := List.replicate 24 1 }) ∧
    ((tunnel.Server.keepAlive toyPrimitive sample.session { pool := List.replicate 24 1 }
        30000000010 none).1.conn.done = true
      ↔ (tunnel.Server.sendFrame toyPrimitive sample.session.conn { pool := List.replicate 24 1 }
          { Typ := protocol.FrameTypePing, Data := [112, 105, 110, 103] } none).1 ≠ none) :=
  ⟨(C26_keepalive_tick toyPrimitive sample.session { pool := List.replicate 24 1 } 30000000011
      none (by decide)).1 (by decide),
   ((C26_keepalive_tick toyPrimitive sample.session { pool := List.replicate 24 1 } 30000000010
      none (by decide)).2.1 (by decide)).2.1⟩

/-! ## Liveness and traffic: lemmas -/

namespace tunnel

theorem handleTunToStream_lastPing (P : XChaCha20Poly1305) (sess : Session) (rnd : RandSource)
    (data : List Byte) (readErr sendErr : Option Err) :
    (Server.handleTunToStream P sess rnd data readErr sendErr).1.conn.lastPing
      = sess.conn.lastPing := by
  unfold Server.handleTunToStream
  by_cases hd : sess.conn.done = true
  · rw [if_pos hd]
  · rw [if_neg hd]
    cases readErr with
    | some err => rfl
    | none =>
      dsimp only
      by_cases hn : (data.take 1500).length > 0
      · rw [if_pos hn]
        rcases Server.sendFrame P sess.conn rnd
          { Typ := protocol.FrameTypeData, Data := data.take 1500 } sendErr
          with ⟨_ | err, rnd1, msg⟩ <;> rfl
      · rw [if_neg hn]

theorem switchFrameType_lastPing (P : XChaCha20Poly1305) (sess : Session) (rnd : RandSource)
    (t : Byte) (p : List Byte) (writeErr sendErr : Option Err) (now : Int) :
    (Server.switchFrameType P sess rnd t p writeErr sendErr now).1.conn.lastPing
      = if t = protocol.FrameTypePing ∨ t = protocol.FrameTypePong then now
        else sess.conn.lastPing := by
  by_cases h0 : t = protocol.FrameTypeData
  · subst h0
    rw [switchFrameType_data, if_neg (by decide)]
    cases writeErr <;> rfl
  · by_cases h1 : t = protocol.FrameTypePing
    · subst h1
      rw [switchFrameType_ping, if_pos (Or.inl rfl)]
      rcases Server.sendFrame P sess.conn rnd
        { Typ := protocol.FrameTypePong, Data := p } sendErr with ⟨_ | err, rnd1, _ | msg⟩ <;> rfl
    · by_cases h2 : t = protocol.FrameTypePong
      · subst h2
        rw [switchFrameType_pong, if_pos (Or.inr rfl)]
      · have hn : ¬ (t = protocol.FrameTypePing ∨ t = protocol.FrameTypePong) := by
          rintro (h | h)
          · exact h1 h
          · exact h2 h
        rw [if_neg hn]
        simp only [Server.switchFrameType, h0, h1, h2, if_false]

theorem handleStreamToTun_lastPing (P : XChaCha20Poly1305) (sess : Session) (rnd : RandSource)
    (recv : Except Err (List Byte)) (writeErr sendErr : Option Err) (now : Int)
    (hne : (Server.handleStreamToTun P sess rnd recv writeErr sendErr now).1.conn.lastPing
      ≠ sess.conn.lastPing) :
    ∃ msgData p, recv = .ok msgData ∧ sess.conn.done = false ∧
      (sess.conn.cipher.Decrypt P msgData = .ok (protocol.FrameTypePing :: p) ∨
       sess.conn.cipher.Decrypt P msgData = .ok (protocol.FrameTypePong :: p)) ∧
      (Server.handleStreamToTun P sess rnd recv writeErr sendErr now).1.conn.lastPing = now := by
  cases hd : sess.conn.done with
  | true =>
    exfalso
    apply hne
    unfold Server.handleStreamToTun
    rw [if_pos hd]
  | false =>
    cases recv with
    | error err =>
      exfalso
      apply hne
      have hd1 : ¬ sess.conn.done = true := by
        rw [hd]
        decide
      unfold Server.handleStreamToTun
      rw [if_neg hd1]
      dsimp only
      by_cases he : err = Err.EOF
      · rw [if_pos he]
      · rw [if_neg he]
    | ok msgData =>
      cases hdec : sess.conn.cipher.Decrypt P msgData with
      | error e =>
        exfalso
        apply hne
        rw [handleStreamToTun_dropped P sess rnd msgData e writeErr sendErr now hd hdec]
      | ok decrypted =>
        cases decrypted with
        | nil =>
          exfalso
          apply hne
          have hd1 : ¬ sess.conn.done = true := by
            rw [hd]
            decide
          unfold Server.handleStreamToTun
          rw [if_neg hd1]
          dsimp only
          rw [hdec]
          rfl
        | cons t p =>
          rw [handleStreamToTun_switch P sess rnd msgData t p writeErr sendErr now hd hdec,
            switchFrameType_lastPing] at hne
          rw [handleStreamToTun_switch P sess rnd msgData t p writeErr sendErr now hd hdec,
            switchFrameType_lastPing]
          by_cases ht : t = protocol.FrameTypePing ∨ t = protocol.FrameTypePong
          · rw [if_pos ht]
            refine ⟨msgData, p, rfl, rfl, ?_, rfl⟩
            rcases ht with h | h
            · left
              rw [← h]
              exact hdec
            · right
              rw [← h]
              exact hdec
          · rw [if_neg ht] at hne
            exact absurd rfl hne

end tunnel

/-! ## Liveness and traffic: properties -/

/-- C27, as stated, fails: only a Ping or a Pong refreshes `lastPing`. The session registered for
`alice` at clock reading 10 receives a Data frame at reading 30000000000, which is written to the
adapter, forwards a packet of three bytes, and is cancelled by the keepalive tick at reading
30000000011: `lastPing` is still 10, more than 30 seconds before. -/
theorem C27_timeout_despite_traffic :
    (sample.session.run toyPrimitive { pool := List.replicate 48 1 }
      [.streamRecv (.ok (List.replicate 24 3
          ++ toyPrimitive.Seal sample.client.Key (List.replicate 24 3) [0, 1, 2, 3, 4, 5] []))
          none none 30000000000,
       .tunRead [7, 7, 7] none none]).1.written = [[1, 2, 3, 4, 5]] ∧
    ((sample.session.run toyPrimitive { pool := List.replicate 48 1 }
      [.streamRecv (.ok (List.replicate 24 3
          ++ toyPrimitive.Seal sample.client.Key (List.replicate 24 3) [0, 1, 2, 3, 4, 5] []))
          none none 30000000000,
       .tunRead [7, 7, 7] none none]).1.sent.map (fun e => e.1))
      = [{ Typ := protocol.FrameTypeData, Data := [7, 7, 7] }] ∧
    (sample.session.run toyPrimitive { pool := List.replicate 48 1 }
      [.streamRecv (.ok (List.replicate 24 3
          ++ toyPrimitive.Seal sample.client.Key (List.replicate 24 3) [0, 1, 2, 3, 4, 5] []))
          none none 30000000000,
       .tunRead [7, 7, 7] none none]).1.conn.done = false ∧
    (sample.session.run toyPrimitive { pool := List.replicate 48 1 }
      [.streamRecv (.ok (List.replicate 24 3
          ++ toyPrimitive.Seal sample.client.Key (List.replicate 24 3) [0, 1, 2, 3, 4, 5] []))
          none none 30000000000,
       .tunRead [7, 7, 7] none none,
       .tick 30000000011 none]).1.conn.done = true ∧
    (sample.session.run toyPrimitive { pool := List.replicate 48 1 }
      [.streamRecv (.ok (List.replicate 24 3
          ++ toyPrimitive.Seal sample.client.Key (List.replicate 24 3) [0, 1, 2, 3, 4, 5] []))
          none none 30000000000,
       .tunRead [7, 7, 7] none none,
       .tick 30000000011 none]).1.conn.lastPing = 10 := by
  refine ⟨by decide, by decide, by decide, by decide, by decide⟩

/-- C27 (amended). A server session is terminated for liveness timeout only if no Ping and no
Pong was received for 30 seconds; Data traffic does not count. A pass of the adapter-to-channel
loop never changes `lastPing`; a pass of the channel-to-adapter loop changes it only when the
message received decrypts to a Ping or a Pong frame, and then to the current time, and a Data
frame received leaves it unchanged; and a keepalive tick of a session whose context is not done
cancels the session exactly when more than 30 seconds have passed since `lastPing` or the sending
of the Ping reports an error, so always when more than 30 seconds have passed. -/
theorem C27_liveness_timeout (P : XChaCha20Poly1305) (sess : tunnel.Session) (rnd : RandSource)
    (hd : sess.conn.done = false) :
    (∀ data readErr sendErr,
      (tunnel.Server.handleTunToStream P sess rnd data readErr sendErr).1.conn.lastPing
        = sess.conn.lastPing) ∧
    (∀ recv writeErr sendErr now,
      (tunnel.Server.handleStreamToTun P sess rnd recv writeErr sendErr now).1.conn.lastPing
        ≠ sess.conn.lastPing →
      ∃ msgData p, recv = .ok msgData ∧
        (sess.conn.cipher.Decrypt P msgData = .ok (protocol.FrameTypePing :: p) ∨
         sess.conn.cipher.Decrypt P msgData = .ok (protocol.FrameTypePong :: p)) ∧
        (tunnel.Server.handleStreamToTun P sess rnd recv writeErr sendErr now).1.conn.lastPing
          = now) ∧
    (∀ msgData p writeErr sendErr now,
      sess.conn.cipher.Decrypt P msgData = .ok (protocol.FrameTypeData :: p) →
      (tunnel.Server.handleStreamToTun P sess rnd (.ok msgData) writeErr sendErr
        now).1.conn.lastPing = sess.conn.lastPing) ∧
    (∀ now sendErr,
      (tunnel.Server.keepAlive P sess rnd now sendErr).1.conn.done = true ↔
      (now - sess.conn.lastPing > 30 * 10 ^ 9 ∨
       (tunnel.Server.sendFrame P sess.conn rnd
         { Typ := protocol.FrameTypePing, Data := [112, 105, 110, 103] } sendErr).1 ≠ none)) ∧
    (∀ now sendErr, now - sess.conn.lastPing > 30 * 10 ^ 9 →
      (tunnel.Server.keepAlive P sess rnd now sendErr).1.conn.done = true) := by
  have hd1 : ¬ sess.conn.done = true := by
    rw [hd]
    decide
  refine ⟨tunnel.handleTunToStream_lastPing P sess rnd, ?_, ?_, ?_, ?_⟩
  · intro recv writeErr sendErr now hne
    obtain ⟨msgData, p, h1, _, h3, h4⟩ :=
      tunnel.handleStreamToTun_lastPing P sess rnd recv writeErr sendErr now hne
    exact ⟨msgData, p, h1, h3, h4⟩
  · intro msgData p writeErr sendErr now hdec
    rw [tunnel.handleStreamToTun_switch P sess rnd msgData _ p writeErr sendErr now hd hdec,
      tunnel.switchFrameType_lastPing, if_neg (by decide)]
  · intro now sendErr
    by_cases ht : now - sess.conn.lastPing > 30 * 10 ^ 9
    · constructor
      · intro _
        exact Or.inl ht
      · intro _
        unfold tunnel.Server.keepAlive
        rw [if_neg hd1, if_pos ht]
    · unfold tunnel.Server.keepAlive
      rw [if_neg hd1, if_neg ht]
      dsimp only
      rcases tunnel.Server.sendFrame P sess.conn rnd
        { Typ := protocol.FrameTypePing, Data := [112, 105, 110, 103] } sendErr
        with ⟨_ | err, rnd1, msg⟩
      · constructor
        · intro hdone
          exact absurd hdone hd1
        · rintro (h | h)
          · exact absurd h ht
          · exact absurd rfl h
      · constructor
        · intro _
          right
          intro h
          cases h
        · intro _
          rfl
  · intro now sendErr ht
    unfold tunnel.Server.keepAlive
    rw [if_neg hd1, if_pos ht]

theorem C27_liveness_timeout_witness :
    (tunnel.Server.handleStreamToTun toyPrimitive sample.session { pool := [] }
      (.ok (List.replicate 24 3
        ++ toyPrimitive.Seal sample.client.Key (List.replicate 24 3) [0, 1, 2, 3, 4, 5] []))
      none none 30000000000).1.conn.lastPing = sample.session.conn.lastPing ∧
    (tunnel.Server.keepAlive toyPrimitive sample.session { pool := [] } 30000000011
      none).1.conn.done = true :=
  have h := C27_liveness_timeout toyPrimitive sample.session { pool := [] } (by decide)
  ⟨h.2.2.1 _ [1, 2, 3, 4, 5] none none 30000000000 (by decide),
    h.2.2.2.2 30000000011 none (by decide)⟩

/-! ## The receive loops of the clients: lemmas -/

theorem windows_handleStreamToTun_dropped (P : XChaCha20Poly1305) (c : clientWindows.VPNClient)
    (rnd : RandSource) (msgData : List Byte) (e : Err) (writeErr sendErr : Option Err)
    (hd : c.done = false) (hdec : c.cipher.Decrypt P msgData = .error e) :
    c.handleStreamToTun P rnd (.ok msgData) writeErr sendErr = (c, rnd) := by
  have hd1 : ¬ c.done = true := by
    rw [hd]
    decide
  unfold clientWindows.VPNClient.handleStreamToTun
  rw [if_neg hd1]
  dsimp only
  rw [hdec]

theorem windows_handleStreamToTun_switch (P : XChaCha20Poly1305) (c : clientWindows.VPNClient)
    (rnd : RandSource) (msgData : List Byte) (t : Byte) (p : List Byte)
    (writeErr sendErr : Option Err) (hd : c.done = false)
    (hdec : c.cipher.Decrypt P msgData = .ok (t :: p)) :
    c.handleStreamToTun P rnd (.ok msgData) writeErr sendErr
      = c.switchFrameType P rnd t p writeErr sendErr := by
  have hlen : ¬ (t :: p).length < 1 := by simp
  have hd1 : ¬ c.done = true := by
    rw [hd]
    decide
  unfold clientWindows.VPNClient.handleStreamToTun
  rw [if_neg hd1]
  dsimp only
  rw [hdec]
  dsimp only
  rw [if_neg hlen]

theorem windows_handleStreamToTun_empty (P : XChaCha20Poly1305) (c : clientWindows.VPNClient)
    (rnd : RandSource) (msgData : List Byte) (writeErr sendErr : Option Err)
    (hd : c.done = false) (hdec : c.cipher.Decrypt P msgData = .ok []) :
    c.handleStreamToTun P rnd (.ok msgData) writeErr sendErr = (c, rnd) := by
  have hd1 : ¬ c.done = true := by
    rw [hd]
    decide
  unfold clientWindows.VPNClient.handleStreamToTun
  rw [if_neg hd1]
  dsimp only
  rw [hdec]
  rfl

theorem android_handleStreamToTun_dropped (P : XChaCha20Poly1305) (v : clientAndroid.VPNService)
    (msgData : List Byte) (e : Err) (sendErr : Option Err)
    (hd : v.done = false) (hdec : v.cipher.Decrypt P msgData = .error e) :
    v.handleStreamToTun P (.ok msgData) sendErr = v := by
  have hd1 : ¬ v.done = true := by
    rw [hd]
    decide
  unfold clientAndroid.VPNService.handleStreamToTun
  rw [if_neg hd1]
  dsimp only
  rw [hdec]

theorem android_handleStreamToTun_switch (P : XChaCha20Poly1305) (v : clientAndroid.VPNService)
    (msgData : List Byte) (t : Byte) (p : List Byte) (sendErr : Option Err)
    (hd : v.done = false) (hdec : v.cipher.Decrypt P msgData = .ok (t :: p)) :
    v.handleStreamToTun P (.ok msgData) sendErr = v.switchFrameType P t p sendErr := by
  have hlen : ¬ (t :: p).length < 1 := by simp
  have hd1 : ¬ v.done = true := by
    rw [hd]
    decide
  unfold clientAndroid.VPNService.handleStreamToTun
  rw [if_neg hd1]
  dsimp only
  rw [hdec]
  dsimp only
  rw [if_neg hlen]

theorem android_handleStreamToTun_empty (P : XChaCha20Poly1305) (v : clientAndroid.VPNService)
    (msgData : List Byte) (sendErr : Option Err)
    (hd : v.done = false) (hdec : v.cipher.Decrypt P msgData = .ok []) :
    v.handleStreamToTun P (.ok msgData) sendErr = v := by
  have hd1 : ¬ v.done = true := by
    rw [hd]
    decide
  unfold clientAndroid.VPNService.handleStreamToTun
  rw [if_neg hd1]
  dsimp only
  rw [hdec]
  rfl

theorem windows_streamToTunLoop_stopped (P : XChaCha20Poly1305) (c : clientWindows.VPNClient)
    (rnd : RandSource) (passes : List (Except Err (List Byte) × Option Err × Option Err))
    (h : c.streamToTun = false) : c.streamToTunLoop P rnd passes = (c, rnd) := by
  cases passes with
  | nil => rfl
  | cons pass rest =>
    have h1 : ¬ c.streamToTun = true := by
      rw [h]
      decide
    show (if c.streamToTun = true then _ else _) = _
    rw [if_neg h1]

theorem android_streamToTunLoop_stopped (P : XChaCha20Poly1305) (v : clientAndroid.VPNService)
    (passes : List (Except Err (List Byte) × Option Err)) (h : v.streamToTun = false) :
    v.streamToTunLoop P passes = v := by
  cases passes with
  | nil => rfl
  | cons pass rest =>
    have h1 : ¬ v.streamToTun = true := by
      rw [h]
      decide
    show (if v.streamToTun = true then _ else _) = _
    rw [if_neg h1]

/-! ## Dropped frames: property -/

/-- C28. When `Decrypt` fails for a message received in the channel-to-adapter loop (the context
not being done), the pass leaves the whole state as it was, in the server, in the Windows client
and in the Android client: nothing is written to the adapter, nothing is sent, the counters and
(in the server) `lastPing` and the queue of termination values are unchanged, the loop is still
running and the random source is untouched. The loop then goes on: run through any further
schedule, each of the three ends in the state it reaches without the dropped message. -/
theorem C28_decrypt_failure_dropped (P : XChaCha20Poly1305) (sess : tunnel.Session)
    (c : clientWindows.VPNClient) (v : clientAndroid.VPNService) (rnd : RandSource)
    (msgData : List Byte) (es ec ev : Err)
    (hs : sess.conn.done = false) (hsd : sess.conn.cipher.Decrypt P msgData = .error es)
    (hc : c.done = false) (hcd : c.cipher.Decrypt P msgData = .error ec)
    (hv : v.done = false) (hvd : v.cipher.Decrypt P msgData = .error ev) :
    ((∀ writeErr sendErr now,
        tunnel.Server.handleStreamToTun P sess rnd (.ok msgData) writeErr sendErr now
          = (sess, rnd)) ∧
     (∀ writeErr sendErr now evs,
        sess.run P rnd (.streamRecv (.ok msgData) writeErr sendErr now :: evs)
          = sess.run P rnd evs)) ∧
    ((∀ writeErr sendErr, c.handleStreamToTun P rnd (.ok msgData) writeErr sendErr = (c, rnd)) ∧
     (∀ writeErr sendErr passes,
        c.streamToTunLoop P rnd ((.ok msgData, writeErr, sendErr) :: passes)
          = c.streamToTunLoop P rnd passes)) ∧
    ((∀ sendErr, v.handleStreamToTun P (.ok msgData) sendErr = v) ∧
     (∀ sendErr passes,
        v.streamToTunLoop P ((.ok msgData, sendErr) :: passes) = v.streamToTunLoop P passes)) := by
  have h1 := fun writeErr sendErr now =>
    tunnel.handleStreamToTun_dropped P sess rnd msgData es writeErr sendErr now hs hsd
  have h2 := fun writeErr sendErr =>
    windows_handleStreamToTun_dropped P c rnd msgData ec writeErr sendErr hc hcd
  have h3 := fun sendErr => android_handleStreamToTun_dropped P v msgData ev sendErr hv hvd
  refine ⟨⟨h1, ?_⟩, ⟨h2, ?_⟩, ⟨h3, ?_⟩⟩
  · intro writeErr sendErr now evs
    have hstep : sess.step P rnd (.streamRecv (.ok msgData) writeErr sendErr now)
        = (sess, rnd) := by
      by_cases hl : sess.streamToTun = true
      · simp only [tunnel.Session.step, hl, if_true]
        exact h1 writeErr sendErr now
      · simp only [tunnel.Session.step, hl]
        rfl
    show tunnel.Session.run P (sess.step P rnd _).1 (sess.step P rnd _).2 evs = _
    rw [hstep]
  · intro writeErr sendErr passes
    by_cases hl : c.streamToTun = true
    · show (if c.streamToTun = true then _ else _) = _
      rw [if_pos hl]
      dsimp only
      rw [h2 writeErr sendErr]
    · have hl1 : c.streamToTun = false := by
        cases hb : c.streamToTun
        · rfl
        · exact absurd hb hl
      rw [windows_streamToTunLoop_stopped P c rnd _ hl1,
        windows_streamToTunLoop_stopped P c rnd _ hl1]
  · intro sendErr passes
    by_cases hl : v.streamToTun = true
    · show (if v.streamToTun = true then _ else _) = _
      rw [if_pos hl]
      dsimp only
      rw [h3 sendErr]
    · have hl1 : v.streamToTun = false := by
        cases hb : v.streamToTun
        · rfl
        · exact absurd hb hl
      rw [android_streamToTunLoop_stopped P v _ hl1, android_streamToTunLoop_stopped P v _ hl1]

theorem C28_decrypt_failure_dropped_witness :
    tunnel.Server.handleStreamToTun toyPrimitive sample.session { pool := [] }
        (.ok (List.replicate 24 3 ++ [0, 1, 2, 9])) none none 20
      = (sample.session, { pool := [] }) ∧
    sample.windowsClient.handleStreamToTun toyPrimitive { pool := [] }
        (.ok (List.replicate 24 3 ++ [0, 1, 2, 9])) none none
      = (sample.windowsClient, { pool := [] }) ∧
    sample.androidService.handleStreamToTun toyPrimitive
        (.ok (List.replicate 24 3 ++ [0, 1, 2, 9])) none
      = sample.androidService :=
  have h := C28_decrypt_failure_dropped toyPrimitive sample.session sample.windowsClient
    sample.androidService { pool := [] } (List.replicate 24 3 ++ [0, 1, 2, 9])
    (Err.msg "AuthenticationFailed")
    (Err.msg "chacha20poly1305: message authentication failed")
    (Err.msg "chacha20poly1305: message authentication failed")
    (by decide) (by decide) (by decide) (by decide) (by decide) (by decide)
  ⟨h.1.1 none none 20, h.2.1.1 none none, h.2.2.1 none⟩

/-! ## The plaintext on the channel in the three implementations: lemmas -/

theorem windows_sendFrame_ok (P : XChaCha20Poly1305) (c : clientWindows.VPNClient)
    (rnd : RandSource) (frame : clientWindows.protocol.Frame) (sendErr : Option Err)
    (h : 24 ≤ rnd.pool.length) :
    c.sendFrame P rnd frame sendErr
      = (sendErr, { pool := rnd.pool.drop 24 },
         some (rnd.pool.take 24
           ++ P.Seal c.cipher.aead.key (rnd.pool.take 24) (frame.Typ :: frame.Data) [])) := by
  simp only [clientWindows.VPNClient.sendFrame, windows_Encrypt_ok P c.cipher rnd _ h]

theorem android_sendFrame_eq (P : XChaCha20Poly1305) (v : clientAndroid.VPNService) (t : Byte)
    (p : List Byte) (sendErr : Option Err) :
    v.sendFrame P t p sendErr
      = (sendErr,
         some (List.replicate 24 0
           ++ P.Seal v.cipher.aead.key (List.replicate 24 0) (t :: p) [])) := rfl

theorem server_Decrypt_nonce_append (P : XChaCha20Poly1305) (c : serverCrypto.Cipher)
    (nonce sealed : List Byte) (hn : nonce.length = 24) :
    c.Decrypt P (nonce ++ sealed)
      = match P.Open c.key nonce sealed [] with
        | none => .error (Err.msg "AuthenticationFailed")
        | some plaintext => .ok plaintext := by
  have hlt : ¬ (nonce ++ sealed).length < 24 := by
    rw [List.length_append]
    omega
  have ht : (nonce ++ sealed).take 24 = nonce := by
    rw [← hn]
    exact List.take_left' rfl
  have hd : (nonce ++ sealed).drop 24 = sealed := by
    rw [← hn]
    exact List.drop_left' rfl
  simp only [serverCrypto.Cipher.Decrypt, hlt, if_false, ht, hd]

theorem server_handleStreamToTun_parse (P : XChaCha20Poly1305) (sess : tunnel.Session)
    (rnd : RandSource) (msgData d : List Byte) (writeErr sendErr : Option Err) (now : Int)
    (hd : sess.conn.done = false) (hdec : sess.conn.cipher.Decrypt P msgData = .ok d) :
    tunnel.Server.handleStreamToTun P sess rnd (.ok msgData) writeErr sendErr now
      = match parsePlaintext d with
        | .ok (some fr) =>
          tunnel.Server.switchFrameType P sess rnd fr.1 fr.2 writeErr sendErr now
        | _ => (sess, rnd) := by
  rw [parsePlaintext_eq]
  cases d with
  | nil =>
    have hd1 : ¬ sess.conn.done = true := by
      rw [hd]
      decide
    unfold tunnel.Server.handleStreamToTun
    rw [if_neg hd1]
    dsimp only
    rw [hdec]
    rfl
  | cons t p => exact tunnel.handleStreamToTun_switch P sess rnd msgData t p _ _ _ hd hdec

theorem windows_handleStreamToTun_parse (P : XChaCha20Poly1305) (c : clientWindows.VPNClient)
    (rnd : RandSource) (msgData d : List Byte) (writeErr sendErr : Option Err)
    (hd : c.done = false) (hdec : c.cipher.Decrypt P msgData = .ok d) :
    c.handleStreamToTun P rnd (.ok msgData) writeErr sendErr
      = match parsePlaintext d with
        | .ok (some fr) => c.switchFrameType P rnd fr.1 fr.2 writeErr sendErr
        | _ => (c, rnd) := by
  rw [parsePlaintext_eq]
  cases d with
  | nil => exact windows_handleStreamToTun_empty P c rnd msgData _ _ hd hdec
  | cons t p => exact windows_handleStreamToTun_switch P c rnd msgData t p _ _ hd hdec

theorem android_handleStreamToTun_parse (P : XChaCha20Poly1305) (v : clientAndroid.VPNService)
    (msgData d : List Byte) (sendErr : Option Err)
    (hd : v.done = false) (hdec : v.cipher.Decrypt P msgData = .ok d) :
    v.handleStreamToTun P (.ok msgData) sendErr
      = match parsePlaintext d with
        | .ok (some fr) => v.switchFrameType P fr.1 fr.2 sendErr
        | _ => v := by
  rw [parsePlaintext_eq]
  cases d with
  | nil => exact android_handleStreamToTun_empty P v msgData _ hd hdec
  | cons t p => exact android_handleStreamToTun_switch P v msgData t p _ hd hdec

/-! ## The plaintext on the channel in the three implementations: property -/

/-- C29. For every type byte `t` and payload `p`, the three implementations of `sendFrame` seal
the same plaintext `t || p`, of `1 + len(p)` bytes: the message handed to the stream is
`nonce || Seal(nonce, t || p)`, with a nonce drawn from the random source in the server and the
Windows client and the all-zero nonce in the Android client. The parse shared by the three
receive loops recovers `(t, p)` from `t || p`, skips the empty plaintext and never indexes out of
range; each receive loop, on a message that decrypts to a plaintext, runs its `switch` on the
type and payload the parse gives, so on `t || p` it runs it on `(t, p)`. With a correct primitive
and one key, the message built from `(t, p)` under any 24-byte nonce decrypts to `t || p` in all
three implementations. -/
theorem C29_channel_plaintext (P : XChaCha20Poly1305) (hP : P.Correct) (t : Byte)
    (p : List Byte) (conn : tunnel.Connection) (c : clientWindows.VPNClient)
    (v : clientAndroid.VPNService) (rnd : RandSource) (sendErr : Option Err)
    (h : 24 ≤ rnd.pool.length) :
    (tunnel.Server.sendFrame P conn rnd { Typ := t, Data := p } sendErr
        = (sendErr, { pool := rnd.pool.drop 24 },
           some (rnd.pool.take 24 ++ P.Seal conn.cipher.key (rnd.pool.take 24) (t :: p) [])) ∧
     c.sendFrame P rnd { Typ := t, Data := p } sendErr
        = (sendErr, { pool := rnd.pool.drop 24 },
           some (rnd.pool.take 24 ++ P.Seal c.cipher.aead.key (rnd.pool.take 24) (t :: p) [])) ∧
     v.sendFrame P t p sendErr
        = (sendErr,
           some (List.replicate 24 0 ++ P.Seal v.cipher.aead.key (List.replicate 24 0) (t :: p) [])) ∧
     (t :: p).length = 1 + p.length) ∧
    (parsePlaintext (t :: p) = .ok (some (t, p)) ∧
     parsePlaintext [] = .ok none ∧
     (∀ d e, parsePlaintext d ≠ .error e)) ∧
    ((∀ (sess : tunnel.Session) rnd1 msgData d writeErr sendErr1 now,
        sess.conn.done = false → sess.conn.cipher.Decrypt P msgData = .ok d →
        tunnel.Server.handleStreamToTun P sess rnd1 (.ok msgData) writeErr sendErr1 now
          = match parsePlaintext d with
            | .ok (some fr) =>
              tunnel.Server.switchFrameType P sess rnd1 fr.1 fr.2 writeErr sendErr1 now
            | _ => (sess, rnd1)) ∧
     (∀ (c1 : clientWindows.VPNClient) rnd1 msgData d writeErr sendErr1,
        c1.done = false → c1.cipher.Decrypt P msgData = .ok d →
        c1.handleStreamToTun P rnd1 (.ok msgData) writeErr sendErr1
          = match parsePlaintext d with
            | .ok (some fr) => c1.switchFrameType P rnd1 fr.1 fr.2 writeErr sendErr1
            | _ => (c1, rnd1)) ∧
     (∀ (v1 : clientAndroid.VPNService) msgData d sendErr1,
        v1.done = false → v1.cipher.Decrypt P msgData = .ok d →
        v1.handleStreamToTun P (.ok msgData) sendErr1
          = match parsePlaintext d with
            | .ok (some fr) => v1.switchFrameType P fr.1 fr.2 sendErr1
            | _ => v1)) ∧
    (∀ (key nonce : List Byte), nonce.length = 24 →
      serverCrypto.Cipher.Decrypt P { key := key } (nonce ++ P.Seal key nonce (t :: p) [])
        = .ok (t :: p) ∧
      clientWindows.crypto.Cipher.Decrypt P { aead := { key := key } }
          (nonce ++ P.Seal key nonce (t :: p) []) = .ok (t :: p) ∧
      clientAndroid.Cipher.Decrypt P { aead := { key := key } }
          (nonce ++ P.Seal key nonce (t :: p) []) = .ok (t :: p)) := by
  refine ⟨⟨tunnel.sendFrame_ok P conn rnd _ sendErr h, windows_sendFrame_ok P c rnd _ sendErr h,
    android_sendFrame_eq P v t p sendErr, ?_⟩, ⟨?_, ?_, ?_⟩,
    ⟨fun sess rnd1 msgData d writeErr sendErr1 now hd hdec =>
        server_handleStreamToTun_parse P sess rnd1 msgData d writeErr sendErr1 now hd hdec,
      fun c1 rnd1 msgData d writeErr sendErr1 hd hdec =>
        windows_handleStreamToTun_parse P c1 rnd1 msgData d writeErr sendErr1 hd hdec,
      fun v1 msgData d sendErr1 hd hdec =>
        android_handleStreamToTun_parse P v1 msgData d sendErr1 hd hdec⟩, ?_⟩
  · simp only [List.length_cons]
    omega
  · rw [parsePlaintext_eq]
  · rw [parsePlaintext_eq]
  · intro d e
    rw [parsePlaintext_eq]
    cases d <;> simp
  · intro key nonce hn
    refine ⟨?_, ?_, ?_⟩
    · rw [server_Decrypt_nonce_append P _ nonce _ hn, hP key nonce (t :: p) []]
    · rw [windows_Decrypt_nonce_append P _ nonce _ hn, hP key nonce (t :: p) []]
    · rw [android_Decrypt_nonce_append P _ nonce _ hn, hP key nonce (t :: p) []]

theorem C29_channel_plaintext_witness :
    sample.windowsClient.sendFrame toyPrimitive { pool := List.replicate 24 4 }
        { Typ := 0, Data := [8, 9] } none
      = (none, { pool := (List.replicate 24 4).drop 24 },
         some ((List.replicate 24 4).take 24
           ++ toyPrimitive.Seal sample.windowsClient.cipher.aead.key
               ((List.replicate 24 4).take 24) [0, 8, 9] [])) ∧
    sample.androidService.sendFrame toyPrimitive 0 [8, 9] none
      = (none,
         some (List.replicate 24 0
           ++ toyPrimitive.Seal sample.androidService.cipher.aead.key (List.replicate 24 0)
               [0, 8, 9] [])) ∧
    parsePlaintext [0, 8, 9] = .ok (some (0, [8, 9])) :=
  have h := C29_channel_plaintext toyPrimitive toyPrimitive_correct 0 [8, 9] sample.session.conn
    sample.windowsClient sample.androidService { pool := List.replicate 24 4 } none (by decide)
  ⟨h.1.2.1, h.1.2.2.1, h.2.1.1⟩

/-! ## Teardown and the registry: lemmas -/

namespace tunnel

theorem Engine.reachable_step (P : XChaCha20Poly1305) (e : Engine) (a : Action)
    (h : Engine.Reachable P e) : Engine.Reachable P (e.step P a) := by
  obtain ⟨cm, rnd, acts, he⟩ := h
  refine ⟨cm, rnd, acts ++ [a], ?_⟩
  rw [he]
  have hrun : ∀ (l : List Action) (e0 : Engine),
      Engine.run P e0 (l ++ [a]) = (Engine.run P e0 l).step P a := by
    intro l
    induction l with
    | nil =>
      intro e0
      rfl
    | cons b bs ih =>
      intro e0
      exact ih (e0.step P b)
  exact (hrun acts _).symm

theorem Engine.teardown_eq (P : XChaCha20Poly1305) (e : Engine) (ptr : Nat) (sess : Session)
    (hf : e.live.find? (fun x => x.ptr = ptr) = some sess) (hret : sess.canReturn = true) :
    e.step P (.teardown ptr)
      = { e with server := Server.ConnectDeferred e.server sess,
                 live := e.live.filter (fun x => x.ptr ≠ ptr) } := by
  simp only [Engine.step, hf]
  rw [if_pos hret]

end tunnel

/-! ## Teardown and the registry: properties -/

/-- C30, as stated, fails. After two successful `Connect` calls for `alice` the older session
(address 0) is live and is not the registry entry of `alice`, which designates the newer one
(address 1). When the older session then ends at the end of its stream and is torn down, the
newer session is still live and not cancelled, and the registry has no entry for `alice`. -/
theorem C30_teardown_of_older_session_unregisters_newer :
    tunnel.Engine.Reachable toyPrimitive
      (tunnel.Engine.run toyPrimitive sample.twoConnects
        [.event 0 (.streamRecv (.error Err.EOF) none none 11), .teardown 0]) ∧
    sample.twoConnects.live.map (fun x => (x.ptr, x.uuid, sample.twoConnects.registered x))
      = [(0, "alice", false), (1, "alice", true)] ∧
    sample.twoConnects.server.connections.lookup "alice" = some 1 ∧
    (tunnel.Engine.run toyPrimitive sample.twoConnects
        [.event 0 (.streamRecv (.error Err.EOF) none none 11), .teardown 0]).live.map
          (fun x => (x.ptr, x.uuid, x.conn.done))
      = [(1, "alice", false)] ∧
    (tunnel.Engine.run toyPrimitive sample.twoConnects
        [.event 0 (.streamRecv (.error Err.EOF) none none 11),
         .teardown 0]).server.connections.lookup "alice" = none :=
  ⟨⟨{ clients := [("alice", sample.client)] }, { pool := [] },
      [.connect (sample.env "s3cret"), .connect (sample.env "s3cret"),
       .event 0 (.streamRecv (.error Err.EOF) none none 11), .teardown 0], rfl⟩,
    by decide, by decide, by decide, by decide⟩

/-- C30 (amended). Registry consistency. In every reachable state of the engine, the teardown of
a live session that can return removes that session from the live ones and leaves every other
live session live and unchanged; it leaves the registry entry of every other identity as it was,
so a live session of another identity is registered afterwards exactly if it was before; if the
session torn down was the registered one of its identity, the entry removed is its own; and
afterwards, as before, every registry entry designates a live session of that identity. -/
theorem C30_teardown_registry (P : XChaCha20Poly1305) (e : tunnel.Engine) (ptr : Nat)
    (sess : tunnel.Session) (h : tunnel.Engine.Reachable P e)
    (hf : e.live.find? (fun x => x.ptr = ptr) = some sess) (hret : sess.canReturn = true) :
    (sess ∈ e.live ∧ sess.ptr = ptr ∧ sess ∉ (e.step P (.teardown ptr)).live) ∧
    (∀ x, x ∈ (e.step P (.teardown ptr)).live ↔ x ∈ e.live ∧ x ≠ sess) ∧
    (∀ u, u ≠ sess.uuid →
      (e.step P (.teardown ptr)).server.connections.lookup u
        = e.server.connections.lookup u) ∧
    (∀ x ∈ e.live, x.uuid ≠ sess.uuid →
      (e.step P (.teardown ptr)).registered x = e.registered x) ∧
    (e.registered sess = true →
      e.server.connections.lookup sess.uuid = some sess.ptr ∧
      (e.step P (.teardown ptr)).server.connections.lookup sess.uuid = none) ∧
    (∀ u p, (e.step P (.teardown ptr)).server.connections.lookup u = some p →
      ∃ x ∈ (e.step P (.teardown ptr)).live, x.ptr = p ∧ x.uuid = u) := by
  obtain ⟨_, h2, _⟩ := tunnel.Engine.reachable_consistent P e h
  obtain ⟨_, _, h3⟩ := tunnel.Engine.reachable_consistent P _
    (tunnel.Engine.reachable_step P e (.teardown ptr) h)
  have hmem : sess ∈ e.live := List.mem_of_find?_eq_some hf
  have hsp : sess.ptr = ptr := by
    have := List.find?_some hf
    simpa using this
  have hlive : ∀ x, x ∈ (e.step P (.teardown ptr)).live ↔ x ∈ e.live ∧ x ≠ sess := by
    intro x
    rw [tunnel.Engine.teardown_eq P e ptr sess hf hret]
    show x ∈ e.live.filter (fun x => x.ptr ≠ ptr) ↔ _
    rw [List.mem_filter]
    simp only [ne_eq, decide_not, Bool.not_eq_true', decide_eq_false_iff_not]
    constructor
    · rintro ⟨hx, hne⟩
      refine ⟨hx, ?_⟩
      intro hxs
      rw [hxs] at hne
      exact hne hsp
    · rintro ⟨hx, hne⟩
      refine ⟨hx, ?_⟩
      intro hxp
      exact hne (tunnel.eq_of_ptr_eq e.live h2 x sess hx hmem (hxp.trans hsp.symm))
  have hother : ∀ u, u ≠ sess.uuid →
      (e.step P (.teardown ptr)).server.connections.lookup u
        = e.server.connections.lookup u := by
    intro u hu
    rw [tunnel.Engine.teardown_eq P e ptr sess hf hret]
    show (e.server.connections.erase sess.uuid).lookup u = _
    exact GoMap.lookup_erase_ne _ _ _ hu
  refine ⟨⟨hmem, hsp, ?_⟩, hlive, hother, ?_, ?_, h3⟩
  · intro hin
    exact ((hlive sess).mp hin).2 rfl
  · intro x _ hxu
    show decide ((e.step P (.teardown ptr)).server.connections.lookup x.uuid = some x.ptr)
      = decide (e.server.connections.lookup x.uuid = some x.ptr)
    rw [hother x.uuid hxu]
  · intro hreg
    have hreg1 : e.server.connections.lookup sess.uuid = some sess.ptr := by
      simpa [tunnel.Engine.registered] using hreg
    refine ⟨hreg1, ?_⟩
    rw [tunnel.Engine.teardown_eq P e ptr sess hf hret]
    show (e.server.connections.erase sess.uuid).lookup sess.uuid = none
    exact GoMap.lookup_erase_self _ _

theorem C30_teardown_registry_witness :
    ((sample.twoConnects.step toyPrimitive (.event 1 .ctxDone)).step toyPrimitive
      (.teardown 1)).server.connections.lookup "alice" = none ∧
    (∀ u p,
      ((sample.twoConnects.step toyPrimitive (.event 1 .ctxDone)).step toyPrimitive
        (.teardown 1)).server.connections.lookup u = some p →
      ∃ x ∈ ((sample.twoConnects.step toyPrimitive (.event 1 .ctxDone)).step toyPrimitive
        (.teardown 1)).live, x.ptr = p ∧ x.uuid = u) :=
  have h := C30_teardown_registry toyPrimitive
    (sample.twoConnects.step toyPrimitive (.event 1 .ctxDone)) 1
    { tunnel.freshSession 1 "alice" sample.client { key := sample.client.Key }
        (sample.env "s3cret") 0 with
      conn := { (tunnel.freshSession 1 "alice" sample.client { key := sample.client.Key }
        (sample.env "s3cret") 0).conn with done := true } }
    ⟨{ clients := [("alice", sample.client)] }, { pool := [] },
      [.connect (sample.env "s3cret"), .connect (sample.env "s3cret"), .event 1 .ctxDone], rfl⟩
    (by decide) (by decide)
  ⟨(h.2.2.2.2.1 (by decide)).2, h.2.2.2.2.2⟩

/-! ## Byte accounting, statement by statement: lemmas -/

namespace tunnel

theorem handleTunToStreamSend_effect (P : XChaCha20Poly1305) (sess : Session) (rnd : RandSource)
    (data : List Byte) (readErr sendErr : Option Err) :
    (Server.handleTunToStreamSend P sess rnd data readErr sendErr).1.uuid = sess.uuid ∧
    (Server.handleTunToStreamSend P sess rnd data readErr sendErr).1.conn.bytesUp
      = sess.conn.bytesUp ∧
    (Server.handleTunToStreamSend P sess rnd data readErr sendErr).1.conn.bytesDown
      = sess.conn.bytesDown ∧
    (Server.handleTunToStreamSend P sess rnd data readErr sendErr).1.written = sess.written ∧
    dataBytes (Server.handleTunToStreamSend P sess rnd data readErr sendErr).1.sent
      = dataBytes sess.sent
        + (((Server.handleTunToStreamSend P sess rnd data readErr sendErr).2.2.getD 0 : Nat)
            : Int) := by
  unfold Server.handleTunToStreamSend
  by_cases hd : sess.conn.done = true
  · rw [if_pos hd]
    exact ⟨rfl, rfl, rfl, rfl, by simp⟩
  · rw [if_neg hd]
    cases readErr with
    | some err => exact ⟨rfl, rfl, rfl, rfl, by simp⟩
    | none =>
      dsimp only
      by_cases hn : (data.take 1500).length > 0
      · rw [if_pos hn]
        rcases Server.sendFrame P sess.conn rnd
          { Typ := protocol.FrameTypeData, Data := data.take 1500 } sendErr
          with ⟨_ | err, rnd1, msg⟩
        · refine ⟨rfl, rfl, rfl, rfl, ?_⟩
          show dataBytes (sess.sent ++ _) = _
          rw [dataBytes_append]
          simp [dataBytes]
        · exact ⟨rfl, rfl, rfl, rfl, by simp⟩
      · rw [if_neg hn]
        exact ⟨rfl, rfl, rfl, rfl, by simp⟩

theorem switchFrameType_control_effect (P : XChaCha20Poly1305) (sess : Session)
    (rnd : RandSource) (t : Byte) (p : List Byte) (writeErr sendErr : Option Err) (now : Int)
    (h0 : t ≠ protocol.FrameTypeData) :
    (Server.switchFrameType P sess rnd t p writeErr sendErr now).1.uuid = sess.uuid ∧
    (Server.switchFrameType P sess rnd t p writeErr sendErr now).1.conn.bytesUp
      = sess.conn.bytesUp ∧
    (Server.switchFrameType P sess rnd t p writeErr sendErr now).1.conn.bytesDown
      = sess.conn.bytesDown ∧
    (Server.switchFrameType P sess rnd t p writeErr sendErr now).1.written = sess.written ∧
    dataBytes (Server.switchFrameType P sess rnd t p writeErr sendErr now).1.sent
      = dataBytes sess.sent := by
  by_cases h1 : t = protocol.FrameTypePing
  · subst h1
    rw [switchFrameType_ping]
    rcases Server.sendFrame P sess.conn rnd
      { Typ := protocol.FrameTypePong, Data := p } sendErr with ⟨_ | err, rnd1, _ | msg⟩
    · exact ⟨rfl, rfl, rfl, rfl, rfl⟩
    · refine ⟨rfl, rfl, rfl, rfl, ?_⟩
      show dataBytes (sess.sent ++ _) = _
      rw [dataBytes_append]
      simp [dataBytes, pong_ne_data]
    · exact ⟨rfl, rfl, rfl, rfl, rfl⟩
    · exact ⟨rfl, rfl, rfl, rfl, rfl⟩
  · by_cases h2 : t = protocol.FrameTypePong
    · subst h2
      rw [switchFrameType_pong]
      exact ⟨rfl, rfl, rfl, rfl, rfl⟩
    · have e : Server.switchFrameType P sess rnd t p writeErr sendErr now = (sess, rnd) := by
        simp only [Server.switchFrameType, h0, h1, h2, if_false]
      rw [e]
      exact ⟨rfl, rfl, rfl, rfl, rfl⟩

theorem handleStreamToTunWrite_effect (P : XChaCha20Poly1305) (sess : Session)
    (rnd : RandSource) (recv : Except Err (List Byte)) (writeErr sendErr : Option Err)
    (now : Int) :
    (Server.handleStreamToTunWrite P sess rnd recv writeErr sendErr now).1.uuid = sess.uuid ∧
    (Server.handleStreamToTunWrite P sess rnd recv writeErr sendErr now).1.conn.bytesUp
      = sess.conn.bytesUp ∧
    (Server.handleStreamToTunWrite P sess rnd recv writeErr sendErr now).1.conn.bytesDown
      = sess.conn.bytesDown ∧
    dataBytes (Server.handleStreamToTunWrite P sess rnd recv writeErr sendErr now).1.sent
      = dataBytes sess.sent ∧
    writtenBytes (Server.handleStreamToTunWrite P sess rnd recv writeErr sendErr now).1.written
      = writtenBytes sess.written
        + (((Server.handleStreamToTunWrite P sess rnd recv writeErr sendErr now).2.2.getD 0 : Nat)
            : Int) := by
  unfold Server.handleStreamToTunWrite
  by_cases hd : sess.conn.done = true
  · rw [if_pos hd]
    exact ⟨rfl, rfl, rfl, rfl, by simp⟩
  · rw [if_neg hd]
    cases recv with
    | error err =>
      dsimp only
      by_cases he : err = Err.EOF
      · rw [if_pos he]
        exact ⟨rfl, rfl, rfl, rfl, by simp⟩
      · rw [if_neg he]
        exact ⟨rfl, rfl, rfl, rfl, by simp⟩
    | ok msgData =>
      dsimp only
      cases sess.conn.cipher.Decrypt P msgData with
      | error e => exact ⟨rfl, rfl, rfl, rfl, by simp⟩
      | ok decrypted =>
        dsimp only
        cases decrypted with
        | nil => exact ⟨rfl, rfl, rfl, rfl, by simp⟩
        | cons typ payload =>
          have hlen : ¬ (typ :: payload).length < 1 := by simp
          rw [if_neg hlen]
          dsimp only
          by_cases h0 : typ = protocol.FrameTypeData
          · rw [if_pos h0]
            cases writeErr with
            | some err => exact ⟨rfl, rfl, rfl, rfl, by simp⟩
            | none =>
              refine ⟨rfl, rfl, rfl, rfl, ?_⟩
              show writtenBytes (sess.written ++ _) = _
              rw [writtenBytes_append]
              simp [writtenBytes]
          · rw [if_neg h0]
            obtain ⟨e1, e2, e3, e4, e5⟩ :=
              switchFrameType_control_effect P sess rnd typ payload writeErr sendErr now h0
            refine ⟨e1, e2, e3, e5, ?_⟩
            show writtenBytes _ = writtenBytes sess.written + _
            rw [e4]
            simp

theorem Evolves.accounted_less {s t : Session} (h : Evolves s t) (p q : Int)
    (hu : s.conn.bytesUp = wrapInt64 (dataBytes s.sent - p))
    (hd : s.conn.bytesDown = wrapInt64 (writtenBytes s.written - q)) :
    t.conn.bytesUp = wrapInt64 (dataBytes t.sent - p) ∧
    t.conn.bytesDown = wrapInt64 (writtenBytes t.written - q) := by
  cases h
  case forwarded pkt msg =>
    refine ⟨?_, hd⟩
    show wrapInt64 (s.conn.bytesUp + pkt.length) = wrapInt64 (dataBytes (s.sent ++ _) - p)
    rw [hu, wrapInt64_add_wrapInt64, dataBytes_append]
    have e : dataBytes [(({ Typ := protocol.FrameTypeData, Data := pkt } : protocol.Frame), msg)]
        = (pkt.length : Int) := by
      simp [dataBytes]
    rw [e]
    congr 1
    omega
  case delivered payload =>
    refine ⟨hu, ?_⟩
    show wrapInt64 (s.conn.bytesDown + payload.length)
      = wrapInt64 (writtenBytes (s.written ++ _) - q)
    rw [hd, wrapInt64_add_wrapInt64, writtenBytes_append]
    have e : writtenBytes [payload] = (payload.length : Int) := by
      simp [writtenBytes]
    rw [e]
    congr 1
    omega
  case control f hf msg lp =>
    refine ⟨?_, hd⟩
    show s.conn.bytesUp = wrapInt64 (dataBytes (s.sent ++ _) - p)
    rw [hu, dataBytes_append]
    have e : dataBytes [(f, msg)] = 0 := by
      simp [dataBytes, hf]
    rw [e, Int.add_zero]
  all_goals exact ⟨hu, hd⟩

theorem Running.step_uuid (P : XChaCha20Poly1305) (r : Running) (rnd : RandSource)
    (st : Stmt) : (r.step P rnd st).1.sess.uuid = r.sess.uuid := by
  cases st with
  | tunSend data readErr sendErr =>
    by_cases h : (r.sess.tunToStream && r.upPending.isNone) = true
    · simp only [Running.step, h, if_true]
      exact (handleTunToStreamSend_effect P r.sess rnd data readErr sendErr).1
    · simp only [Running.step, h]
      rfl
  | tunCount =>
    cases hp : r.upPending with
    | none => simp only [Running.step, hp]
    | some n => simp only [Running.step, hp]
  | streamWrite recv writeErr sendErr now =>
    by_cases h : (r.sess.streamToTun && r.downPending.isNone) = true
    · simp only [Running.step, h, if_true]
      exact (handleStreamToTunWrite_effect P r.sess rnd recv writeErr sendErr now).1
    · simp only [Running.step, h]
      rfl
  | streamCount =>
    cases hp : r.downPending with
    | none => simp only [Running.step, hp]
    | some n => simp only [Running.step, hp]
  | tick now sendErr => exact (step_evolves P r.sess rnd (.tick now sendErr)).uuid_eq
  | ctxDone => exact (step_evolves P r.sess rnd .ctxDone).uuid_eq

theorem Running.step_accounted (P : XChaCha20Poly1305) (r : Running) (rnd : RandSource)
    (st : Stmt) (h : r.Accounted) : (r.step P rnd st).1.Accounted := by
  obtain ⟨hu, hd⟩ := h
  cases st with
  | tunSend data readErr sendErr =>
    by_cases hrun : (r.sess.tunToStream && r.upPending.isNone) = true
    · have hnone : r.upPending = none := by
        have := (Bool.and_eq_true _ _).mp hrun
        exact Option.isNone_iff_eq_none.mp this.2
      obtain ⟨_, e2, e3, e4, e5⟩ :=
        handleTunToStreamSend_effect P r.sess rnd data readErr sendErr
      simp only [Running.step, hrun, if_true]
      constructor
      · show (Server.handleTunToStreamSend P r.sess rnd data readErr sendErr).1.conn.bytesUp
          = wrapInt64 (dataBytes
              (Server.handleTunToStreamSend P r.sess rnd data readErr sendErr).1.sent
            - (((Server.handleTunToStreamSend P r.sess rnd data readErr sendErr).2.2.getD 0
                : Nat) : Int))
        rw [e2, e5, hu]
        have hz : r.upBytes = 0 := by
          simp [Running.upBytes, hnone]
        rw [hz]
        congr 1
        omega
      · show (Server.handleTunToStreamSend P r.sess rnd data readErr sendErr).1.conn.bytesDown
          = wrapInt64 (writtenBytes
              (Server.handleTunToStreamSend P r.sess rnd data readErr sendErr).1.written
            - r.downBytes)
        rw [e3, e4]
        exact hd
    · simp only [Running.step, hrun]
      exact ⟨hu, hd⟩
  | tunCount =>
    cases hp : r.upPending with
    | none =>
      simp only [Running.step, hp]
      exact ⟨hu, hd⟩
    | some n =>
      simp only [Running.step, hp]
      refine ⟨?_, hd⟩
      show wrapInt64 (r.sess.conn.bytesUp + n) = wrapInt64 (dataBytes r.sess.sent - 0)
      have hn : r.upBytes = (n : Int) := by
        simp [Running.upBytes, hp]
      rw [hu, hn, wrapInt64_add_wrapInt64]
      congr 1
      omega
  | streamWrite recv writeErr sendErr now =>
    by_cases hrun : (r.sess.streamToTun && r.downPending.isNone) = true
    · have hnone : r.downPending = none := by
        have := (Bool.and_eq_true _ _).mp hrun
        exact Option.isNone_iff_eq_none.mp this.2
      obtain ⟨_, e2, e3, e4, e5⟩ :=
        handleStreamToTunWrite_effect P r.sess rnd recv writeErr sendErr now
      simp only [Running.step, hrun, if_true]
      constructor
      · show (Server.handleStreamToTunWrite P r.sess rnd recv writeErr sendErr now).1.conn.bytesUp
          = wrapInt64 (dataBytes
              (Server.handleStreamToTunWrite P r.sess rnd recv writeErr sendErr now).1.sent
            - r.upBytes)
        rw [e2, e4]
        exact hu
      · show (Server.handleStreamToTunWrite P r.sess rnd recv writeErr sendErr
            now).1.conn.bytesDown
          = wrapInt64 (writtenBytes
              (Server.handleStreamToTunWrite P r.sess rnd recv writeErr sendErr now).1.written
            - (((Server.handleStreamToTunWrite P r.sess rnd recv writeErr sendErr now).2.2.getD 0
                : Nat) : Int))
        rw [e3, e5, hd]
        have hz : r.downBytes = 0 := by
          simp [Running.downBytes, hnone]
        rw [hz]
        congr 1
        omega
    · simp only [Running.step, hrun]
      exact ⟨hu, hd⟩
  | streamCount =>
    cases hp : r.downPending with
    | none =>
      simp only [Running.step, hp]
      exact ⟨hu, hd⟩
    | some n =>
      simp only [Running.step, hp]
      refine ⟨hu, ?_⟩
      show wrapInt64 (r.sess.conn.bytesDown + n) = wrapInt64 (writtenBytes r.sess.written - 0)
      have hn : r.downBytes = (n : Int) := by
        simp [Running.downBytes, hp]
      rw [hd, hn, wrapInt64_add_wrapInt64]
      congr 1
      omega
  | tick now sendErr =>
    exact (step_evolves P r.sess rnd (.tick now sendErr)).accounted_less _ _ hu hd
  | ctxDone => exact (step_evolves P r.sess rnd .ctxDone).accounted_less _ _ hu hd

theorem Running.run_accounted (P : XChaCha20Poly1305) (sts : List Stmt) :
    ∀ (r : Running) (rnd : RandSource), r.Accounted →
      (r.run P rnd sts).1.Accounted ∧ (r.run P rnd sts).1.sess.uuid = r.sess.uuid := by
  induction sts with
  | nil =>
    intro r rnd h
    exact ⟨h, rfl⟩
  | cons st sts ih =>
    intro r rnd h
    obtain ⟨h1, h2⟩ := ih _ (r.step P rnd st).2 (Running.step_accounted P r rnd st h)
    exact ⟨h1, h2.trans (Running.step_uuid P r rnd st)⟩

theorem handleTunToStream_split (P : XChaCha20Poly1305) (sess : Session) (rnd : RandSource)
    (data : List Byte) (readErr sendErr : Option Err) :
    Server.handleTunToStream P sess rnd data readErr sendErr
      = (match (Server.handleTunToStreamSend P sess rnd data readErr sendErr).2.2 with
         | none => (Server.handleTunToStreamSend P sess rnd data readErr sendErr).1
         | some n =>
           { (Server.handleTunToStreamSend P sess rnd data readErr sendErr).1 with
             conn := { (Server.handleTunToStreamSend P sess rnd data readErr sendErr).1.conn with
               bytesUp := wrapInt64
                 ((Server.handleTunToStreamSend P sess rnd data readErr sendErr).1.conn.bytesUp
                   + n) } },
         (Server.handleTunToStreamSend P sess rnd data readErr sendErr).2.1) := by
  unfold Server.handleTunToStreamSend Server.handleTunToStream
  by_cases hd : sess.conn.done = true
  · rw [if_pos hd, if_pos hd]
  · rw [if_neg hd, if_neg hd]
    cases readErr with
    | some err => rfl
    | none =>
      dsimp only
      by_cases hn : (data.take 1500).length > 0
      · rw [if_pos hn, if_pos hn]
        rcases Server.sendFrame P sess.conn rnd
          { Typ := protocol.FrameTypeData, Data := data.take 1500 } sendErr
          with ⟨_ | err, rnd1, msg⟩
        · rfl
        · rfl
      · rw [if_neg hn, if_neg hn]

theorem handleStreamToTun_split (P : XChaCha20Poly1305) (sess : Session) (rnd : RandSource)
    (recv : Except Err (List Byte)) (writeErr sendErr : Option Err) (now : Int) :
    Server.handleStreamToTun P sess rnd recv writeErr sendErr now
      = (match (Server.handleStreamToTunWrite P sess rnd recv writeErr sendErr now).2.2 with
         | none => (Server.handleStreamToTunWrite P sess rnd recv writeErr sendErr now).1
         | some n =>
           { (Server.handleStreamToTunWrite P sess rnd recv writeErr sendErr now).1 with
             conn :=
               { (Server.handleStreamToTunWrite P sess rnd recv writeErr sendErr now).1.conn with
                 bytesDown := wrapInt64
                   ((Server.handleStreamToTunWrite P sess rnd recv writeErr sendErr
                      now).1.conn.bytesDown + n) } },
         (Server.handleStreamToTunWrite P sess rnd recv writeErr sendErr now).2.1) := by
  unfold Server.handleStreamToTunWrite Server.handleStreamToTun
  by_cases hd : sess.conn.done = true
  · rw [if_pos hd, if_pos hd]
  · rw [if_neg hd, if_neg hd]
    cases recv with
    | error err =>
      dsimp only
      by_cases he : err = Err.EOF
      · rw [if_pos he, if_pos he]
      · rw [if_neg he, if_neg he]
    | ok msgData =>
      dsimp only
      cases sess.conn.cipher.Decrypt P msgData with
      | error e => rfl
      | ok decrypted =>
        dsimp only
        cases decrypted with
        | nil => rfl
        | cons typ payload =>
          have hlen : ¬ (typ :: payload).length < 1 := by simp
          rw [if_neg hlen, if_neg hlen]
          dsimp only
          by_cases h0 : typ = protocol.FrameTypeData
          · rw [if_pos h0, if_pos h0]
            cases writeErr with
            | some err => rfl
            | none => rfl
          · rw [if_neg h0, if_neg h0]
            dsimp only
            simp only [Server.switchFrameType, h0, if_false]

theorem Running.pass_tunToStream (P : XChaCha20Poly1305) (sess : Session) (rnd : RandSource)
    (data : List Byte) (readErr sendErr : Option Err) :
    (Running.start sess).run P rnd [.tunSend data readErr sendErr, .tunCount]
      = (Running.start (sess.step P rnd (.tunRead data readErr sendErr)).1,
         (sess.step P rnd (.tunRead data readErr sendErr)).2) := by
  by_cases hl : sess.tunToStream = true
  · have hstep : sess.step P rnd (.tunRead data readErr sendErr)
        = Server.handleTunToStream P sess rnd data readErr sendErr := by
      simp only [Session.step, hl, if_true]
    have hrun : ((Running.start sess).sess.tunToStream
        && (Running.start sess).upPending.isNone) = true := by
      simp [Running.start, hl]
    rw [hstep, handleTunToStream_split]
    simp only [Running.run, Running.step, hrun, if_true]
    have e : (Running.start sess).sess = sess := rfl
    rw [e]
    cases (Server.handleTunToStreamSend P sess rnd data readErr sendErr).2.2 <;> rfl
  · have hstep : sess.step P rnd (.tunRead data readErr sendErr) = (sess, rnd) := by
      simp only [Session.step, hl]
      rfl
    have hrun : ¬ ((Running.start sess).sess.tunToStream
        && (Running.start sess).upPending.isNone) = true := by
      simp [Running.start, hl]
    rw [hstep]
    simp only [Running.run, Running.step, hrun]
    rfl

theorem Running.pass_streamToTun (P : XChaCha20Poly1305) (sess : Session) (rnd : RandSource)
    (recv : Except Err (List Byte)) (writeErr sendErr : Option Err) (now : Int) :
    (Running.start sess).run P rnd [.streamWrite recv writeErr sendErr now, .streamCount]
      = (Running.start (sess.step P rnd (.streamRecv recv writeErr sendErr now)).1,
         (sess.step P rnd (.streamRecv recv writeErr sendErr now)).2) := by
  by_cases hl : sess.streamToTun = true
  · have hstep : sess.step P rnd (.streamRecv recv writeErr sendErr now)
        = Server.handleStreamToTun P sess rnd recv writeErr sendErr now := by
      simp only [Session.step, hl, if_true]
    have hrun : ((Running.start sess).sess.streamToTun
        && (Running.start sess).downPending.isNone) = true := by
      simp [Running.start, hl]
    rw [hstep, handleStreamToTun_split]
    simp only [Running.run, Running.step, hrun, if_true]
    have e : (Running.start sess).sess = sess := rfl
    rw [e]
    cases (Server.handleStreamToTunWrite P sess rnd recv writeErr sendErr now).2.2 <;> rfl
  · have hstep : sess.step P rnd (.streamRecv recv writeErr sendErr now) = (sess, rnd) := by
      simp only [Session.step, hl]
      rfl
    have hrun : ¬ ((Running.start sess).sess.streamToTun
        && (Running.start sess).downPending.isNone) = true := by
      simp [Running.start, hl]
    rw [hstep]
    simp only [Running.run, Running.step, hrun]
    rfl

end tunnel

namespace tunnel

theorem Running.run_append (P : XChaCha20Poly1305) (xs ys : List Stmt) :
    ∀ (r : Running) (rnd : RandSource),
      r.run P rnd (xs ++ ys) = (r.run P rnd xs).1.run P (r.run P rnd xs).2 ys := by
  induction xs with
  | nil =>
    intro r rnd
    rfl
  | cons x xs ih =>
    intro r rnd
    exact ih _ _

theorem Running.run_statements (P : XChaCha20Poly1305) (evs : List Event) :
    ∀ (sess : Session) (rnd : RandSource),
      (Running.start sess).run P rnd (evs.flatMap Event.statements)
        = (Running.start (sess.run P rnd evs).1, (sess.run P rnd evs).2) := by
  induction evs with
  | nil =>
    intro sess rnd
    rfl
  | cons ev evs ih =>
    intro sess rnd
    have hone : (Running.start sess).run P rnd ev.statements
        = (Running.start (sess.step P rnd ev).1, (sess.step P rnd ev).2) := by
      cases ev with
      | tunRead data readErr sendErr => exact Running.pass_tunToStream P sess rnd _ _ _
      | streamRecv recv writeErr sendErr now =>
        exact Running.pass_streamToTun P sess rnd _ _ _ _
      | tick now sendErr => rfl
      | ctxDone => rfl
    rw [List.flatMap_cons, Running.run_append, hone]
    exact ih _ _

theorem Running.start_accounted (sess : Session) (hu : sess.conn.bytesUp = 0)
    (hd : sess.conn.bytesDown = 0) (hs : sess.sent = []) (hw : sess.written = []) :
    (Running.start sess).Accounted := by
  constructor
  · show sess.conn.bytesUp = wrapInt64 (dataBytes sess.sent - 0)
    rw [hu, hs]
    rfl
  · show sess.conn.bytesDown = wrapInt64 (writtenBytes sess.written - 0)
    rw [hd, hw]
    rfl

end tunnel

/-! ## Byte accounting, statement by statement: properties -/

/-- C10, as stated, fails in two ways. The session registered for `alice`, whose credential has
`BytesUp = 50`, sends a packet of 100 bytes without error; before its adapter loop has run the
counter update, the channel loop meets the end of the stream, `Connect` returns and its clean-up
reads the counters: `BytesUp` stays 50. And the counters are `int64`: a credential whose `BytesUp`
is the largest `int64` value ends at the smallest one after a session that forwarded one byte and
counted it. -/
theorem C10_counter_wraps_and_misses_packet_in_flight :
    ((sample.server.ConnectAccept 0 (sample.env "s3cret")).1 = .ok sample.session ∧
     tunnel.dataBytes sample.inFlight.sess.sent = 100 ∧
     sample.inFlight.upPending = some 100 ∧
     sample.inFlight.sess.canReturn = true ∧
     ((tunnel.Server.ConnectDeferredAt sample.server sample.inFlight.sess
        sample.inFlight.sess).clientManager.clients.lookup "alice").map (fun c => c.BytesUp)
       = some 50) ∧
    (∃ sess0 s1,
      sample.saturatedServer.ConnectAccept 0 (sample.env "s3cret") = (.ok sess0, s1) ∧
      tunnel.dataBytes
        ((tunnel.Running.start sess0).run toyPrimitive { pool := List.replicate 24 1 }
          [.tunSend [0] none none, .tunCount,
           .streamWrite (.error Err.EOF) none none 11]).1.sess.sent = 1 ∧
      ((tunnel.Running.start sess0).run toyPrimitive { pool := List.replicate 24 1 }
          [.tunSend [0] none none, .tunCount,
           .streamWrite (.error Err.EOF) none none 11]).1.upPending = none ∧
      (s1.clientManager.clients.lookup "alice").map (fun c => c.BytesUp)
        = some 9223372036854775807 ∧
      ((tunnel.Server.ConnectDeferredAt s1
          ((tunnel.Running.start sess0).run toyPrimitive { pool := List.replicate 24 1 }
            [.tunSend [0] none none, .tunCount,
             .streamWrite (.error Err.EOF) none none 11]).1.sess
          ((tunnel.Running.start sess0).run toyPrimitive { pool := List.replicate 24 1 }
            [.tunSend [0] none none, .tunCount,
             .streamWrite (.error Err.EOF) none none 11]).1.sess).clientManager.clients.lookup
          "alice").map (fun c => c.BytesUp)
        = some (-9223372036854775808)) :=
  ⟨⟨by decide, by decide, by decide, by decide, by decide⟩,
    ⟨_, _, rfl, by decide, by decide, by decide, by decide⟩⟩

/-- C10 (amended). Byte accounting in `int64` arithmetic, the loops running statement by
statement and the clean-up of `Connect` reading `conn.bytesUp` at one moment of the interleaving
and `conn.bytesDown` at that moment or a later one. For a session registered by `Connect`, let
`up` be the bytes of the `Data` frames sent without error when `conn.bytesUp` is read and `down`
the bytes of the payloads written to the adapter without error when `conn.bytesDown` is read. If
the credential still exists, the clean-up sets its `BytesUp` to `wrapInt64 (BytesUp + up)` when
no counter update of the adapter loop is pending at the read, and its `BytesDown` to
`wrapInt64 (BytesDown + down)` when none of the channel loop is pending; these are exactly
`BytesUp + up` and `BytesDown + down` whenever those sums stay within the `int64` range. In
general each counter lacks only the bytes of the one pass whose update is pending. Every schedule
of whole passes is such an interleaving, with no update pending at its end, and the clean-up with
both reads at one moment is the deferred function of `Connect`. -/
theorem C10_byte_accounting (P : XChaCha20Poly1305) (s0 s1 s : tunnel.Server) (ptr : Nat)
    (env : tunnel.ConnectEnv) (sess0 : tunnel.Session) (rnd : RandSource)
    (sts1 sts2 : List tunnel.Stmt) (c : auth.Client)
    (hacc : s0.ConnectAccept ptr env = (.ok sess0, s1))
    (hc : s.clientManager.clients.lookup sess0.uuid = some c) :
    (∃ c2,
      (tunnel.Server.ConnectDeferredAt s ((tunnel.Running.start sess0).run P rnd sts1).1.sess
        ((tunnel.Running.start sess0).run P rnd (sts1 ++ sts2)).1.sess).clientManager.clients.lookup
        sess0.uuid = some c2 ∧
      c2.BytesUp
        = wrapInt64 (c.BytesUp
            + (tunnel.dataBytes ((tunnel.Running.start sess0).run P rnd sts1).1.sess.sent
                - ((tunnel.Running.start sess0).run P rnd sts1).1.upBytes)) ∧
      c2.BytesDown
        = wrapInt64 (c.BytesDown
            + (tunnel.writtenBytes
                  ((tunnel.Running.start sess0).run P rnd (sts1 ++ sts2)).1.sess.written
                - ((tunnel.Running.start sess0).run P rnd (sts1 ++ sts2)).1.downBytes)) ∧
      (((tunnel.Running.start sess0).run P rnd sts1).1.upPending = none →
        c2.BytesUp
          = wrapInt64 (c.BytesUp
              + tunnel.dataBytes ((tunnel.Running.start sess0).run P rnd sts1).1.sess.sent) ∧
        (-(2 ^ 63) ≤ c.BytesUp →
          c.BytesUp + tunnel.dataBytes ((tunnel.Running.start sess0).run P rnd sts1).1.sess.sent
            < 2 ^ 63 →
          c2.BytesUp
            = c.BytesUp
              + tunnel.dataBytes ((tunnel.Running.start sess0).run P rnd sts1).1.sess.sent)) ∧
      (((tunnel.Running.start sess0).run P rnd (sts1 ++ sts2)).1.downPending = none →
        c2.BytesDown
          = wrapInt64 (c.BytesDown
              + tunnel.writtenBytes
                  ((tunnel.Running.start sess0).run P rnd (sts1 ++ sts2)).1.sess.written) ∧
        (-(2 ^ 63) ≤ c.BytesDown →
          c.BytesDown
            + tunnel.writtenBytes
                ((tunnel.Running.start sess0).run P rnd (sts1 ++ sts2)).1.sess.written < 2 ^ 63 →
          c2.BytesDown
            = c.BytesDown
              + tunnel.writtenBytes
                  ((tunnel.Running.start sess0).run P rnd (sts1 ++ sts2)).1.sess.written))) ∧
    (∀ evs : List tunnel.Event,
      (tunnel.Running.start sess0).run P rnd (evs.flatMap tunnel.Event.statements)
        = (tunnel.Running.start (sess0.run P rnd evs).1, (sess0.run P rnd evs).2)) ∧
    (∀ x : tunnel.Session,
      tunnel.Server.ConnectDeferredAt s x x = tunnel.Server.ConnectDeferred s x) := by
  obtain ⟨_, _, hup, hdown, hsent, hwritten, _⟩ := tunnel.ConnectAccept_ok s0 ptr env sess0 s1 hacc
  have hstart := tunnel.Running.start_accounted sess0 hup hdown hsent hwritten
  obtain ⟨⟨hu1, _⟩, hid1⟩ := tunnel.Running.run_accounted P sts1 _ rnd hstart
  obtain ⟨⟨_, hd2⟩, _⟩ := tunnel.Running.run_accounted P (sts1 ++ sts2) _ rnd hstart
  have hid : ((tunnel.Running.start sess0).run P rnd sts1).1.sess.uuid = sess0.uuid := hid1
  have hlook :
      (tunnel.Server.ConnectDeferredAt s ((tunnel.Running.start sess0).run P rnd sts1).1.sess
        ((tunnel.Running.start sess0).run P rnd (sts1 ++ sts2)).1.sess).clientManager.clients.lookup
        sess0.uuid
      = some { c with
          BytesUp := wrapInt64
            (c.BytesUp + ((tunnel.Running.start sess0).run P rnd sts1).1.sess.conn.bytesUp),
          BytesDown := wrapInt64
            (c.BytesDown
              + ((tunnel.Running.start sess0).run P rnd (sts1 ++ sts2)).1.sess.conn.bytesDown) } := by
    show (s.clientManager.UpdateTraffic _ _ _).clients.lookup sess0.uuid = _
    rw [hid, UpdateTraffic_lookup _ _ _ _ _ c hc, if_pos rfl]
  have hupEq : wrapInt64
      (c.BytesUp + ((tunnel.Running.start sess0).run P rnd sts1).1.sess.conn.bytesUp)
      = wrapInt64 (c.BytesUp
          + (tunnel.dataBytes ((tunnel.Running.start sess0).run P rnd sts1).1.sess.sent
              - ((tunnel.Running.start sess0).run P rnd sts1).1.upBytes)) := by
    rw [hu1, wrapInt64_add_wrapInt64_right]
  have hdownEq : wrapInt64
      (c.BytesDown
        + ((tunnel.Running.start sess0).run P rnd (sts1 ++ sts2)).1.sess.conn.bytesDown)
      = wrapInt64 (c.BytesDown
          + (tunnel.writtenBytes
                ((tunnel.Running.start sess0).run P rnd (sts1 ++ sts2)).1.sess.written
              - ((tunnel.Running.start sess0).run P rnd (sts1 ++ sts2)).1.downBytes)) := by
    rw [hd2, wrapInt64_add_wrapInt64_right]
  refine ⟨⟨_, hlook, hupEq, hdownEq, ?_, ?_⟩,
    fun evs => tunnel.Running.run_statements P evs sess0 rnd, fun _ => rfl⟩
  · intro hp
    have hz : ((tunnel.Running.start sess0).run P rnd sts1).1.upBytes = 0 := by
      simp [tunnel.Running.upBytes, hp]
    have e : wrapInt64
        (c.BytesUp + ((tunnel.Running.start sess0).run P rnd sts1).1.sess.conn.bytesUp)
        = wrapInt64 (c.BytesUp
            + tunnel.dataBytes ((tunnel.Running.start sess0).run P rnd sts1).1.sess.sent) := by
      rw [hupEq, hz, Int.sub_zero]
    refine ⟨e, ?_⟩
    intro h1 h2
    show wrapInt64 _ = _
    rw [e]
    have := dataBytes_nonneg ((tunnel.Running.start sess0).run P rnd sts1).1.sess.sent
    exact tunnel.wrapInt64_of_range _ (by omega) h2
  · intro hp
    have hz : ((tunnel.Running.start sess0).run P rnd (sts1 ++ sts2)).1.downBytes = 0 := by
      simp [tunnel.Running.downBytes, hp]
    have e : wrapInt64
        (c.BytesDown
          + ((tunnel.Running.start sess0).run P rnd (sts1 ++ sts2)).1.sess.conn.bytesDown)
        = wrapInt64 (c.BytesDown
            + tunnel.writtenBytes
                ((tunnel.Running.start sess0).run P rnd (sts1 ++ sts2)).1.sess.written) := by
      rw [hdownEq, hz, Int.sub_zero]
    refine ⟨e, ?_⟩
    intro h1 h2
    show wrapInt64 _ = _
    rw [e]
    have := writtenBytes_nonneg
      ((tunnel.Running.start sess0).run P rnd (sts1 ++ sts2)).1.sess.written
    exact tunnel.wrapInt64_of_range _ (by omega) h2

theorem C10_byte_accounting_witness :
    tunnel.dataBytes sample.counted.sess.sent = 600 ∧
    tunnel.writtenBytes sample.counted.sess.written = 5 ∧
    ((tunnel.Running.start sample.session).run toyPrimitive { pool := List.replicate 120 1 }
        (sample.schedule.flatMap tunnel.Event.statements)).1
      = tunnel.Running.start sample.forwarded ∧
    ∃ c2,
      (tunnel.Server.ConnectDeferredAt sample.server sample.counted.sess
        sample.counted.sess).clientManager.clients.lookup "alice" = some c2 ∧
      c2.BytesUp = 50 + 600 ∧ c2.BytesDown = 60 + 5 := by
  obtain ⟨⟨c2, hl, _, _, hup, hdown⟩, hsched, _⟩ := C10_byte_accounting toyPrimitive
    sample.server { sample.server with connections := [("alice", 0)] } sample.server 0
    (sample.env "s3cret") sample.session { pool := List.replicate 120 1 } sample.statements []
    sample.client (by decide) (by decide)
  have h600 : tunnel.dataBytes sample.counted.sess.sent = 600 := by decide
  have h5 : tunnel.writtenBytes sample.counted.sess.written = 5 := by decide
  refine ⟨h600, h5, congrArg Prod.fst (hsched sample.schedule), c2, ?_, ?_, ?_⟩
  · rw [List.append_nil] at hl
    exact hl
  · have := (hup (by decide)).2 (by decide) (by decide)
    rw [this]
    exact congrArg (fun n => sample.client.BytesUp + n) h600
  · have := (hdown (by decide)).2 (by decide) (by decide)
    rw [this, List.append_nil]
    exact congrArg (fun n => sample.client.BytesDown + n) h5

end Yagnoetik
